import Mathlib

/-!
Verification of the slipstream data-plane engine (DNS-tunnelled QUIC proxy).

This file shallowly embeds the Rust sources of the repository:
* `crates/slipstream-core/src/flow_control.rs` (per-stream flow control),
* `crates/slipstream-client/src/pacing.rs` (pacing poll budget),
* `crates/slipstream-client/src/runtime/setup.rs` (`compute_mtu`),
* `crates/slipstream-server/src/udp_fallback.rs` (DNS / fallback classification),
* `crates/slipstream-dns/src/{name,wire,codec}.rs` (DNS wire codec),
* `crates/slipstream-client/src/dns/response.rs` (`handle_dns_response`),
and proves the specification claims about them.

Modelling conventions:
* Machine integers (`u16`, `u32`, `u64`, `usize`) are `Nat` with explicit
  saturation where the source saturates; `usize` is modelled as 64-bit.
* Byte strings (`&[u8]`, `Vec<u8>`) and Rust `String`s are `List Nat`
  (a Rust `String` is its UTF-8 byte sequence; all string operations used by
  the source - `len`, `ends_with`, `to_ascii_lowercase`, slicing, `split('.')`,
  `trim_end_matches('.')` - act byte-wise and are translated byte-wise).
* Fallible Rust code returning `Result`/`Option` becomes `Except`/`Option`;
  error messages are kept verbatim.
* External callbacks (the QUIC transport's `stream_data_consumed`,
  `stop_sending`, the enqueue into the TCP writer channel, and
  `picoquic_incoming_packet_ex`) are oracles: their return values are
  explicit parameters, and the number of times each is invoked is recorded
  in an effect record.
-/

/-! ## Flow-control core (`flow_control.rs`) -/

/-- `u64::MAX` (also `usize::MAX`: `usize` is modelled as 64-bit). -/
def U64_MAX : Nat := 2 ^ 64 - 1

/-- Saturating 64-bit addition (`u64::saturating_add` / `usize::saturating_add`). -/
def sat64 (a b : Nat) : Nat := min (a + b) U64_MAX

/-- `FlowControlState` from `flow_control.rs`. -/
structure FlowControlState where
  queued_bytes : Nat
  rx_bytes : Nat
  consumed_offset : Nat
  fin_offset : Option Nat
  discarding : Bool
  stop_sending_sent : Bool
deriving Repr, DecidableEq

/-- `FlowControlState::default()`. -/
def FlowControlState.default : FlowControlState :=
  { queued_bytes := 0, rx_bytes := 0, consumed_offset := 0, fin_offset := none
    discarding := false, stop_sending_sent := false }

/-- `StreamReceiveConfig` from `flow_control.rs`. -/
structure StreamReceiveConfig where
  multi_stream : Bool
  reserve_bytes : Nat
  max_queue : Nat
deriving Repr, DecidableEq

/-- Default per-stream queue cap (`DEFAULT_STREAM_QUEUE_MAX_BYTES`). -/
def DEFAULT_STREAM_QUEUE_MAX_BYTES : Nat := 2 * 1024 * 1024

/-- Default single-stream reserve (`DEFAULT_CONN_RESERVE_BYTES`). -/
def DEFAULT_CONN_RESERVE_BYTES : Nat := 64 * 1024

/-- Effect counters for one flow-control operation: how many times each of the
caller-provided callbacks (`log_overflow`, `stop_sending`, `on_overflow`,
`enqueue`, `consume`) was invoked. -/
structure RecvEffects where
  overflow_logs : Nat := 0
  stop_sending_calls : Nat := 0
  overflow_hooks : Nat := 0
  enqueue_calls : Nat := 0
  consume_calls : Nat := 0
deriving Repr, DecidableEq

/-- `apply_consumed_offset` from `flow_control.rs`.  `consumeRet` is the `i32`
the transport's `stream_data_consumed` callback would return if invoked.
Returns `(consumed', ok, called)`: the new offset, the boolean result of the
Rust function, and whether the callback was invoked. -/
def apply_consumed_offset (consumed target : Nat) (consumeRet : Int) :
    Nat × Bool × Bool :=
  if target ≤ consumed then (consumed, true, false)
  else if consumeRet < 0 then (consumed, false, true)
  else (target, true, true)

/-- `reserve_target_offset` from `flow_control.rs`. -/
def reserve_target_offset (rx_bytes queued_bytes : Nat) (fin_offset : Option Nat)
    (reserve_bytes : Nat) : Nat :=
  let drained := rx_bytes - queued_bytes
  let target :=
    if 0 < reserve_bytes then min (sat64 drained reserve_bytes) rx_bytes else drained
  match fin_offset with
  | some fin => if fin < target then fin else target
  | none => target

/-- `handle_queue_overflow` from `flow_control.rs`.  Returns
`(overflowed, consumed', stop_sending_sent', effects)`. -/
def handle_queue_overflow (queued_bytes incoming_len max_queue rx_bytes consumed : Nat)
    (stop_sending_sent : Bool) (consumeRet : Int) :
    Bool × Nat × Bool × RecvEffects :=
  let projected := sat64 queued_bytes incoming_len
  if projected ≤ max_queue then (false, consumed, stop_sending_sent, {})
  else
    let r := apply_consumed_offset consumed rx_bytes consumeRet
    (true, r.1, true,
      { overflow_logs := 1
        stop_sending_calls := if stop_sending_sent then 0 else 1
        consume_calls := if r.2.2 then 1 else 0 })

/-- `handle_stream_receive` from `flow_control.rs`.  `enqueueOk` is the result
of the `enqueue` callback and `consumeRet` the `i32` from the transport's
consume callback (each invoked at most once per call).  Returns
`(state', effects, reset_stream)`. -/
def handle_stream_receive (s : FlowControlState) (incoming_len : Nat)
    (cfg : StreamReceiveConfig) (enqueueOk : Bool) (consumeRet : Int) :
    FlowControlState × RecvEffects × Bool :=
  if incoming_len = 0 then (s, {}, false)
  else
    let rx := sat64 s.rx_bytes incoming_len
    if s.discarding then
      let r := apply_consumed_offset s.consumed_offset rx consumeRet
      ({ s with rx_bytes := rx, consumed_offset := r.1 },
       { consume_calls := if r.2.2 then 1 else 0 }, false)
    else if cfg.multi_stream then
      let o := handle_queue_overflow s.queued_bytes incoming_len cfg.max_queue rx
        s.consumed_offset s.stop_sending_sent consumeRet
      if o.1 then
        ({ queued_bytes := 0, rx_bytes := rx, consumed_offset := o.2.1
           fin_offset := s.fin_offset, discarding := true
           stop_sending_sent := o.2.2.1 },
         { o.2.2.2 with overflow_hooks := 1 }, false)
      else
        let queued' := if enqueueOk then sat64 s.queued_bytes incoming_len
          else s.queued_bytes
        let r := apply_consumed_offset s.consumed_offset rx consumeRet
        ({ queued_bytes := queued', rx_bytes := rx, consumed_offset := r.1
           fin_offset := s.fin_offset, discarding := false
           stop_sending_sent := o.2.2.1 },
         { enqueue_calls := 1, consume_calls := if r.2.2 then 1 else 0 },
         !enqueueOk || !r.2.1)
    else
      let queued' := if enqueueOk then sat64 s.queued_bytes incoming_len
        else s.queued_bytes
      if 0 < cfg.reserve_bytes then
        let target := reserve_target_offset rx queued' s.fin_offset cfg.reserve_bytes
        let r := apply_consumed_offset s.consumed_offset target consumeRet
        ({ s with queued_bytes := queued', rx_bytes := rx, consumed_offset := r.1 },
         { enqueue_calls := 1, consume_calls := if r.2.2 then 1 else 0 },
         !enqueueOk || !r.2.1)
      else
        ({ s with queued_bytes := queued', rx_bytes := rx },
         { enqueue_calls := 1 }, !enqueueOk)

/-- The body of `promote_streams` for one `PromoteEntry` (skip when discarding,
otherwise `promote_consumed_offset`). -/
def promote_step (s : FlowControlState) (consumeRet : Int) : FlowControlState :=
  if s.discarding then s
  else if s.rx_bytes ≤ s.consumed_offset then s
  else
    let r := apply_consumed_offset s.consumed_offset s.rx_bytes consumeRet
    { s with consumed_offset := r.1 }

/-- `promote_streams` from `flow_control.rs`: the idempotent sweep over a list
of stream records, each paired with the oracle result of its consume callback. -/
def promote_streams (entries : List (FlowControlState × Int)) : List FlowControlState :=
  entries.map fun e => promote_step e.1 e.2

/-- One operation of claim C2's sequences: a `handle_stream_receive` call (with
its oracle results) or a `promote_streams` sweep touching this record. -/
inductive FlowOp where
  | recv (incoming_len : Nat) (cfg : StreamReceiveConfig) (enqueueOk : Bool)
      (consumeRet : Int)
  | promote (consumeRet : Int)

/-- Apply one `FlowOp` to a stream record. -/
def flowStep (s : FlowControlState) : FlowOp → FlowControlState
  | .recv n cfg e r => (handle_stream_receive s n cfg e r).1
  | .promote r => promote_step s r

/-- Apply a sequence of `FlowOp`s starting from a state. -/
def flowRun (s : FlowControlState) (ops : List FlowOp) : FlowControlState :=
  ops.foldl flowStep s

/-- All receive operations of a sequence are multi-stream with queue cap `M`. -/
def allMulti (M : Nat) : List FlowOp → Prop
  | [] => True
  | .recv _ cfg _ _ :: rest => cfg.multi_stream = true ∧ cfg.max_queue = M ∧ allMulti M rest
  | .promote _ :: rest => allMulti M rest

/-! ### Flow-control lemmas -/

theorem apply_consumed_offset_ge (c t : Nat) (r : Int) :
    c ≤ (apply_consumed_offset c t r).1 := by
  unfold apply_consumed_offset
  split
  · exact Nat.le_refl c
  · split
    · exact Nat.le_refl c
    · next h _ => exact Nat.le_of_not_le h

theorem apply_consumed_offset_le_max (c t : Nat) (r : Int) :
    (apply_consumed_offset c t r).1 ≤ max c t := by
  unfold apply_consumed_offset
  split
  · exact Nat.le_max_left c t
  · split
    · exact Nat.le_max_left c t
    · exact Nat.le_max_right c t

theorem apply_consumed_offset_ok (c t : Nat) (r : Int) (hct : c < t) (hr : 0 ≤ r) :
    apply_consumed_offset c t r = (t, true, true) := by
  unfold apply_consumed_offset
  rw [if_neg (by omega), if_neg (by omega)]

theorem sat64_le_right (a b : Nat) : sat64 a b ≤ U64_MAX := Nat.min_le_right _ _

theorem sat64_ge_left (a b : Nat) (h : a ≤ U64_MAX) : a ≤ sat64 a b := by
  unfold sat64; omega

theorem handle_queue_overflow_consumed_ge (q n m rx c : Nat) (ss : Bool) (r : Int) :
    c ≤ (handle_queue_overflow q n m rx c ss r).2.1 := by
  simp only [handle_queue_overflow]
  split
  · exact Nat.le_refl _
  · exact apply_consumed_offset_ge _ _ _

theorem handle_queue_overflow_consumed_le (q n m rx c : Nat) (ss : Bool) (r : Int) :
    (handle_queue_overflow q n m rx c ss r).2.1 ≤ max c rx := by
  simp only [handle_queue_overflow]
  split
  · exact Nat.le_max_left _ _
  · exact apply_consumed_offset_le_max _ _ _

theorem flowStep_consumed_mono (s : FlowControlState) (op : FlowOp) :
    s.consumed_offset ≤ (flowStep s op).consumed_offset := by
  cases op with
  | promote r =>
    show s.consumed_offset ≤ (promote_step s r).consumed_offset
    simp only [promote_step]
    split
    · exact Nat.le_refl _
    · split
      · exact Nat.le_refl _
      · exact apply_consumed_offset_ge _ _ _
  | recv n cfg e r =>
    show s.consumed_offset ≤ (handle_stream_receive s n cfg e r).1.consumed_offset
    simp only [handle_stream_receive]
    split
    · exact Nat.le_refl _
    · split
      · exact apply_consumed_offset_ge _ _ _
      · split
        · split
          · exact handle_queue_overflow_consumed_ge _ _ _ _ _ _ _
          · exact apply_consumed_offset_ge _ _ _
        · split
          · exact apply_consumed_offset_ge _ _ _
          · exact Nat.le_refl _

theorem handle_queue_overflow_fst (q n m rx c : Nat) (ss : Bool) (r : Int) :
    (handle_queue_overflow q n m rx c ss r).1 = decide (m < sat64 q n) := by
  simp only [handle_queue_overflow]
  split
  · next h => simp; omega
  · next h => simp; omega

/-- Reachability invariant of a stream record under `FlowOp`s: the consumed
offset trails `rx_bytes`, `rx_bytes` never exceeds `u64::MAX`, `fin_offset`
stays unset (no `FlowOp` writes it), and a discarding stream has an empty
queue. -/
def flowInvFull (s : FlowControlState) : Prop :=
  s.consumed_offset ≤ s.rx_bytes ∧ s.rx_bytes ≤ U64_MAX ∧ s.fin_offset = none ∧
    (s.discarding = true → s.queued_bytes = 0)

theorem flowStep_inv (s : FlowControlState) (op : FlowOp) (h : flowInvFull s) :
    flowInvFull (flowStep s op) := by
  obtain ⟨hcr, hr64, hfin, hdq⟩ := h
  cases op with
  | promote r =>
    show flowInvFull (promote_step s r)
    simp only [promote_step]
    split
    · exact ⟨hcr, hr64, hfin, hdq⟩
    · split
      · exact ⟨hcr, hr64, hfin, hdq⟩
      · have h1 := apply_consumed_offset_le_max s.consumed_offset s.rx_bytes r
        unfold flowInvFull
        dsimp only
        exact ⟨by omega, hr64, hfin, hdq⟩
  | recv n cfg e r =>
    show flowInvFull (handle_stream_receive s n cfg e r).1
    simp only [handle_stream_receive]
    split
    · exact ⟨hcr, hr64, hfin, hdq⟩
    · have hrx1 : s.rx_bytes ≤ sat64 s.rx_bytes n := sat64_ge_left _ _ hr64
      have hrx2 : sat64 s.rx_bytes n ≤ U64_MAX := sat64_le_right _ _
      split
      · next hd =>
        have h1 := apply_consumed_offset_le_max s.consumed_offset (sat64 s.rx_bytes n) r
        unfold flowInvFull
        dsimp only
        exact ⟨by omega, hrx2, hfin, fun _ => hdq hd⟩
      · split
        · split
          · have h1 := handle_queue_overflow_consumed_le s.queued_bytes n cfg.max_queue
              (sat64 s.rx_bytes n) s.consumed_offset s.stop_sending_sent r
            unfold flowInvFull
            dsimp only
            exact ⟨by omega, hrx2, hfin, fun _ => rfl⟩
          · have h1 := apply_consumed_offset_le_max s.consumed_offset (sat64 s.rx_bytes n) r
            unfold flowInvFull
            dsimp only
            exact ⟨by omega, hrx2, hfin, by simp⟩
        · next hd _ =>
          split
          · have h1 := apply_consumed_offset_le_max s.consumed_offset
              (reserve_target_offset (sat64 s.rx_bytes n)
                (if e = true then sat64 s.queued_bytes n else s.queued_bytes)
                s.fin_offset cfg.reserve_bytes) r
            have h2 : reserve_target_offset (sat64 s.rx_bytes n)
                (if e = true then sat64 s.queued_bytes n else s.queued_bytes)
                s.fin_offset cfg.reserve_bytes ≤ sat64 s.rx_bytes n := by
              simp only [reserve_target_offset, hfin]
              split
              · omega
              · omega
            unfold flowInvFull
            dsimp only
            exact ⟨by omega, hrx2, hfin, fun hdd => absurd hdd hd⟩
          · unfold flowInvFull
            dsimp only
            exact ⟨by omega, hrx2, hfin, fun hdd => absurd hdd hd⟩

theorem flowRun_inv (ops : List FlowOp) :
    ∀ s : FlowControlState, flowInvFull s → flowInvFull (flowRun s ops) := by
  induction ops with
  | nil => intro s h; exact h
  | cons op rest ih =>
    intro s h
    exact ih (flowStep s op) (flowStep_inv s op h)

theorem flowStep_queued_le (M : Nat) (s : FlowControlState) (op : FlowOp)
    (hmulti : ∀ n cfg e r, op = .recv n cfg e r →
      cfg.multi_stream = true ∧ cfg.max_queue = M)
    (h : s.queued_bytes ≤ M) : (flowStep s op).queued_bytes ≤ M := by
  cases op with
  | promote r =>
    show (promote_step s r).queued_bytes ≤ M
    simp only [promote_step]
    split
    · exact h
    · split
      · exact h
      · exact h
  | recv n cfg e r =>
    obtain ⟨hm, hq⟩ := hmulti n cfg e r rfl
    show (handle_stream_receive s n cfg e r).1.queued_bytes ≤ M
    simp only [handle_stream_receive]
    split
    · exact h
    · split
      · exact h
      · split
        · dsimp only
          exact Nat.zero_le M
        · next hov =>
          rw [handle_queue_overflow_fst] at hov
          simp only [decide_eq_true_eq] at hov
          dsimp only
          split
          · unfold sat64 U64_MAX at *
            omega
          · exact h

theorem flowRun_queued_le (M : Nat) (ops : List FlowOp) :
    ∀ s : FlowControlState, allMulti M ops → s.queued_bytes ≤ M →
      (flowRun s ops).queued_bytes ≤ M := by
  induction ops with
  | nil => intro s _ h; exact h
  | cons op rest ih =>
    intro s hall h
    cases op with
    | recv n cfg e r =>
      obtain ⟨h1, h2, h3⟩ := hall
      exact ih _ h3 (flowStep_queued_le M s (.recv n cfg e r)
        (by intro n' cfg' e' r' heq; cases heq; exact ⟨h1, h2⟩) h)
    | promote r =>
      exact ih _ hall (flowStep_queued_le M s (.promote r) (by intro _ _ _ _ h; cases h) h)

/-- C1: in multi-stream mode, a `handle_stream_receive` whose incoming chunk
overflows the queue (`queued_bytes + incoming_len > max_queue`) logs the
overflow once, advances the consumed offset to the updated `rx_bytes`, calls
`stop_sending` exactly once (zero times when `stop_sending_sent` was already
set), sets `discarding`, clears `queued_bytes`, fires the overflow hook, and
never calls `enqueue`; and every later call while `discarding` holds enqueues
nothing and again advances the consumed offset to `rx_bytes`.  Hypotheses: the
incoming length is nonzero, neither `queued_bytes + incoming_len` nor
`rx_bytes + incoming_len` saturates `u64`, the transport's consume callback
succeeds (`0 ≤ r`), and the consumed offset trails `rx_bytes` (invariant
established by `flow_control_state_invariants`). -/
theorem stream_receive_overflow_behavior :
    (∀ (s : FlowControlState) (n : Nat) (cfg : StreamReceiveConfig) (e : Bool) (r : Int),
      cfg.multi_stream = true → s.discarding = false → n ≠ 0 →
      cfg.max_queue < s.queued_bytes + n → s.queued_bytes + n ≤ U64_MAX →
      0 ≤ r → s.consumed_offset ≤ s.rx_bytes → s.rx_bytes + n ≤ U64_MAX →
      (handle_stream_receive s n cfg e r).1 =
        { queued_bytes := 0, rx_bytes := s.rx_bytes + n
          consumed_offset := s.rx_bytes + n, fin_offset := s.fin_offset
          discarding := true, stop_sending_sent := true } ∧
      (handle_stream_receive s n cfg e r).2.1 =
        { overflow_logs := 1
          stop_sending_calls := if s.stop_sending_sent then 0 else 1
          overflow_hooks := 1, enqueue_calls := 0, consume_calls := 1 } ∧
      (handle_stream_receive s n cfg e r).2.2 = false)
    ∧
    (∀ (s : FlowControlState) (n : Nat) (cfg : StreamReceiveConfig) (e : Bool) (r : Int),
      s.discarding = true → n ≠ 0 → 0 ≤ r →
      s.consumed_offset ≤ s.rx_bytes → s.rx_bytes + n ≤ U64_MAX →
      (handle_stream_receive s n cfg e r).1 =
        { s with rx_bytes := s.rx_bytes + n, consumed_offset := s.rx_bytes + n } ∧
      (handle_stream_receive s n cfg e r).2.1.enqueue_calls = 0) := by
  constructor
  · intro s n cfg e r hm hd hn hover hq64 hr hcr hrx64
    have hsat_rx : sat64 s.rx_bytes n = s.rx_bytes + n := by
      unfold sat64 U64_MAX at *; omega
    have hsat_q : sat64 s.queued_bytes n = s.queued_bytes + n := by
      unfold sat64 U64_MAX at *; omega
    have hov : handle_queue_overflow s.queued_bytes n cfg.max_queue
        (sat64 s.rx_bytes n) s.consumed_offset s.stop_sending_sent r =
        (true, s.rx_bytes + n, true,
          { overflow_logs := 1
            stop_sending_calls := if s.stop_sending_sent then 0 else 1
            consume_calls := 1 }) := by
      simp only [handle_queue_overflow]
      rw [if_neg (by rw [hsat_q]; omega)]
      rw [apply_consumed_offset_ok _ _ _ (by rw [hsat_rx]; omega) hr]
      simp [hsat_rx]
    simp only [handle_stream_receive, hd, hm, hov, if_neg hn]
    simp [hsat_rx]
  · intro s n cfg e r hd hn hr hcr hrx64
    have hsat_rx : sat64 s.rx_bytes n = s.rx_bytes + n := by
      unfold sat64 U64_MAX at *; omega
    simp only [handle_stream_receive, hd, if_neg hn]
    rw [hsat_rx, apply_consumed_offset_ok _ _ _ (by omega) hr]
    exact ⟨rfl, rfl⟩

/-- Witness for `stream_receive_overflow_behavior`: a concrete overflow
(queued 5 + incoming 10 over cap 8) and a concrete discarding-state receive. -/
theorem stream_receive_overflow_behavior_witness :
    ((handle_stream_receive
        ⟨5, 20, 17, none, false, true⟩ 10 ⟨true, 0, 8⟩ true 0).1 =
      ⟨0, 30, 30, none, true, true⟩ ∧
     (handle_stream_receive
        ⟨5, 20, 17, none, false, true⟩ 10 ⟨true, 0, 8⟩ true 0).2.1 =
      { overflow_logs := 1, stop_sending_calls := 0, overflow_hooks := 1
        enqueue_calls := 0, consume_calls := 1 } ∧
     (handle_stream_receive
        ⟨5, 20, 17, none, false, true⟩ 10 ⟨true, 0, 8⟩ true 0).2.2 = false)
    ∧
    ((handle_stream_receive
        ⟨0, 30, 30, none, true, true⟩ 7 ⟨true, 0, 8⟩ true 0).1 =
      ⟨0, 37, 37, none, true, true⟩ ∧
     (handle_stream_receive
        ⟨0, 30, 30, none, true, true⟩ 7 ⟨true, 0, 8⟩ true 0).2.1.enqueue_calls = 0) := by
  constructor
  · have h := stream_receive_overflow_behavior.1
      ⟨5, 20, 17, none, false, true⟩ 10 ⟨true, 0, 8⟩ true 0
      rfl rfl (by decide) (by decide) (by decide) (by decide) (by decide) (by decide)
    simpa using h
  · have h := stream_receive_overflow_behavior.2
      ⟨0, 30, 30, none, true, true⟩ 7 ⟨true, 0, 8⟩ true 0
      rfl (by decide) (by decide) (by decide) (by decide)
    simpa using h

/-- C2: over every sequence of `handle_stream_receive` / `promote_streams`
operations from the default flow-control state, `consumed_offset` is
monotone non-decreasing (each step can only raise it), never exceeds
`rx_bytes`, never exceeds a set `fin_offset` (the operations never set one,
so it stays `none`), and in multi-stream mode with queue cap `M` the queue
obeys `queued_bytes ≤ M`, hence `queued_bytes ≤ M + incoming_len` after each
receive. -/
theorem flow_control_state_invariants :
    (∀ ops : List FlowOp,
      (flowRun FlowControlState.default ops).consumed_offset ≤
        (flowRun FlowControlState.default ops).rx_bytes ∧
      (∀ f, (flowRun FlowControlState.default ops).fin_offset = some f →
        (flowRun FlowControlState.default ops).consumed_offset ≤ f))
    ∧
    (∀ (s : FlowControlState) (op : FlowOp),
      s.consumed_offset ≤ (flowStep s op).consumed_offset)
    ∧
    (∀ (M : Nat) (ops : List FlowOp), allMulti M ops →
      (flowRun FlowControlState.default ops).queued_bytes ≤ M)
    ∧
    (∀ (M : Nat) (ops : List FlowOp) (n : Nat) (cfg : StreamReceiveConfig)
        (e : Bool) (r : Int),
      allMulti M (ops ++ [.recv n cfg e r]) →
      (flowRun FlowControlState.default (ops ++ [.recv n cfg e r])).queued_bytes
        ≤ M + n) := by
  refine ⟨?_, flowStep_consumed_mono, ?_, ?_⟩
  · intro ops
    have h := flowRun_inv ops FlowControlState.default
      ⟨Nat.le_refl 0, Nat.zero_le _, rfl, fun _ => rfl⟩
    obtain ⟨h1, _, h3, _⟩ := h
    exact ⟨h1, fun f hf => absurd (h3 ▸ hf) (by simp)⟩
  · intro M ops hall
    exact flowRun_queued_le M ops FlowControlState.default hall (Nat.zero_le M)
  · intro M ops n cfg e r hall
    have h := flowRun_queued_le M (ops ++ [.recv n cfg e r])
      FlowControlState.default hall (Nat.zero_le M)
    omega

/-- Witness for `flow_control_state_invariants`: a concrete two-receive
multi-stream trace with cap 8. -/
theorem flow_control_state_invariants_witness :
    allMulti 8 [FlowOp.recv 5 ⟨true, 0, 8⟩ true 0, FlowOp.recv 6 ⟨true, 0, 8⟩ true 0] ∧
    (flowRun FlowControlState.default
      [FlowOp.recv 5 ⟨true, 0, 8⟩ true 0, FlowOp.recv 6 ⟨true, 0, 8⟩ true 0]).queued_bytes ≤ 8 := by
  have hall : allMulti 8
      [FlowOp.recv 5 ⟨true, 0, 8⟩ true 0, FlowOp.recv 6 ⟨true, 0, 8⟩ true 0] :=
    ⟨rfl, rfl, rfl, rfl, trivial⟩
  exact ⟨hall, flow_control_state_invariants.2.2.1 8 _ hall⟩

/-! ## Pacing budget (`pacing.rs`)

The Rust code computes `qps` and `target_inflight` in `f64`.  The embedding
uses exact rational arithmetic for those expressions.  Every f64 operation
involved (`/`, `*`, `ceil`, `min`, comparisons) rounds monotonically, and at
the concrete inputs used below the modelled values are exactly the f64
values, so the counterexample and the monotonicity statement transfer. -/

/-- Path quality snapshot from the transport (`picoquic_path_quality_t`
fields used by `pacing.rs`): pacing rate (bytes/sec), congestion window,
smoothed RTT (µs). -/
structure PathQuality where
  pacing_rate : Nat
  cwin : Nat
  rtt : Nat
deriving Repr, DecidableEq

/-- `PACING_GAIN_BASE` (1.0, exact in f64). -/
def PACING_GAIN_BASE : ℚ := 1

/-- `PACING_GAIN_PROBE` (1.25, exact in f64). -/
def PACING_GAIN_PROBE : ℚ := 5 / 4

/-- `PACING_GAIN_EPSILON` (0.05; the f64 constant differs from 1/20 by less
than 2⁻⁵⁶, which does not affect any comparison used in the theorems below). -/
def PACING_GAIN_EPSILON : ℚ := 1 / 20

/-- `PacingPollBudget` from `pacing.rs`. -/
structure PacingPollBudget where
  payload_bytes : ℚ
  mtu : Nat
  last_pacing_rate : Nat
deriving Repr, DecidableEq

/-- `PacingPollBudget::new`. -/
def PacingPollBudget.new (mtu : Nat) : PacingPollBudget :=
  { payload_bytes := (max mtu 1 : Nat), mtu := mtu, last_pacing_rate := 0 }

/-- `PacingBudgetSnapshot` from `pacing.rs`. -/
structure PacingBudgetSnapshot where
  pacing_rate : Nat
  qps : ℚ
  gain : ℚ
  target_inflight : Nat
deriving Repr, DecidableEq

/-- `cwnd_target_polls` from `pacing.rs`: `cwin.saturating_add(mtu - 1) / mtu`
(the `usize::try_from` is exact with 64-bit `usize`). -/
def cwnd_target_polls (cwin : Nat) (mtu : Nat) : Nat :=
  if mtu = 0 then 0 else sat64 cwin (mtu - 1) / mtu

/-- `PacingPollBudget::derive_rtt_us`. -/
def derive_rtt_us (rtt_us rtt_proxy_us : Nat) : Nat :=
  max (if 0 < rtt_us then rtt_us else rtt_proxy_us) 1

/-- `PacingPollBudget::next_gain`: returns the gain and the updated budget. -/
def next_gain (b : PacingPollBudget) (pacing_rate : Nat) : ℚ × PacingPollBudget :=
  let gain :=
    if (b.last_pacing_rate : ℚ) * (1 + PACING_GAIN_EPSILON) < (pacing_rate : ℚ) then
      PACING_GAIN_PROBE
    else PACING_GAIN_BASE
  (gain, { b with last_pacing_rate := pacing_rate })

/-- `PacingPollBudget::target_inflight`: returns the updated budget and the
snapshot.  `.min(usize::MAX as f64)` followed by the saturating `as usize`
cast nets to a cap at `usize::MAX = 2^64 - 1`. -/
def target_inflight (b : PacingPollBudget) (q : PathQuality) (rtt_proxy_us : Nat) :
    PacingPollBudget × PacingBudgetSnapshot :=
  let rtt_seconds : ℚ := (derive_rtt_us q.rtt rtt_proxy_us : ℚ) / 1000000
  if q.pacing_rate = 0 then
    let t := cwnd_target_polls q.cwin b.mtu
    ({ b with last_pacing_rate := 0 },
     { pacing_rate := 0, qps := (t : ℚ) / rtt_seconds
       gain := PACING_GAIN_BASE, target_inflight := t })
  else
    let g := next_gain b q.pacing_rate
    let qps := ((q.pacing_rate : ℚ) / b.payload_bytes) * g.1
    let t : Nat := min (Int.toNat ⌈qps * rtt_seconds⌉) U64_MAX
    (g.2, { pacing_rate := q.pacing_rate, qps := qps, gain := g.1
            target_inflight := t })

/-- Counterexample to C8 as stated.  (i) At `pacing_rate = 0`,
`cwin = u64::MAX`, `MTU = 2`, the saturating add makes `target_inflight`
`2^63 - 1`, not `⌈cwnd / MTU⌉ = 2^63`.  (ii) With a fresh budget
(`last_pacing_rate = 0`, `MTU = 100`), `cwnd = 1000` and RTT 1s fixed,
raising `pacing_rate` from 0 to 1 drops `target_inflight` from 10 to 1, so
the function is not monotone non-decreasing in `pacing_rate` across 0. -/
theorem pacing_target_not_as_claimed :
    (target_inflight (PacingPollBudget.new 2) ⟨0, U64_MAX, 1000000⟩ 0).2.target_inflight
        = 2 ^ 63 - 1 ∧
    (U64_MAX + 2 - 1) / 2 = 2 ^ 63 ∧
    (target_inflight (PacingPollBudget.new 100) ⟨1, 1000, 1000000⟩ 0).2.target_inflight
        = 1 ∧
    (target_inflight (PacingPollBudget.new 100) ⟨0, 1000, 1000000⟩ 0).2.target_inflight
        = 10 := by
  refine ⟨?_, by decide, ?_, ?_⟩
  · simp only [target_inflight, cwnd_target_polls, PacingPollBudget.new, sat64, U64_MAX]
    norm_num
  · simp only [target_inflight, next_gain, PacingPollBudget.new, derive_rtt_us,
      PACING_GAIN_EPSILON, PACING_GAIN_PROBE, PACING_GAIN_BASE, U64_MAX]
    norm_num
    rw [show (⌈(1 : ℚ) / 80⌉ : ℤ) = 1 by
      rw [Int.ceil_eq_iff]; norm_num]
    decide
  · simp only [target_inflight, cwnd_target_polls, PacingPollBudget.new, sat64,
      derive_rtt_us, U64_MAX]
    norm_num

/-- C8 (amended): when `pacing_rate = 0` and `cwnd + (MTU − 1)` does not
saturate `u64`, `target_inflight = ⌈cwnd / MTU⌉`; and at fixed RTT, fixed
RTT proxy and fixed budget state, `target_inflight` is monotone
non-decreasing in `pacing_rate` over positive pacing rates
(`payload_bytes > 0` holds for every budget built by `PacingPollBudget::new`). -/
theorem pacing_target_inflight_amended :
    (∀ (b : PacingPollBudget) (q : PathQuality) (proxy : Nat),
      q.pacing_rate = 0 → 0 < b.mtu → q.cwin + (b.mtu - 1) ≤ U64_MAX →
      (target_inflight b q proxy).2.target_inflight = (q.cwin + b.mtu - 1) / b.mtu)
    ∧
    (∀ (b : PacingPollBudget) (q1 q2 : PathQuality) (proxy : Nat),
      0 < b.payload_bytes → q1.rtt = q2.rtt →
      0 < q1.pacing_rate → q1.pacing_rate ≤ q2.pacing_rate →
      (target_inflight b q1 proxy).2.target_inflight ≤
        (target_inflight b q2 proxy).2.target_inflight) := by
  constructor
  · intro b q proxy hrate hmtu hsat
    simp only [target_inflight, if_pos hrate, cwnd_target_polls, if_neg (by omega : ¬b.mtu = 0)]
    show sat64 q.cwin (b.mtu - 1) / b.mtu = (q.cwin + b.mtu - 1) / b.mtu
    congr 1
    unfold sat64 U64_MAX at *
    omega
  · intro b q1 q2 proxy hp hrtt h1 h2
    have hs : (0 : ℚ) ≤ (derive_rtt_us q2.rtt proxy : ℚ) / 1000000 := by positivity
    have hr12 : ((q1.pacing_rate : ℚ)) ≤ (q2.pacing_rate : ℚ) := by exact_mod_cast h2
    have hdiv : (q1.pacing_rate : ℚ) / b.payload_bytes ≤
        (q2.pacing_rate : ℚ) / b.payload_bytes := by gcongr
    have hdiv2 : (0 : ℚ) ≤ (q2.pacing_rate : ℚ) / b.payload_bytes := by positivity
    have e1 : ¬(q1.pacing_rate = 0) := by omega
    have e2 : ¬(q2.pacing_rate = 0) := by omega
    simp only [target_inflight, next_gain, hrtt, if_neg e1, if_neg e2]
    refine min_le_min ?_ (le_refl _)
    refine Int.toNat_le_toNat (Int.ceil_mono (mul_le_mul_of_nonneg_right ?_ hs))
    by_cases hT1 : (b.last_pacing_rate : ℚ) * (1 + PACING_GAIN_EPSILON) <
        (q1.pacing_rate : ℚ)
    · have hT2 : (b.last_pacing_rate : ℚ) * (1 + PACING_GAIN_EPSILON) <
          (q2.pacing_rate : ℚ) := lt_of_lt_of_le hT1 hr12
      rw [if_pos hT1, if_pos hT2]
      exact mul_le_mul_of_nonneg_right hdiv (by norm_num [PACING_GAIN_PROBE])
    · rw [if_neg hT1]
      by_cases hT2 : (b.last_pacing_rate : ℚ) * (1 + PACING_GAIN_EPSILON) <
          (q2.pacing_rate : ℚ)
      · rw [if_pos hT2]
        calc (q1.pacing_rate : ℚ) / b.payload_bytes * PACING_GAIN_BASE
            = (q1.pacing_rate : ℚ) / b.payload_bytes := by
              rw [PACING_GAIN_BASE, mul_one]
          _ ≤ (q2.pacing_rate : ℚ) / b.payload_bytes := hdiv
          _ ≤ (q2.pacing_rate : ℚ) / b.payload_bytes * PACING_GAIN_PROBE :=
              le_mul_of_one_le_right hdiv2 (by norm_num [PACING_GAIN_PROBE])
      · rw [if_neg hT2]
        exact mul_le_mul_of_nonneg_right hdiv (by norm_num [PACING_GAIN_BASE])

/-- Witness for `pacing_target_inflight_amended`: concrete zero-rate and
positive-rate instantiations. -/
theorem pacing_target_inflight_amended_witness :
    ((target_inflight (PacingPollBudget.new 100) ⟨0, 1000, 1000000⟩ 0).2.target_inflight
        = (1000 + 100 - 1) / 100) ∧
    ((target_inflight (PacingPollBudget.new 100) ⟨200, 1000, 1000000⟩ 0).2.target_inflight ≤
      (target_inflight (PacingPollBudget.new 100) ⟨300, 1000, 1000000⟩ 0).2.target_inflight) := by
  constructor
  · exact pacing_target_inflight_amended.1 (PacingPollBudget.new 100) ⟨0, 1000, 1000000⟩ 0
      rfl (by decide) (by decide)
  · exact pacing_target_inflight_amended.2 (PacingPollBudget.new 100)
      ⟨200, 1000, 1000000⟩ ⟨300, 1000, 1000000⟩ 0 (by norm_num [PacingPollBudget.new])
      rfl (by decide) (by decide)

/-! ## `compute_mtu` (`runtime/setup.rs`)

`compute_mtu` evaluates `((240.0 - domain_len as f64) / 1.6) as u32`.  The
embedding carries this out exactly in integer arithmetic:
* `240.0 - domain_len as f64` is exact (small integers are f64-representable);
* the divisor is the f64 value nearest 1.6, namely `7205759403792794 · 2⁻⁵²`;
* IEEE division returns the representable value nearest the exact quotient
  `q`; for `q ∈ (1/2, 256)` with `2^e ≤ q < 2^(e+1)` the representable values
  are the multiples of `2^(e-52)`, so the result is `round(q · 2^k) · 2^(-k)`
  with `k = 52 - e` (no tie can occur: a tie would force an odd number to
  carry a factor `2^97`);
* `as u32` truncates toward zero, i.e. floors the (positive) value. -/

/-- Numerator of the f64 value nearest 1.6 (denominator `2^52`). -/
def F64_1_6_NUM : Nat := 7205759403792794

/-- Denominator of the f64 value nearest 1.6. -/
def F64_1_6_DEN : Nat := 2 ^ 52

/-- Grid exponent `k = 52 - e` for the quotient `num/den ∈ (1/2, 256)`. -/
def f64ScaleExp (num den : Nat) : Nat :=
  if num < den then 53
  else if num < 2 * den then 52
  else if num < 4 * den then 51
  else if num < 8 * den then 50
  else if num < 16 * den then 49
  else if num < 32 * den then 48
  else if num < 64 * den then 47
  else if num < 128 * den then 46
  else 45

/-- `round(num/den)` for nonnegative `num/den` (half rounds up; no halves
occur at the call sites below). -/
def roundRatHalfUp (num den : Nat) : Nat := (2 * num + den) / (2 * den)

/-- `compute_mtu` from `runtime/setup.rs`, with the f64 arithmetic carried
out exactly as described above. -/
def compute_mtu (domain_len : Nat) : Except String Nat :=
  if 240 ≤ domain_len then .error "Domain name is too long for DNS transport"
  else
    let n := 240 - domain_len
    let num := n * F64_1_6_DEN
    let den := F64_1_6_NUM
    let k := f64ScaleExp num den
    let m := roundRatHalfUp (num * 2 ^ k) den
    let mtu := m / 2 ^ k
    if mtu = 0 then .error "MTU computed to zero; check domain length"
    else .ok mtu

deriving instance DecidableEq for Except

set_option maxRecDepth 8000 in
/-- C9: `compute_mtu` errors exactly for `domain_len ≥ 240` and for
`domain_len = 239` (where the floor is 0), and otherwise returns exactly
`⌊(2400 − 10·d) / 16⌋` = `⌊(240 − d) / 1.6⌋`. -/
theorem compute_mtu_spec :
    ∀ d : Nat,
      compute_mtu d =
        if 240 ≤ d then .error "Domain name is too long for DNS transport"
        else if (2400 - 10 * d) / 16 = 0 then
          .error "MTU computed to zero; check domain length"
        else .ok ((2400 - 10 * d) / 16) := by
  intro d
  by_cases h : 240 ≤ d
  · rw [if_pos h]
    unfold compute_mtu
    rw [if_pos h]
  · have hb : d < 240 := by omega
    rw [if_neg h]
    have key : ∀ d' : Nat, d' < 240 → compute_mtu d' =
        (if (2400 - 10 * d') / 16 = 0 then
          Except.error "MTU computed to zero; check domain length"
        else Except.ok ((2400 - 10 * d') / 16)) := by decide
    exact key d hb

/-! ## Server fallback classification (`udp_fallback.rs`)

Peer socket addresses are abstracted to `Nat`; the `dns_peers` hash map is an
association list with unique keys.  The `last_seen` timestamps only drive the
idle-expiry sweep (`cleanup`), which claim C6 does not involve, so they are
omitted from the state. -/

/-- `NON_DNS_STREAK_THRESHOLD` from `udp_fallback.rs`. -/
def NON_DNS_STREAK_THRESHOLD : Nat := 16

/-- `HashMap::get` on the `dns_peers` map (peer ↦ `non_dns_streak`). -/
def lookupPeer : List (Nat × Nat) → Nat → Option Nat
  | [], _ => none
  | (p, s) :: rest, peer => if p = peer then some s else lookupPeer rest peer

/-- `HashMap` insert-or-update on the `dns_peers` map. -/
def setPeer : List (Nat × Nat) → Nat → Nat → List (Nat × Nat)
  | [], peer, streak => [(peer, streak)]
  | (p, s) :: rest, peer, streak =>
      if p = peer then (p, streak) :: rest else (p, s) :: setPeer rest peer streak

/-- `HashMap::remove` on the `dns_peers` map. -/
def removePeer : List (Nat × Nat) → Nat → List (Nat × Nat)
  | [], _ => []
  | (p, s) :: rest, peer => if p = peer then rest else (p, s) :: removePeer rest peer

/-- `FallbackManager::mark_dns`: reset the peer's streak to 0 (inserting the
peer when absent). -/
def mark_dns (m : List (Nat × Nat)) (peer : Nat) : List (Nat × Nat) :=
  setPeer m peer 0

/-- `FallbackManager::handle_non_dns`: bump the streak of a DNS-classified
peer; forward (and drop the classification) once it reaches the threshold;
non-classified peers are forwarded directly.  Returns the updated map and
whether the packet was forwarded to the fallback endpoint. -/
def handle_non_dns (m : List (Nat × Nat)) (peer : Nat) : List (Nat × Nat) × Bool :=
  match lookupPeer m peer with
  | some streak =>
      let streak' := min (streak + 1) U64_MAX
      if streak' < NON_DNS_STREAK_THRESHOLD then (setPeer m peer streak', false)
      else (removePeer m peer, true)
  | none => (m, true)

/-- `k` consecutive `handle_non_dns` packets from `peer`. -/
def runNonDns (m : List (Nat × Nat)) (peer : Nat) : Nat → List (Nat × Nat)
  | 0 => m
  | k + 1 => (handle_non_dns (runNonDns m peer k) peer).1

theorem runNonDns_zero (m : List (Nat × Nat)) (peer : Nat) :
    runNonDns m peer 0 = m := rfl

theorem runNonDns_succ (m : List (Nat × Nat)) (peer k : Nat) :
    runNonDns m peer (k + 1) = (handle_non_dns (runNonDns m peer k) peer).1 := rfl

attribute [irreducible] runNonDns

/-- The `dns_peers` map has unique keys (a `HashMap` invariant). -/
def wfPeers : List (Nat × Nat) → Prop
  | [] => True
  | (p, _) :: rest => lookupPeer rest p = none ∧ wfPeers rest

theorem lookup_setPeer_self (m : List (Nat × Nat)) (p v : Nat) :
    lookupPeer (setPeer m p v) p = some v := by
  induction m with
  | nil => simp [setPeer, lookupPeer]
  | cons a rest ih =>
    obtain ⟨q, s⟩ := a
    by_cases h : q = p
    · simp [setPeer, lookupPeer, h]
    · simp [setPeer, lookupPeer, h, ih]

theorem lookup_setPeer_other (m : List (Nat × Nat)) (p v q : Nat) (h : q ≠ p) :
    lookupPeer (setPeer m p v) q = lookupPeer m q := by
  induction m with
  | nil =>
    simp [setPeer, lookupPeer, (show ¬(p = q) from fun hh => h hh.symm)]
  | cons a rest ih =>
    obtain ⟨r, s⟩ := a
    by_cases hr : r = p
    · subst hr
      simp [setPeer, lookupPeer, (show ¬(r = q) from fun hh => h hh.symm)]
    · simp [setPeer, lookupPeer, hr, ih]

theorem wf_setPeer (m : List (Nat × Nat)) (p v : Nat) (hw : wfPeers m) :
    wfPeers (setPeer m p v) := by
  induction m with
  | nil => simp [setPeer, wfPeers, lookupPeer]
  | cons a rest ih =>
    obtain ⟨q, s⟩ := a
    obtain ⟨h1, h2⟩ := hw
    by_cases hq : q = p
    · subst hq
      simp only [setPeer, if_pos rfl]
      exact ⟨h1, h2⟩
    · simp only [setPeer, if_neg hq]
      exact ⟨by rw [lookup_setPeer_other rest p v q hq, h1], ih h2⟩

theorem lookup_removePeer_self (m : List (Nat × Nat)) (p : Nat) (hw : wfPeers m) :
    lookupPeer (removePeer m p) p = none := by
  induction m with
  | nil => simp [removePeer, lookupPeer]
  | cons a rest ih =>
    obtain ⟨q, s⟩ := a
    obtain ⟨h1, h2⟩ := hw
    by_cases hq : q = p
    · subst hq
      simp only [removePeer, if_pos rfl]
      exact h1
    · simp only [removePeer, if_neg hq, lookupPeer]
      exact ih h2

theorem lookup_removePeer_other (m : List (Nat × Nat)) (p q : Nat)
    (h : lookupPeer m q = none) : lookupPeer (removePeer m p) q = none := by
  induction m with
  | nil => simp [removePeer, lookupPeer]
  | cons a rest ih =>
    obtain ⟨r, s⟩ := a
    simp only [lookupPeer] at h
    by_cases hr : r = q
    · simp [hr] at h
    · rw [if_neg hr] at h
      by_cases hp : r = p
      · simp only [removePeer, if_pos hp]
        exact h
      · simp only [removePeer, if_neg hp, lookupPeer, if_neg hr]
        exact ih h

theorem wf_removePeer (m : List (Nat × Nat)) (p : Nat) (hw : wfPeers m) :
    wfPeers (removePeer m p) := by
  induction m with
  | nil => simp [removePeer, wfPeers]
  | cons a rest ih =>
    obtain ⟨q, s⟩ := a
    obtain ⟨h1, h2⟩ := hw
    by_cases hq : q = p
    · simp only [removePeer, if_pos hq]
      exact h2
    · simp only [removePeer, if_neg hq]
      exact ⟨lookup_removePeer_other rest p q h1, ih h2⟩

theorem wf_handle_non_dns (m : List (Nat × Nat)) (peer : Nat) (hw : wfPeers m) :
    wfPeers (handle_non_dns m peer).1 := by
  simp only [handle_non_dns]
  cases h : lookupPeer m peer with
  | none => exact hw
  | some streak =>
    dsimp only
    split
    · exact wf_setPeer m peer _ hw
    · exact wf_removePeer m peer hw

theorem wf_runNonDns (m : List (Nat × Nat)) (peer : Nat) (k : Nat) (hw : wfPeers m) :
    wfPeers (runNonDns m peer k) := by
  induction k with
  | zero => rw [runNonDns_zero]; exact hw
  | succ k ih => rw [runNonDns_succ]; exact wf_handle_non_dns _ peer ih

theorem runNonDns_streak (peer : Nat) :
    ∀ (k j : Nat) (m : List (Nat × Nat)), lookupPeer m peer = some j →
      j + k < NON_DNS_STREAK_THRESHOLD →
      lookupPeer (runNonDns m peer k) peer = some (j + k) := by
  intro k
  induction k with
  | zero => intro j m h _; rw [runNonDns_zero]; simpa using h
  | succ k ih =>
    intro j m h hk
    have hrk := ih j m h (by omega)
    rw [runNonDns_succ]
    simp only [handle_non_dns, hrk]
    have hmin : min (j + k + 1) U64_MAX = j + k + 1 := by
      unfold U64_MAX
      unfold NON_DNS_STREAK_THRESHOLD at hk
      omega
    rw [hmin]
    rw [if_pos (by unfold NON_DNS_STREAK_THRESHOLD at *; omega)]
    dsimp only
    rw [lookup_setPeer_self]
    exact congrArg some (by omega)

set_option maxHeartbeats 1000000 in
/-- C6: for a DNS-classified peer (fresh streak 0), the first 15 consecutive
non-DNS packets handled by `handle_non_dns` are never forwarded to the
fallback endpoint; the 16th is forwarded and removes the peer's DNS
classification; and `mark_dns` (run on every successfully decoded DNS
packet) resets the peer's streak to 0. -/
theorem fallback_non_dns_streak_spec :
    (∀ (m : List (Nat × Nat)) (peer i : Nat),
      lookupPeer m peer = some 0 → i < 15 →
      (handle_non_dns (runNonDns m peer i) peer).2 = false)
    ∧
    (∀ (m : List (Nat × Nat)) (peer : Nat),
      wfPeers m → lookupPeer m peer = some 0 →
      (handle_non_dns (runNonDns m peer 15) peer).2 = true ∧
      lookupPeer (runNonDns m peer 16) peer = none)
    ∧
    (∀ (m : List (Nat × Nat)) (peer : Nat),
      lookupPeer (mark_dns m peer) peer = some 0) := by
  refine ⟨?_, ?_, ?_⟩
  · intro m peer i h hi
    have hrk := runNonDns_streak peer i 0 m h
      (by unfold NON_DNS_STREAK_THRESHOLD; omega)
    simp only [handle_non_dns, hrk]
    have hmin : min (0 + i + 1) U64_MAX = i + 1 := by unfold U64_MAX; omega
    rw [hmin, if_pos (by unfold NON_DNS_STREAK_THRESHOLD; omega)]
  · intro m peer hw h
    have hrk := runNonDns_streak peer 15 0 m h
      (by unfold NON_DNS_STREAK_THRESHOLD; omega)
    have hwf15 := wf_runNonDns m peer 15 hw
    constructor
    · simp only [handle_non_dns, hrk]
      have hmin : min (0 + 15 + 1) U64_MAX = 16 := by unfold U64_MAX; omega
      rw [hmin, if_neg (by unfold NON_DNS_STREAK_THRESHOLD; omega)]
    · rw [show (16 : Nat) = 15 + 1 from rfl, runNonDns_succ]
      simp only [handle_non_dns, hrk]
      have hmin : min (0 + 15 + 1) U64_MAX = 16 := by unfold U64_MAX; omega
      rw [hmin, if_neg (by unfold NON_DNS_STREAK_THRESHOLD; omega)]
      exact lookup_removePeer_self _ peer hwf15
  · intro m peer
    exact lookup_setPeer_self m peer 0

/-- Witness for `fallback_non_dns_streak_spec`: peer 7 classified with
streak 0 in a one-entry map. -/
theorem fallback_non_dns_streak_spec_witness :
    (lookupPeer [(7, 0)] 7 = some 0 ∧
      (handle_non_dns (runNonDns [(7, 0)] 7 2) 7).2 = false)
    ∧
    (wfPeers [(7, 0)] ∧
      (handle_non_dns (runNonDns [(7, 0)] 7 15) 7).2 = true ∧
      lookupPeer (runNonDns [(7, 0)] 7 16) 7 = none) := by
  have hwf : wfPeers [(7, 0)] := ⟨rfl, trivial⟩
  refine ⟨⟨rfl, fallback_non_dns_streak_spec.1 [(7, 0)] 7 2 rfl (by decide)⟩, ?_⟩
  exact ⟨hwf, fallback_non_dns_streak_spec.2.1 [(7, 0)] 7 hwf rfl⟩

/-! ## DNS names (`name.rs`, `types.rs`)

Rust `String`s/`&str`s are UTF-8 byte lists (`List Nat`); every string
operation the source uses (`len`, `ends_with`, `to_ascii_lowercase`,
`trim_end_matches('.')`, byte indexing, slicing at '.'-boundaries) acts
byte-wise, so the translation is exact. -/

/-- `Rcode` from `types.rs`. -/
inductive Rcode where
  | Ok
  | FormatError
  | ServerFailure
  | NameError
deriving Repr, DecidableEq

/-- `Rcode::to_u8`. -/
def Rcode.to_u8 : Rcode → Nat
  | .Ok => 0
  | .FormatError => 1
  | .ServerFailure => 2
  | .NameError => 3

/-- `Rcode::from_u8`. -/
def Rcode.from_u8 : Nat → Option Rcode
  | 0 => some .Ok
  | 1 => some .FormatError
  | 2 => some .ServerFailure
  | 3 => some .NameError
  | _ => none

/-- `MAX_DNS_NAME_LEN` from `name.rs`. -/
def MAX_DNS_NAME_LEN : Nat := 253

/-- `u8::to_ascii_lowercase`, byte-wise (ASCII uppercase maps down; all
other bytes, including UTF-8 continuation bytes, are untouched - exactly
`str::to_ascii_lowercase`). -/
def lowerByte (b : Nat) : Nat := if 65 ≤ b ∧ b ≤ 90 then b + 32 else b

/-- `str::to_ascii_lowercase` on a byte string. -/
def lowerBytes (s : List Nat) : List Nat := s.map lowerByte

/-- `str::trim_end_matches('.')`. -/
def trimDots (s : List Nat) : List Nat := (s.reverse.dropWhile (· = 46)).reverse

/-- `extract_subdomain` from `name.rs`. -/
def extract_subdomain (qname domain : List Nat) : Except Rcode (List Nat) :=
  let domain := trimDots domain
  if domain = [] then .error .NameError
  else
    let suffix := 46 :: (domain ++ [46])
    if ¬ (lowerBytes suffix).isSuffixOf (lowerBytes qname) then .error .NameError
    else if qname.length ≤ domain.length + 2 then .error .NameError
    else
      let data_len := qname.length - domain.length - 2
      let subdomain := qname.take data_len
      if subdomain = [] then .error .NameError
      else .ok subdomain

/-- The loop body of `extract_subdomain_multi`: fold one candidate domain
into the best-match accumulator `(best_domain_trimmed, best_empty)`
(`best_len` is `best_domain_trimmed.length`; the `none` accumulator has
`best_len = 0`, so a first match always replaces it, as in the source). -/
def apexStep (ql : List Nat) (acc : Option (List Nat × Bool)) (domain : List Nat) :
    Option (List Nat × Bool) :=
  let dt := trimDots domain
  if dt = [] then acc
  else
    let dl := lowerBytes dt
    let is_exact := ql == dl
    let is_suffix := !is_exact && decide (dl.length < ql.length) && dl.isSuffixOf ql &&
        (ql.getD (ql.length - dl.length - 1) 0 == 46)
    if is_exact || is_suffix then
      match acc with
      | none => some (dt, is_exact)
      | some (b, e) => if b.length < dt.length then some (dt, is_exact) else some (b, e)
    else acc

/-- `extract_subdomain_multi` from `name.rs`. -/
def extract_subdomain_multi (qname : List Nat) (domains : List (List Nat)) :
    Except Rcode (List Nat) :=
  let qt := trimDots qname
  if qt = [] then .error .NameError
  else
    let ql := lowerBytes qt
    match domains.foldl (apexStep ql) none with
    | none => .error .NameError
    | some (_, true) => .error .NameError
    | some (best, false) => extract_subdomain qname best

/-- The match condition of the `extract_subdomain_multi` loop for one
candidate domain: case-insensitive equality, or case-insensitive suffix on a
complete-label ('.') boundary. -/
def apexMatches (ql : List Nat) (domain : List Nat) : Bool :=
  let dt := trimDots domain
  if dt = [] then false
  else
    let dl := lowerBytes dt
    let is_exact := ql == dl
    let is_suffix := !is_exact && decide (dl.length < ql.length) && dl.isSuffixOf ql &&
        (ql.getD (ql.length - dl.length - 1) 0 == 46)
    is_exact || is_suffix

theorem lowerBytes_length (s : List Nat) : (lowerBytes s).length = s.length :=
  List.length_map s lowerByte

/-- A non-matching domain leaves the accumulator unchanged. -/
theorem apexStep_no_match (ql : List Nat) (acc : Option (List Nat × Bool))
    (d : List Nat) (h : apexMatches ql d = false) : apexStep ql acc d = acc := by
  simp only [apexMatches] at h
  simp only [apexStep]
  by_cases hdt : trimDots d = []
  · rw [if_pos hdt]
  · rw [if_neg hdt] at h
    rw [if_neg hdt, h]
    simp

theorem apexStep_eq_none (ql : List Nat) (acc : Option (List Nat × Bool))
    (d : List Nat) (h : apexStep ql acc d = none) :
    acc = none ∧ apexMatches ql d = false := by
  simp only [apexStep] at h
  simp only [apexMatches]
  by_cases hdt : trimDots d = []
  · rw [if_pos hdt] at h
    rw [if_pos hdt]
    exact ⟨h, rfl⟩
  · rw [if_neg hdt] at h
    rw [if_neg hdt]
    by_cases hc : (ql == lowerBytes (trimDots d) ||
        (!(ql == lowerBytes (trimDots d)) &&
          decide ((lowerBytes (trimDots d)).length < ql.length) &&
          (lowerBytes (trimDots d)).isSuffixOf ql &&
          (ql.getD (ql.length - (lowerBytes (trimDots d)).length - 1) 0 == 46))) = true
    · rw [if_pos hc] at h
      exfalso
      cases acc with
      | none => simp at h
      | some be =>
        obtain ⟨b, e⟩ := be
        dsimp only at h
        by_cases hlen : b.length < (trimDots d).length
        · rw [if_pos hlen] at h; simp at h
        · rw [if_neg hlen] at h; simp at h
    · rw [if_neg hc] at h
      refine ⟨h, ?_⟩
      rw [Bool.not_eq_true] at hc
      exact hc

theorem foldl_apexStep_eq_none (ql : List Nat) :
    ∀ (ds : List (List Nat)) (acc : Option (List Nat × Bool)),
      ds.foldl (apexStep ql) acc = none →
      acc = none ∧ ∀ d ∈ ds, apexMatches ql d = false := by
  intro ds
  induction ds with
  | nil => intro acc h; exact ⟨h, by simp⟩
  | cons a ds ih =>
    intro acc h
    obtain ⟨h1, h2⟩ := ih (apexStep ql acc a) h
    obtain ⟨h3, h4⟩ := apexStep_eq_none ql acc a h1
    refine ⟨h3, ?_⟩
    intro d hd
    rcases List.mem_cons.mp hd with rfl | hd
    · exact h4
    · exact h2 d hd

theorem foldl_apexStep_no_match (ql : List Nat) :
    ∀ (ds : List (List Nat)) (acc : Option (List Nat × Bool)),
      (∀ d ∈ ds, apexMatches ql d = false) →
      ds.foldl (apexStep ql) acc = acc := by
  intro ds
  induction ds with
  | nil => intro acc _; rfl
  | cons a ds ih =>
    intro acc h
    show (ds.foldl (apexStep ql) (apexStep ql acc a)) = acc
    rw [apexStep_no_match ql acc a (h a (by simp))]
    exact ih acc fun d hd => h d (by simp [hd])

/-- Provenance of the best-match accumulator: the stored domain is the trim
of some matching candidate satisfying `P`, and the stored flag records
whether that match was exact. -/
def goodAcc (ql : List Nat) (P : List Nat → Prop)
    (acc : Option (List Nat × Bool)) : Prop :=
  ∀ b e, acc = some (b, e) →
    (∃ d, P d ∧ trimDots d = b ∧ apexMatches ql d = true) ∧
    (e = true ↔ ql = lowerBytes b)

theorem apexStep_good (ql : List Nat) (P : List Nat → Prop)
    (acc : Option (List Nat × Bool)) (d : List Nat) (hP : P d)
    (hg : goodAcc ql P acc) : goodAcc ql P (apexStep ql acc d) := by
  intro b e hbe
  simp only [apexStep] at hbe
  by_cases hdt : trimDots d = []
  · rw [if_pos hdt] at hbe
    exact hg b e hbe
  · rw [if_neg hdt] at hbe
    by_cases hc : (ql == lowerBytes (trimDots d) ||
        (!(ql == lowerBytes (trimDots d)) &&
          decide ((lowerBytes (trimDots d)).length < ql.length) &&
          (lowerBytes (trimDots d)).isSuffixOf ql &&
          (ql.getD (ql.length - (lowerBytes (trimDots d)).length - 1) 0 == 46))) = true
    · rw [if_pos hc] at hbe
      have hmatch : apexMatches ql d = true := by
        simp only [apexMatches]
        rw [if_neg hdt]
        exact hc
      have hnew : some (trimDots d, (ql == lowerBytes (trimDots d))) = some (b, e) →
          (∃ d', P d' ∧ trimDots d' = b ∧ apexMatches ql d' = true) ∧
          (e = true ↔ ql = lowerBytes b) := by
        intro heq
        obtain ⟨hb, he⟩ := Prod.mk.injEq .. ▸ (Option.some.injEq .. ▸ heq)
        subst hb
        refine ⟨⟨d, hP, rfl, hmatch⟩, ?_⟩
        rw [← he]
        simp
      cases acc with
      | none => exact hnew hbe
      | some be =>
        obtain ⟨b0, e0⟩ := be
        dsimp only at hbe
        by_cases hlen : b0.length < (trimDots d).length
        · rw [if_pos hlen] at hbe
          exact hnew hbe
        · rw [if_neg hlen] at hbe
          exact hg b e hbe
    · rw [if_neg hc] at hbe
      exact hg b e hbe

theorem foldl_apexStep_good (ql : List Nat) (P : List Nat → Prop) :
    ∀ (ds : List (List Nat)) (acc : Option (List Nat × Bool)),
      (∀ d ∈ ds, P d) → goodAcc ql P acc →
      goodAcc ql P (ds.foldl (apexStep ql) acc) := by
  intro ds
  induction ds with
  | nil => intro acc _ hg; exact hg
  | cons a ds ih =>
    intro acc hP hg
    exact ih (apexStep ql acc a) (fun d hd => hP d (by simp [hd]))
      (apexStep_good ql P acc a (hP a (by simp)) hg)

/-- `best_len` of the accumulator (0 when empty, as in the source). -/
def accLen : Option (List Nat × Bool) → Nat
  | none => 0
  | some (b, _) => b.length

theorem apexStep_len_ge (ql : List Nat) (acc : Option (List Nat × Bool))
    (d : List Nat) : accLen acc ≤ accLen (apexStep ql acc d) := by
  simp only [apexStep]
  by_cases hdt : trimDots d = []
  · rw [if_pos hdt]
  · rw [if_neg hdt]
    by_cases hc : (ql == lowerBytes (trimDots d) ||
        (!(ql == lowerBytes (trimDots d)) &&
          decide ((lowerBytes (trimDots d)).length < ql.length) &&
          (lowerBytes (trimDots d)).isSuffixOf ql &&
          (ql.getD (ql.length - (lowerBytes (trimDots d)).length - 1) 0 == 46))) = true
    · rw [if_pos hc]
      cases acc with
      | none => exact Nat.zero_le _
      | some be =>
        obtain ⟨b0, e0⟩ := be
        dsimp only
        by_cases hlen : b0.length < (trimDots d).length
        · rw [if_pos hlen]
          simp only [accLen]
          omega
        · rw [if_neg hlen]
    · rw [if_neg hc]

theorem apexStep_len_match (ql : List Nat) (acc : Option (List Nat × Bool))
    (d : List Nat) (h : apexMatches ql d = true) :
    (trimDots d).length ≤ accLen (apexStep ql acc d) := by
  simp only [apexMatches] at h
  simp only [apexStep]
  by_cases hdt : trimDots d = []
  · rw [if_pos hdt] at h
    simp at h
  · rw [if_neg hdt] at h
    rw [if_neg hdt, if_pos h]
    cases acc with
    | none => exact Nat.le_refl _
    | some be =>
      obtain ⟨b0, e0⟩ := be
      dsimp only
      by_cases hlen : b0.length < (trimDots d).length
      · rw [if_pos hlen]
        simp [accLen]
      · rw [if_neg hlen]
        simp only [accLen]
        omega

theorem foldl_apexStep_len_ge (ql : List Nat) :
    ∀ (ds : List (List Nat)) (acc : Option (List Nat × Bool)),
      accLen acc ≤ accLen (ds.foldl (apexStep ql) acc) := by
  intro ds
  induction ds with
  | nil => intro acc; exact Nat.le_refl _
  | cons a ds ih =>
    intro acc
    exact Nat.le_trans (apexStep_len_ge ql acc a) (ih (apexStep ql acc a))

theorem foldl_apexStep_maximal (ql : List Nat) :
    ∀ (ds : List (List Nat)) (acc : Option (List Nat × Bool)) (d : List Nat),
      d ∈ ds → apexMatches ql d = true →
      (trimDots d).length ≤ accLen (ds.foldl (apexStep ql) acc) := by
  intro ds
  induction ds with
  | nil => intro acc d hd; simp at hd
  | cons a ds ih =>
    intro acc d hd hm
    rcases List.mem_cons.mp hd with rfl | hd
    · exact Nat.le_trans (apexStep_len_match ql acc d hm)
        (foldl_apexStep_len_ge ql ds (apexStep ql acc d))
    · exact ih (apexStep ql acc a) d hd hm

theorem apexMatches_cases (ql d : List Nat) (h : apexMatches ql d = true) :
    trimDots d ≠ [] ∧
      (ql = lowerBytes (trimDots d) ∨ (lowerBytes (trimDots d)).length < ql.length) := by
  simp only [apexMatches] at h
  by_cases hdt : trimDots d = []
  · rw [if_pos hdt] at h
    exact absurd h (by simp)
  · rw [if_neg hdt] at h
    refine ⟨hdt, ?_⟩
    rcases (Bool.or_eq_true _ _).mp h with h1 | h1
    · exact Or.inl (eq_of_beq h1)
    · simp only [Bool.and_eq_true, decide_eq_true_eq] at h1
      exact Or.inr h1.1.1.2

/-- C4: subdomain extraction selects the longest apex matching the QNAME by
case-insensitive suffix match on complete labels.  (a) If no apex matches,
the result is NXDOMAIN.  (b) If the QNAME equals some apex exactly
(case-insensitively, after trailing-dot trimming), the result is NXDOMAIN.
(c) A successful extraction comes from a matching apex whose trimmed length
is maximal among all matching apexes, via `extract_subdomain` on it. -/
theorem subdomain_longest_apex_spec :
    (∀ (q : List Nat) (ds : List (List Nat)),
      (∀ d ∈ ds, apexMatches (lowerBytes (trimDots q)) d = false) →
      extract_subdomain_multi q ds = .error .NameError)
    ∧
    (∀ (q : List Nat) (ds : List (List Nat)) (d : List Nat),
      d ∈ ds → trimDots d ≠ [] →
      lowerBytes (trimDots q) = lowerBytes (trimDots d) →
      extract_subdomain_multi q ds = .error .NameError)
    ∧
    (∀ (q : List Nat) (ds : List (List Nat)) (s : List Nat),
      extract_subdomain_multi q ds = .ok s →
      ∃ b d, d ∈ ds ∧ trimDots d = b ∧
        apexMatches (lowerBytes (trimDots q)) d = true ∧
        lowerBytes (trimDots q) ≠ lowerBytes b ∧
        (∀ d' ∈ ds, apexMatches (lowerBytes (trimDots q)) d' = true →
          (trimDots d').length ≤ b.length) ∧
        extract_subdomain q b = .ok s) := by
  have hgoodnil : ∀ (ql : List Nat) (ds : List (List Nat)),
      goodAcc ql (· ∈ ds) none := by
    intro ql ds b e h
    cases h
  refine ⟨?_, ?_, ?_⟩
  · intro q ds h
    simp only [extract_subdomain_multi]
    by_cases hqt : trimDots q = []
    · rw [if_pos hqt]
    · rw [if_neg hqt]
      rw [foldl_apexStep_no_match _ ds none h]
  · intro q ds d hd hdt hex
    simp only [extract_subdomain_multi]
    by_cases hqt : trimDots q = []
    · rw [if_pos hqt]
    · rw [if_neg hqt]
      have hm : apexMatches (lowerBytes (trimDots q)) d = true := by
        simp only [apexMatches]
        rw [if_neg hdt]
        simp [hex]
      cases hfold : ds.foldl (apexStep (lowerBytes (trimDots q))) none with
      | none =>
        obtain ⟨_, hall⟩ := foldl_apexStep_eq_none _ ds none hfold
        exact absurd (hall d hd) (by simp [hm])
      | some be =>
        obtain ⟨b, e⟩ := be
        have hb := foldl_apexStep_good (lowerBytes (trimDots q)) (· ∈ ds) ds none
          (fun _ hd' => hd') (hgoodnil _ ds) b e hfold
        obtain ⟨⟨db, hdb, hdbtrim, hdbm⟩, hiff⟩ := hb
        have hmax := foldl_apexStep_maximal (lowerBytes (trimDots q)) ds none d hd hm
        rw [hfold] at hmax
        simp only [accLen] at hmax
        have hlq : (lowerBytes (trimDots q)).length = (trimDots d).length := by
          rw [hex, lowerBytes_length]
        have he : e = true := by
          rcases apexMatches_cases _ _ hdbm with ⟨_, hcase⟩
          rcases hcase with hcase | hcase
          · exact hiff.mpr (hdbtrim ▸ hcase)
          · exfalso
            rw [hdbtrim, lowerBytes_length] at hcase
            omega
        rw [he]
  · intro q ds s h
    simp only [extract_subdomain_multi] at h
    by_cases hqt : trimDots q = []
    · rw [if_pos hqt] at h
      exact absurd h (by simp)
    · rw [if_neg hqt] at h
      cases hfold : ds.foldl (apexStep (lowerBytes (trimDots q))) none with
      | none =>
        rw [hfold] at h
        exact absurd h (by simp)
      | some be =>
        obtain ⟨b, e⟩ := be
        rw [hfold] at h
        cases e with
        | true => exact absurd h (by simp)
        | false =>
          dsimp only at h
          have hb := foldl_apexStep_good (lowerBytes (trimDots q)) (· ∈ ds) ds none
            (fun _ hd' => hd') (hgoodnil _ ds) b false hfold
          obtain ⟨⟨db, hdb, hdbtrim, hdbm⟩, hiff⟩ := hb
          have hne : lowerBytes (trimDots q) ≠ lowerBytes b :=
            fun hc => absurd (hiff.mpr hc) (by simp)
          refine ⟨b, db, hdb, hdbtrim, hdbm, hne, ?_, h⟩
          intro d' hd' hm'
          have hmax := foldl_apexStep_maximal (lowerBytes (trimDots q)) ds none d' hd' hm'
          rw [hfold] at hmax
          simpa only [accLen] using hmax

/-- Witness for `subdomain_longest_apex_spec`: QNAME "a.bc." with apex sets
["zz"] (no match), ["bc"] (exact match), and ["bc"] again (proper-suffix
extraction of "a"). -/
theorem subdomain_longest_apex_spec_witness :
    ((∀ d ∈ [[122, 122]], apexMatches (lowerBytes (trimDots [97, 46, 98, 99, 46])) d = false) ∧
      extract_subdomain_multi [97, 46, 98, 99, 46] [[122, 122]] = .error .NameError)
    ∧
    (extract_subdomain_multi [98, 99, 46] [[98, 99]] = .error .NameError)
    ∧
    (extract_subdomain_multi [97, 46, 98, 99, 46] [[98, 99]] = .ok [97] ∧
      ∃ b d, d ∈ [[98, 99]] ∧ trimDots d = b ∧
        apexMatches (lowerBytes (trimDots [97, 46, 98, 99, 46])) d = true ∧
        lowerBytes (trimDots [97, 46, 98, 99, 46]) ≠ lowerBytes b ∧
        (∀ d' ∈ [[98, 99]],
          apexMatches (lowerBytes (trimDots [97, 46, 98, 99, 46])) d' = true →
          (trimDots d').length ≤ b.length) ∧
        extract_subdomain [97, 46, 98, 99, 46] b = .ok [97]) := by
  have hnm : ∀ d ∈ [[122, 122]],
      apexMatches (lowerBytes (trimDots [97, 46, 98, 99, 46])) d = false := by decide
  refine ⟨⟨hnm, subdomain_longest_apex_spec.1 _ _ hnm⟩, ?_, ?_⟩
  · exact subdomain_longest_apex_spec.2.1 [98, 99, 46] [[98, 99]] [98, 99]
      (by simp) (by decide) (by decide)
  · exact ⟨by decide, subdomain_longest_apex_spec.2.2 [97, 46, 98, 99, 46]
      [[98, 99]] [97] (by decide)⟩

/-! ## DNS name parser and encoder (`name.rs`)

`parse_name` is a loop; the embedding `parseNameGo` is fuel-indexed and
returns `none` on fuel exhaustion.  `parse_name_spec` below proves the fuel
`18 * (packet.length + 2)` always suffices (the loop terminates): every
iteration either increments the pointer depth (bounded by 16) or strictly
advances the offset (bounded by the packet length). -/

/-- A UTF-8 continuation byte (`0x80..=0xBF`). -/
def utf8Cont (b : Nat) : Bool := decide (128 ≤ b) && decide (b ≤ 191)

/-- `std::str::from_utf8` validity (RFC 3629: rejects overlong forms,
surrogates, and values above U+10FFFF). -/
def utf8Valid : List Nat → Bool
  | [] => true
  | b :: rest =>
    if b ≤ 0x7F then utf8Valid rest
    else if 0xC2 ≤ b ∧ b ≤ 0xDF then
      match rest with
      | c1 :: r => utf8Cont c1 && utf8Valid r
      | [] => false
    else if b = 0xE0 then
      match rest with
      | c1 :: c2 :: r =>
          (decide (0xA0 ≤ c1) && decide (c1 ≤ 0xBF)) && utf8Cont c2 && utf8Valid r
      | _ => false
    else if (0xE1 ≤ b ∧ b ≤ 0xEC) ∨ b = 0xEE ∨ b = 0xEF then
      match rest with
      | c1 :: c2 :: r => utf8Cont c1 && utf8Cont c2 && utf8Valid r
      | _ => false
    else if b = 0xED then
      match rest with
      | c1 :: c2 :: r =>
          (decide (0x80 ≤ c1) && decide (c1 ≤ 0x9F)) && utf8Cont c2 && utf8Valid r
      | _ => false
    else if b = 0xF0 then
      match rest with
      | c1 :: c2 :: c3 :: r =>
          (decide (0x90 ≤ c1) && decide (c1 ≤ 0xBF)) && utf8Cont c2 && utf8Cont c3 &&
            utf8Valid r
      | _ => false
    else if 0xF1 ≤ b ∧ b ≤ 0xF3 then
      match rest with
      | c1 :: c2 :: c3 :: r => utf8Cont c1 && utf8Cont c2 && utf8Cont c3 && utf8Valid r
      | _ => false
    else if b = 0xF4 then
      match rest with
      | c1 :: c2 :: c3 :: r =>
          (decide (0x80 ≤ c1) && decide (c1 ≤ 0x8F)) && utf8Cont c2 && utf8Cont c3 &&
            utf8Valid r
      | _ => false
    else false

/-- The `parse_name` loop, fuel-indexed.  Arguments mirror the Rust locals:
`offset`, `jumped`, `end_offset`, `seen`, `depth`, `name_len`, `labels`.
Returns `none` when the fuel runs out, `some (.ok (labels, end_offset))` on
the terminating zero label, or `some (.error msg)` with the source's error
message. -/
def parseNameGo (packet : List Nat) :
    Nat → Nat → Bool → Nat → List Nat → Nat → Nat → List (List Nat) →
    Option (Except String (List (List Nat) × Nat))
  | 0, _, _, _, _, _, _, _ => none
  | fuel + 1, offset, jumped, end_offset, seen, depth, name_len, labels =>
    if packet.length ≤ offset then some (.error "name out of range")
    else
      let len := packet.getD offset 0
      if len &&& 0xC0 = 0xC0 then
        if packet.length ≤ offset + 1 then some (.error "truncated pointer")
        else
          let ptr := ((len &&& 0x3F) <<< 8) ||| packet.getD (offset + 1) 0
          if packet.length ≤ ptr then some (.error "pointer out of range")
          else if ptr ∈ seen then some (.error "pointer loop")
          else if 16 < depth + 1 then some (.error "pointer depth exceeded")
          else parseNameGo packet fuel ptr true
            (if jumped then end_offset else offset + 2) (ptr :: seen) (depth + 1)
            name_len labels
      else if len = 0 then
        some (.ok (labels, if jumped then end_offset else offset + 1))
      else if 63 < len then some (.error "label too long")
      else
        let endi := offset + 1 + len
        if packet.length < endi then some (.error "label out of range")
        else
          let name_len' := name_len + (if labels.isEmpty then 0 else 1) + len
          if MAX_DNS_NAME_LEN < name_len' then some (.error "name too long")
          else
            let label := (packet.drop (offset + 1)).take len
            if utf8Valid label then
              parseNameGo packet fuel endi jumped
                (if jumped then end_offset else endi) seen depth name_len'
                (labels ++ [label])
            else some (.error "label not utf-8")

/-- Sufficient fuel for `parseNameGo` (proved by `parse_name_spec`). -/
def parseNameFuel (packet : List Nat) : Nat := 18 * (packet.length + 2)

/-- `labels.join(".") + "."`, or `"."` for an empty label list. -/
def joinLabels (labels : List (List Nat)) : List Nat :=
  if labels.isEmpty then [46]
  else (List.intercalate [46] labels) ++ [46]

/-- `parse_name` from `name.rs`: run the loop with sufficient fuel and build
the dotted name.  (The `none` fallback is unreachable by `parse_name_spec`.) -/
def parse_name (packet : List Nat) (start : Nat) : Except String (List Nat × Nat) :=
  match parseNameGo packet (parseNameFuel packet) start false start [] 0 0 [] with
  | some (.ok (labels, e)) => .ok (joinLabels labels, e)
  | some (.error msg) => .error msg
  | none => .error "name out of range"

/-- The loop body of `encode_name`: labels still to write, accumulated
`name_len`, whether this is the first label, output so far. -/
def encodeLabels : List (List Nat) → Nat → Bool → List Nat → Except String (List Nat)
  | [], _, _, out => .ok (out ++ [0])
  | l :: rest, name_len, first, out =>
    if l = [] then .error "empty label"
    else if 63 < l.length then .error "label too long"
    else
      let name_len' := name_len + (if first then 0 else 1) + l.length
      if MAX_DNS_NAME_LEN < name_len' then .error "name too long"
      else encodeLabels rest name_len' false (out ++ l.length :: l)

/-- `encode_name` from `name.rs` (returns the output buffer with the encoded
name appended). -/
def encode_name (name : List Nat) (out : List Nat) : Except String (List Nat) :=
  if name = [46] then .ok (out ++ [0])
  else encodeLabels ((trimDots name).splitOn 46) 0 true out

set_option maxHeartbeats 2000000 in
theorem parseNameGo_isSome (packet : List Nat) :
    ∀ (fuel offset : Nat) (jumped : Bool) (end_offset : Nat) (seen : List Nat)
      (depth name_len : Nat) (labels : List (List Nat)),
      depth ≤ 16 →
      (packet.length + 2) * (17 - depth) + (packet.length + 1 - offset) < fuel →
      (parseNameGo packet fuel offset jumped end_offset seen depth name_len
        labels).isSome = true := by
  intro fuel
  induction fuel with
  | zero =>
    intro offset jumped e seen depth nl labels _ hm
    exact absurd hm (Nat.not_lt_zero _)
  | succ fuel ih =>
    intro offset jumped e seen depth nl labels hd hm
    simp only [parseNameGo]
    split
    · rfl
    · split
      · split
        · rfl
        · split
          · rfl
          · split
            · rfl
            · split
              · rfl
              · apply ih
                · omega
                · have h17 : 17 - depth = (16 - depth) + 1 := by omega
                  have h16 : 17 - (depth + 1) = 16 - depth := by omega
                  rw [h16]
                  rw [h17, Nat.mul_add, Nat.mul_one] at hm
                  omega
      · split
        · rfl
        · split
          · rfl
          · split
            · rfl
            · split
              · split
                · rfl
                · split
                  · apply ih _ _ _ _ _ _ _ hd
                    omega
                  · rfl
              · split
                · rfl
                · split
                  · apply ih _ _ _ _ _ _ _ hd
                    omega
                  · rfl

set_option maxHeartbeats 2000000 in
theorem parseNameGo_fuel_eq (packet : List Nat) :
    ∀ (fuel1 fuel2 offset : Nat) (jumped : Bool) (end_offset : Nat) (seen : List Nat)
      (depth name_len : Nat) (labels : List (List Nat)),
      depth ≤ 16 →
      (packet.length + 2) * (17 - depth) + (packet.length + 1 - offset) < fuel1 →
      (packet.length + 2) * (17 - depth) + (packet.length + 1 - offset) < fuel2 →
      parseNameGo packet fuel1 offset jumped end_offset seen depth name_len labels =
        parseNameGo packet fuel2 offset jumped end_offset seen depth name_len labels := by
  intro fuel1
  induction fuel1 with
  | zero =>
    intro fuel2 offset jumped e seen depth nl labels _ hm _
    exact absurd hm (Nat.not_lt_zero _)
  | succ fuel1 ih =>
    intro fuel2 offset jumped e seen depth nl labels hd hm1 hm2
    cases fuel2 with
    | zero => exact absurd hm2 (Nat.not_lt_zero _)
    | succ fuel2 =>
      simp only [parseNameGo]
      split
      · rfl
      · split
        · split
          · rfl
          · split
            · rfl
            · split
              · rfl
              · split
                · rfl
                · apply ih
                  · omega
                  · have h17 : 17 - depth = (16 - depth) + 1 := by omega
                    have h16 : 17 - (depth + 1) = 16 - depth := by omega
                    rw [h16]
                    rw [h17, Nat.mul_add, Nat.mul_one] at hm1
                    omega
                  · have h17 : 17 - depth = (16 - depth) + 1 := by omega
                    have h16 : 17 - (depth + 1) = 16 - depth := by omega
                    rw [h16]
                    rw [h17, Nat.mul_add, Nat.mul_one] at hm2
                    omega
        · split
          · rfl
          · split
            · rfl
            · split
              · rfl
              · split
                · split
                  · rfl
                  · split
                    · apply ih _ _ _ _ _ _ _ _ hd
                      · omega
                      · omega
                    · rfl
                · split
                  · rfl
                  · split
                    · apply ih _ _ _ _ _ _ _ _ hd
                      · omega
                      · omega
                    · rfl

set_option maxHeartbeats 2000000 in
theorem parseNameGo_error_mem (packet : List Nat) :
    ∀ (fuel offset : Nat) (jumped : Bool) (end_offset : Nat) (seen : List Nat)
      (depth name_len : Nat) (labels : List (List Nat)) (msg : String),
      parseNameGo packet fuel offset jumped end_offset seen depth name_len labels =
        some (.error msg) →
      msg ∈ ["name out of range", "truncated pointer", "pointer out of range",
        "pointer loop", "pointer depth exceeded", "label too long",
        "label out of range", "name too long", "label not utf-8"] := by
  intro fuel
  induction fuel with
  | zero =>
    intro offset jumped e seen depth nl labels msg h
    exact absurd h (by simp [parseNameGo])
  | succ fuel ih =>
    intro offset jumped e seen depth nl labels msg h
    simp only [parseNameGo] at h
    split at h
    · simp at h
      simp [h]
    · split at h
      · split at h
        · simp at h
          simp [h]
        · split at h
          · simp at h
            simp [h]
          · split at h
            · simp at h
              simp [h]
            · split at h
              · simp at h
                simp [h]
              · exact ih _ _ _ _ _ _ _ _ h
      · split at h
        · simp at h
        · split at h
          · simp at h
            simp [h]
          · split at h
            · simp at h
              simp [h]
            · split at h
              · split at h
                · simp at h
                  simp [h]
                · split at h
                  · exact ih _ _ _ _ _ _ _ _ h
                  · simp at h
                    simp [h]
              · split at h
                · simp at h
                  simp [h]
                · split at h
                  · exact ih _ _ _ _ _ _ _ _ h
                  · simp at h
                    simp [h]

theorem encodeLabels_long_label :
    ∀ (ls : List (List Nat)) (nl : Nat) (first : Bool) (out : List Nat),
      (∃ l ∈ ls, 63 < l.length) →
      ∃ msg, encodeLabels ls nl first out = .error msg := by
  intro ls
  induction ls with
  | nil =>
    intro nl first out h
    obtain ⟨l, hl, _⟩ := h
    simp at hl
  | cons l rest ih =>
    intro nl first out h
    simp only [encodeLabels]
    by_cases h1 : l = []
    · rw [if_pos h1]
      exact ⟨_, rfl⟩
    · rw [if_neg h1]
      by_cases h2 : 63 < l.length
      · rw [if_pos h2]
        exact ⟨_, rfl⟩
      · rw [if_neg h2]
        obtain ⟨l', hl', hlen'⟩ := h
        rcases List.mem_cons.mp hl' with rfl | hl'
        · exact absurd hlen' h2
        · by_cases h3 : MAX_DNS_NAME_LEN < nl + (if first then 0 else 1) + l.length
          · rw [if_pos h3]
            exact ⟨_, rfl⟩
          · rw [if_neg h3]
            exact ih _ false _ ⟨l', hl', hlen'⟩

/-- Accumulated `name_len` weight of a label list (separators counted after
the first label). -/
def labelsWeight : List (List Nat) → Bool → Nat
  | [], _ => 0
  | l :: rest, first => (if first then 0 else 1) + l.length + labelsWeight rest false

theorem encodeLabels_ok_weight :
    ∀ (ls : List (List Nat)) (nl : Nat) (first : Bool) (out r : List Nat),
      ls ≠ [] → encodeLabels ls nl first out = .ok r →
      nl + labelsWeight ls first ≤ MAX_DNS_NAME_LEN := by
  intro ls
  induction ls with
  | nil => intro nl first out r hne _; exact absurd rfl hne
  | cons l rest ih =>
    intro nl first out r _ hok
    simp only [encodeLabels] at hok
    by_cases h1 : l = []
    · rw [if_pos h1] at hok
      exact absurd hok (by simp)
    · rw [if_neg h1] at hok
      by_cases h2 : 63 < l.length
      · rw [if_pos h2] at hok
        exact absurd hok (by simp)
      · rw [if_neg h2] at hok
        by_cases h3 : MAX_DNS_NAME_LEN < nl + (if first then 0 else 1) + l.length
        · rw [if_pos h3] at hok
          exact absurd hok (by simp)
        · rw [if_neg h3] at hok
          cases rest with
          | nil =>
            simp only [labelsWeight]
            omega
          | cons m rest2 =>
            have hw := ih (nl + (if first then 0 else 1) + l.length) false _ r
              (by simp) hok
            simp only [labelsWeight] at hw ⊢
            omega

theorem labelsWeight_false_succ :
    ∀ ls : List (List Nat), ls ≠ [] → labelsWeight ls false = labelsWeight ls true + 1 := by
  intro ls hne
  cases ls with
  | nil => exact absurd rfl hne
  | cons l rest =>
    simp [labelsWeight]
    omega

theorem labelsWeight_splitOn (t : List Nat) :
    labelsWeight (t.splitOn 46) true = t.length := by
  induction t with
  | nil => rfl
  | cons c t ih =>
    have hne : t.splitOn 46 ≠ [] := List.splitOnP_ne_nil _ t
    by_cases hc : c = 46
    · subst hc
      rw [show ((46 :: t).splitOn 46) = [] :: t.splitOn 46 by
        simp [List.splitOn, List.splitOnP_cons]]
      simp only [labelsWeight, labelsWeight_false_succ _ hne, ih]
      simp
    · rw [show ((c :: t).splitOn 46) = (t.splitOn 46).modifyHead (c :: ·) by
        simp [List.splitOn, List.splitOnP_cons, hc]]
      obtain ⟨h, tl, hcons⟩ := List.exists_cons_of_ne_nil hne
      rw [hcons]
      rw [hcons] at ih
      simp only [List.modifyHead, labelsWeight] at ih ⊢
      simp at ih ⊢
      omega

/-- Counterexample to C10 as stated: `parse_name` also returns an error on a
label that is not valid UTF-8 (packet `[1, 0xFF, 0]`: one 1-byte label
`0xFF`), which is none of the five listed conditions (no label exceeds 63
octets, the name is 1 octet, there is no compression pointer, and every read
is in bounds). -/
theorem parse_name_error_not_in_claimed_list :
    parse_name [1, 255, 0] 0 = .error "label not utf-8" ∧
    "label not utf-8" ∉ ["name out of range", "truncated pointer",
      "pointer out of range", "label out of range", "pointer loop",
      "pointer depth exceeded", "label too long", "name too long"] := by
  constructor
  · rfl
  · decide

/-- C10 (amended): (1) `parse_name` terminates: the fuel
`18 * (packet.length + 2)` suffices for every packet and start offset, and
any larger fuel computes the same result.  (2) `parse_name` errors only with
the source's error conditions: a read past the end of the packet
(`name out of range` / `truncated pointer` / `pointer out of range` /
`label out of range`), a pointer loop, pointer depth > 16, a label longer
than 63 octets, a name longer than 253 octets, or - the condition the
original claim omitted - a label that is not valid UTF-8.  (3) `encode_name`
rejects any name containing a label longer than 63 octets and (4) any name
whose encoded length (= length of the trailing-dot-trimmed name) exceeds
253 octets. -/
theorem parse_name_spec :
    (∀ (p : List Nat) (s fuel : Nat), parseNameFuel p ≤ fuel →
      parseNameGo p fuel s false s [] 0 0 [] =
        parseNameGo p (parseNameFuel p) s false s [] 0 0 [] ∧
      (parseNameGo p (parseNameFuel p) s false s [] 0 0 []).isSome = true)
    ∧
    (∀ (p : List Nat) (s : Nat) (msg : String), parse_name p s = .error msg →
      msg ∈ ["name out of range", "truncated pointer", "pointer out of range",
        "pointer loop", "pointer depth exceeded", "label too long",
        "label out of range", "name too long", "label not utf-8"])
    ∧
    (∀ (name out l : List Nat), l ∈ (trimDots name).splitOn 46 → 63 < l.length →
      ∃ msg, encode_name name out = .error msg)
    ∧
    (∀ (name out : List Nat), MAX_DNS_NAME_LEN < (trimDots name).length →
      ∃ msg, encode_name name out = .error msg) := by
  refine ⟨?_, ?_, ?_, ?_⟩
  · intro p s fuel hf
    have hm : (p.length + 2) * (17 - 0) + (p.length + 1 - s) < parseNameFuel p := by
      unfold parseNameFuel
      omega
    exact ⟨parseNameGo_fuel_eq p fuel (parseNameFuel p) s false s [] 0 0 []
        (by omega) (Nat.lt_of_lt_of_le hm hf) hm,
      parseNameGo_isSome p (parseNameFuel p) s false s [] 0 0 [] (by omega) hm⟩
  · intro p s msg h
    simp only [parse_name] at h
    split at h
    · exact absurd h (by simp)
    · next heq =>
      rw [Except.error.injEq] at h
      subst h
      exact parseNameGo_error_mem p _ _ _ _ _ _ _ _ _ heq
    · rw [Except.error.injEq] at h
      subst h
      simp
  · intro name out l hl hlen
    simp only [encode_name]
    by_cases hdot : name = [46]
    · subst hdot
      have : l ∈ [([] : List Nat)] := by
        simpa [trimDots] using hl
      simp at this
      subst this
      simp at hlen
    · rw [if_neg hdot]
      exact encodeLabels_long_label _ 0 true out ⟨l, hl, hlen⟩
  · intro name out hlen
    simp only [encode_name]
    by_cases hdot : name = [46]
    · subst hdot
      simp [trimDots, MAX_DNS_NAME_LEN] at hlen
    · rw [if_neg hdot]
      cases hok : encodeLabels ((trimDots name).splitOn 46) 0 true out with
      | ok r =>
        exfalso
        have hw := encodeLabels_ok_weight _ 0 true out r
          ((List.splitOnP_ne_nil _ _ : (trimDots name).splitOn 46 ≠ [])) hok
        have hw2 : 0 + labelsWeight ((trimDots name).splitOn 46) true ≤
            MAX_DNS_NAME_LEN := hw
        rw [labelsWeight_splitOn] at hw2
        omega
      | error msg => exact ⟨msg, rfl⟩

set_option maxRecDepth 4000 in
/-- Witness for `parse_name_spec`: the empty-name packet `[0]` with fuel 100;
the empty packet (out-of-range error); a 64-octet label; a 254-octet name. -/
theorem parse_name_spec_witness :
    (parseNameFuel [0] ≤ 100 ∧
      parseNameGo [0] 100 0 false 0 [] 0 0 [] =
        parseNameGo [0] (parseNameFuel [0]) 0 false 0 [] 0 0 [] ∧
      (parseNameGo [0] (parseNameFuel [0]) 0 false 0 [] 0 0 []).isSome = true)
    ∧
    (parse_name [] 0 = .error "name out of range" ∧
      "name out of range" ∈ ["name out of range", "truncated pointer",
        "pointer out of range", "pointer loop", "pointer depth exceeded",
        "label too long", "label out of range", "name too long",
        "label not utf-8"])
    ∧
    (∃ msg, encode_name (List.replicate 64 97) [] = .error msg)
    ∧
    (∃ msg, encode_name (List.replicate 254 97) [] = .error msg) := by
  refine ⟨⟨by decide, ?_, ?_⟩, ⟨rfl, ?_⟩, ?_, ?_⟩
  · exact (parse_name_spec.1 [0] 0 100 (by decide)).1
  · exact (parse_name_spec.1 [0] 0 100 (by decide)).2
  · exact parse_name_spec.2.1 [] 0 _ rfl
  · exact parse_name_spec.2.2.1 (List.replicate 64 97) [] (List.replicate 64 97)
      (by decide) (by decide)
  · exact parse_name_spec.2.2.2 (List.replicate 254 97) [] (by decide)

/-! ## DNS wire helpers (`wire.rs`, `types.rs`) -/

/-- `RR_TXT` from `types.rs`. -/
def RR_TXT : Nat := 16

/-- `RR_OPT` from `types.rs`. -/
def RR_OPT : Nat := 41

/-- `CLASS_IN` from `types.rs`. -/
def CLASS_IN : Nat := 1

/-- `EDNS_UDP_PAYLOAD` from `types.rs`. -/
def EDNS_UDP_PAYLOAD : Nat := 1232

/-- `Question` from `types.rs`. -/
structure Question where
  name : List Nat
  qtype : Nat
  qclass : Nat
deriving Repr, DecidableEq

/-- `Header` from `wire.rs`. -/
structure Header where
  id : Nat
  is_response : Bool
  rd : Bool
  cd : Bool
  qdcount : Nat
  ancount : Nat
  rcode : Option Rcode
  offset : Nat
deriving Repr, DecidableEq

/-- `read_u16` from `wire.rs` (`u16::from_be_bytes`; packet entries are
bytes, i.e. < 256, whenever the packet comes from `&[u8]`). -/
def read_u16 (packet : List Nat) (offset : Nat) : Option Nat :=
  if packet.length < offset + 2 then none
  else some (256 * packet.getD offset 0 + packet.getD (offset + 1) 0)

/-- `read_u32` from `wire.rs`. -/
def read_u32 (packet : List Nat) (offset : Nat) : Option Nat :=
  if packet.length < offset + 4 then none
  else some (2 ^ 24 * packet.getD offset 0 + 2 ^ 16 * packet.getD (offset + 1) 0 +
    256 * packet.getD (offset + 2) 0 + packet.getD (offset + 3) 0)

/-- `write_u16` from `wire.rs` (`u16::to_be_bytes`). -/
def write_u16 (v : Nat) : List Nat := [v / 256 % 256, v % 256]

/-- `write_u32` from `wire.rs`. -/
def write_u32 (v : Nat) : List Nat :=
  [v / 2 ^ 24 % 256, v / 2 ^ 16 % 256, v / 256 % 256, v % 256]

/-- `parse_header` from `wire.rs`. -/
def parse_header (packet : List Nat) : Option Header :=
  if packet.length < 12 then none
  else
    (read_u16 packet 0).bind fun id =>
    (read_u16 packet 2).bind fun flags =>
    (read_u16 packet 4).bind fun qdcount =>
    (read_u16 packet 6).bind fun ancount =>
    (read_u16 packet 8).bind fun _nscount =>
    (read_u16 packet 10).bind fun _arcount =>
    some { id := id
           is_response := decide (flags &&& 0x8000 ≠ 0)
           rd := decide (flags &&& 0x0100 ≠ 0)
           cd := decide (flags &&& 0x0010 ≠ 0)
           qdcount := qdcount
           ancount := ancount
           rcode := Rcode.from_u8 (flags &&& 0x000F)
           offset := 12 }

/-- `parse_question` from `wire.rs`. -/
def parse_question (packet : List Nat) (offset : Nat) :
    Except String (Question × Nat) :=
  match parse_name packet offset with
  | .error _ => .error "bad name"
  | .ok (name, offset) =>
    if packet.length < offset + 4 then .error "truncated question"
    else
      match read_u16 packet offset with
      | none => .error "truncated qtype"
      | some qtype =>
        match read_u16 packet (offset + 2) with
        | none => .error "truncated qclass"
        | some qclass => .ok ({ name := name, qtype := qtype, qclass := qclass }, offset + 4)

/-- `parse_question_for_reply` from `wire.rs`: `.error ()` is
`DecodeQueryError::Drop`; `.ok none` is the no-question case. -/
def parse_question_for_reply (packet : List Nat) (qdcount offset : Nat) :
    Except Unit (Option Question) :=
  if qdcount = 0 then .ok none
  else
    match parse_question packet offset with
    | .ok (q, _) => .ok (some q)
    | .error _ => .error ()

/-! ## DNS response codec (`codec.rs`) -/

/-- `ResponseParams` from `types.rs`. -/
structure ResponseParams where
  id : Nat
  rd : Bool
  cd : Bool
  question : Question
  payload : Option (List Nat)
  rcode : Option Rcode

/-- `encode_opt_record` from `codec.rs`. -/
def encode_opt_record (out : List Nat) : List Nat :=
  out ++ [0] ++ write_u16 RR_OPT ++ write_u16 EDNS_UDP_PAYLOAD ++ write_u32 0 ++
    write_u16 0

/-- The TXT character-string chunking loop of `encode_response`
(`<len><bytes>` pieces of at most 255 octets), fuel-indexed by the payload
length (each iteration consumes at least one payload byte, so the fuel in
`txtChunks` always suffices). -/
def txtChunksGo : Nat → List Nat → List Nat
  | 0, _ => []
  | fuel + 1, l =>
    match l with
    | [] => []
    | b :: rest =>
      let chunk := (b :: rest).take 255
      chunk.length :: (chunk ++ txtChunksGo fuel ((b :: rest).drop 255))

/-- The TXT RDATA of a payload. -/
def txtChunks (payload : List Nat) : List Nat := txtChunksGo payload.length payload

/-- `encode_response` from `codec.rs`. -/
def encode_response (params : ResponseParams) : Except String (List Nat) :=
  let payload_len := (params.payload.map List.length).getD 0
  let rcode0 := params.rcode.getD (if 0 < payload_len then Rcode.Ok else Rcode.NameError)
  let ancount : Nat := if 0 < payload_len ∧ rcode0 = Rcode.Ok then 1 else 0
  -- the source's `else if params.rcode.is_some()` re-assignment is a no-op
  -- (it re-reads the same `params.rcode` value), so `rcode0` is final
  let flags := 0x8000 ||| 0x0400 ||| (if params.rd then 0x0100 else 0) |||
    (if params.cd then 0x0010 else 0) ||| rcode0.to_u8
  let out := write_u16 params.id ++ write_u16 flags ++ write_u16 1 ++
    write_u16 ancount ++ write_u16 0 ++ write_u16 1
  match encode_name params.question.name out with
  | .error e => .error e
  | .ok out =>
    let out := out ++ write_u16 params.question.qtype ++ write_u16 params.question.qclass
    if ancount = 1 then
      let out := out ++ [0xC0, 0x0C] ++ write_u16 params.question.qtype ++
        write_u16 params.question.qclass ++ write_u32 60
      let chunk_count := (payload_len + 254) / 255
      let rdata_len := payload_len + chunk_count
      if 65535 < rdata_len then .error "payload too long"
      else
        let out := out ++ write_u16 rdata_len ++
          (match params.payload with | some p => txtChunks p | none => [])
        .ok (encode_opt_record out)
    else .ok (encode_opt_record out)

/-- The question-skipping loop of `decode_response`. -/
def skipQuestions (packet : List Nat) : Nat → Nat → Option Nat
  | 0, offset => some offset
  | n + 1, offset =>
    match parse_name packet offset with
    | .error _ => none
    | .ok (_, offset') =>
      if packet.length < offset' + 4 then none
      else skipQuestions packet n (offset' + 4)

/-- The TXT-reassembly loop of `decode_response`, fuel-indexed by
`remaining` (each iteration consumes at least one octet of `remaining`, so
the fuel in `readTxtRdata` always suffices and the fuel-exhaustion branch is
unreachable). -/
def readTxtGo (packet : List Nat) : Nat → Nat → Nat → List Nat → Option (List Nat)
  | 0, _, remaining, acc => if remaining = 0 then some acc else none
  | fuel + 1, cursor, remaining, acc =>
    if remaining = 0 then some acc
    else
      let txt_len := packet.getD cursor 0
      let remaining' := remaining - 1
      if remaining' < txt_len then none
      else readTxtGo packet fuel (cursor + 1 + txt_len) (remaining' - txt_len)
        (acc ++ (packet.drop (cursor + 1)).take txt_len)

/-- The TXT reassembly of `decode_response` starting at `cursor` over
`remaining` RDATA octets. -/
def readTxtRdata (packet : List Nat) (cursor remaining : Nat) (acc : List Nat) :
    Option (List Nat) :=
  readTxtGo packet remaining cursor remaining acc

/-- The answer-record header fields read by `decode_response` after the
answer name: `(qtype, rdlen, rdata offset)`. -/
def parseAnswerMeta (packet : List Nat) (offset : Nat) : Option (Nat × Nat × Nat) :=
  match parse_name packet offset with
  | .error _ => none
  | .ok (_, offset) =>
    if packet.length < offset + 10 then none
    else
      (read_u16 packet offset).bind fun qtype =>
      (read_u16 packet (offset + 2)).bind fun _qclass =>
      (read_u32 packet (offset + 4)).bind fun _ttl =>
      (read_u16 packet (offset + 8)).bind fun rdlen =>
      some (qtype, rdlen, offset + 10)

/-- `decode_response` from `codec.rs`. -/
def decode_response (packet : List Nat) : Option (List Nat) :=
  match parse_header packet with
  | none => none
  | some h =>
    if !h.is_response then none
    else match h.rcode with
    | none => none
    | some rc =>
      if rc ≠ Rcode.Ok then none
      else if h.ancount ≠ 1 then none
      else match skipQuestions packet h.qdcount h.offset with
      | none => none
      | some offset =>
        match parseAnswerMeta packet offset with
        | none => none
        | some (qtype, rdlen, rdataOff) =>
          if packet.length < rdataOff + rdlen ∨ rdlen < 1 then none
          else if qtype ≠ RR_TXT then none
          else match readTxtRdata packet rdataOff rdlen [] with
          | none => none
          | some out => if out = [] then none else some out

/-! ### Wire shape of encoded names -/

/-- The byte encoding `encode_name` appends for a label list:
`<len> <label>` per label, then the terminating zero octet. -/
def wireLabels : List (List Nat) → List Nat
  | [] => [0]
  | l :: rest => l.length :: (l ++ wireLabels rest)

theorem wireLabels_length_pos (ls : List (List Nat)) : 0 < (wireLabels ls).length := by
  cases ls <;> simp [wireLabels]

theorem length_lt_wireLabels (ls : List (List Nat)) :
    ls.length < (wireLabels ls).length := by
  induction ls with
  | nil => simp [wireLabels]
  | cons l rest ih => simp [wireLabels]; omega

theorem encodeLabels_ok_shape :
    ∀ (ls : List (List Nat)) (nl : Nat) (first : Bool) (out r : List Nat),
      encodeLabels ls nl first out = .ok r →
      r = out ++ wireLabels ls ∧ ∀ l ∈ ls, l ≠ [] ∧ l.length ≤ 63 := by
  intro ls
  induction ls with
  | nil =>
    intro nl first out r hok
    simp only [encodeLabels] at hok
    cases hok
    simp [wireLabels]
  | cons l rest ih =>
    intro nl first out r hok
    simp only [encodeLabels] at hok
    by_cases h1 : l = []
    · rw [if_pos h1] at hok; exact absurd hok (by simp)
    · rw [if_neg h1] at hok
      by_cases h2 : 63 < l.length
      · rw [if_pos h2] at hok; exact absurd hok (by simp)
      · rw [if_neg h2] at hok
        by_cases h3 : MAX_DNS_NAME_LEN < nl + (if first then 0 else 1) + l.length
        · rw [if_pos h3] at hok; exact absurd hok (by simp)
        · rw [if_neg h3] at hok
          obtain ⟨hr, hmem⟩ := ih _ false _ r hok
          constructor
          · rw [hr]; simp [wireLabels]
          · intro l' hl'
            rcases List.mem_cons.mp hl' with rfl | hl'
            · exact ⟨h1, by omega⟩
            · exact hmem l' hl'

theorem encode_name_ok_shape (name out r : List Nat)
    (hok : encode_name name out = .ok r) :
    ∃ ls, r = out ++ wireLabels ls ∧ (∀ l ∈ ls, l ≠ [] ∧ l.length ≤ 63) ∧
      labelsWeight ls true ≤ MAX_DNS_NAME_LEN ∧
      (ls = [] ∨ ls = (trimDots name).splitOn 46) := by
  simp only [encode_name] at hok
  by_cases hroot : name = [46]
  · rw [if_pos hroot] at hok
    cases hok
    exact ⟨[], by simp [wireLabels], by simp, by simp [labelsWeight, MAX_DNS_NAME_LEN], Or.inl rfl⟩
  · rw [if_neg hroot] at hok
    obtain ⟨hr, hmem⟩ := encodeLabels_ok_shape _ _ _ _ _ hok
    refine ⟨(trimDots name).splitOn 46, hr, hmem, ?_, Or.inr rfl⟩
    have hne : (trimDots name).splitOn 46 ≠ [] := List.splitOnP_ne_nil _ _
    have := encodeLabels_ok_weight _ 0 true _ _ hne hok
    omega

/-! ### Positioned reads from an appended packet -/

theorem getD_at (pre l2 : List Nat) (off k : Nat) (hoff : pre.length = off) :
    (pre ++ l2).getD (off + k) 0 = l2.getD k 0 := by
  subst hoff
  rw [List.getD_append_right]
  · congr 1
    omega
  · omega

theorem read_u16_at (pre rest : List Nat) (off v : Nat) (hoff : pre.length = off)
    (hv : v < 65536) :
    read_u16 (pre ++ (write_u16 v ++ rest)) off = some v := by
  have h0 : (pre ++ (write_u16 v ++ rest)).getD (off + 0) 0 = v / 256 % 256 :=
    getD_at pre _ off 0 hoff
  have h1 : (pre ++ (write_u16 v ++ rest)).getD (off + 1) 0 = v % 256 :=
    getD_at pre _ off 1 hoff
  rw [read_u16, if_neg]
  · rw [show off = off + 0 from rfl, h1]
    rw [show (off + 0 : Nat) = off + 0 from rfl, h0]
    congr 1
    omega
  · simp [write_u16]
    omega

theorem read_u32_at_some (packet : List Nat) (off : Nat)
    (h : off + 4 ≤ packet.length) :
    ∃ w, read_u32 packet off = some w := by
  rw [read_u32, if_neg (by omega)]
  exact ⟨_, rfl⟩

/-! ### Parsing a wire-encoded name -/

theorem parseNameGo_wire (ls : List (List Nat)) :
    ∀ (pre suf : List Nat) (off fuel : Nat) (jumped : Bool) (end_offset : Nat)
      (seen : List Nat) (depth name_len : Nat) (labels : List (List Nat)),
      pre.length = off →
      (∀ l ∈ ls, l ≠ [] ∧ l.length ≤ 63 ∧ utf8Valid l = true) →
      name_len + labelsWeight ls labels.isEmpty ≤ MAX_DNS_NAME_LEN →
      ls.length < fuel →
      parseNameGo (pre ++ (wireLabels ls ++ suf)) fuel off jumped end_offset seen
          depth name_len labels =
        some (.ok (labels ++ ls,
          if jumped then end_offset else off + (wireLabels ls).length)) := by
  induction ls with
  | nil =>
    intro pre suf off fuel jumped end_offset seen depth name_len labels hoff hls hw hfuel
    obtain ⟨f, rfl⟩ : ∃ f, fuel = f + 1 := ⟨fuel - 1, by omega⟩
    have hPlen : (pre ++ (wireLabels [] ++ suf)).length = off + 1 + suf.length := by
      simp [wireLabels]
      omega
    have hd : (pre ++ (wireLabels [] ++ suf)).getD off 0 = 0 := by
      have h := getD_at pre (wireLabels [] ++ suf) off 0 hoff
      simpa [wireLabels] using h
    simp only [parseNameGo]
    rw [if_neg (by omega), hd, if_neg (by decide), if_pos rfl]
    simp [wireLabels]
  | cons l rest ih =>
    intro pre suf off fuel jumped end_offset seen depth name_len labels hoff hls hw hfuel
    obtain ⟨f, rfl⟩ : ∃ f, fuel = f + 1 := ⟨fuel - 1, by omega⟩
    obtain ⟨hlne, hl63, hlutf⟩ := hls l (by simp)
    have hlpos : 0 < l.length := List.length_pos.mpr hlne
    have hwrest := wireLabels_length_pos rest
    have hPlen : (pre ++ (wireLabels (l :: rest) ++ suf)).length =
        off + 1 + l.length + (wireLabels rest).length + suf.length := by
      simp [wireLabels]
      omega
    have hd0 : (pre ++ (wireLabels (l :: rest) ++ suf)).getD off 0 = l.length := by
      have h := getD_at pre (wireLabels (l :: rest) ++ suf) off 0 hoff
      simpa [wireLabels] using h
    have hand : l.length &&& 192 ≠ 192 := by
      have h1 : l.length &&& 192 ≤ l.length := Nat.and_le_left
      omega
    have hwl : labelsWeight (l :: rest) labels.isEmpty =
        (if labels.isEmpty then 0 else 1) + l.length + labelsWeight rest false := rfl
    rw [hwl] at hw
    have hlab : ((pre ++ (wireLabels (l :: rest) ++ suf)).drop (off + 1)).take l.length = l := by
      have hA : pre ++ (wireLabels (l :: rest) ++ suf) =
          (pre ++ [l.length]) ++ (l ++ (wireLabels rest ++ suf)) := by
        simp [wireLabels]
      rw [hA, List.drop_left' (by simp [hoff]), List.take_left' rfl]
    have hfe : (labels ++ [l]).isEmpty = false := by cases labels <;> rfl
    simp only [parseNameGo]
    rw [if_neg (by omega), hd0, if_neg hand, if_neg (by omega), if_neg (by omega),
      if_neg (by omega), if_neg (by omega), hlab, if_pos hlutf]
    have hIH := ih (pre ++ l.length :: l) suf (off + 1 + l.length) f jumped
      (if jumped then end_offset else off + 1 + l.length) seen depth
      (name_len + (if labels.isEmpty then 0 else 1) + l.length) (labels ++ [l])
      (by simp [hoff]; omega)
      (fun l' h => hls l' (by simp [h]))
      (by rw [hfe]; omega)
      (by simp at hfuel ⊢; omega)
    have hP2 : (pre ++ l.length :: l) ++ (wireLabels rest ++ suf) =
        pre ++ (wireLabels (l :: rest) ++ suf) := by
      simp [wireLabels]
    rw [hP2] at hIH
    rw [hIH]
    cases jumped with
    | true => simp
    | false =>
      simp [wireLabels]
      omega

theorem parse_name_at_wire (pre suf : List Nat) (ls : List (List Nat)) (off : Nat)
    (hoff : pre.length = off)
    (hls : ∀ l ∈ ls, l ≠ [] ∧ l.length ≤ 63 ∧ utf8Valid l = true)
    (hw : labelsWeight ls true ≤ MAX_DNS_NAME_LEN) :
    parse_name (pre ++ (wireLabels ls ++ suf)) off =
      .ok (joinLabels ls, off + (wireLabels ls).length) := by
  have h1 := length_lt_wireLabels ls
  have h2 : (wireLabels ls).length ≤ (pre ++ (wireLabels ls ++ suf)).length := by
    simp
    omega
  have hfuel : ls.length < parseNameFuel (pre ++ (wireLabels ls ++ suf)) := by
    simp only [parseNameFuel]
    omega
  rw [parse_name, parseNameGo_wire ls pre suf off _ false off [] 0 0 [] hoff hls
    (by simpa using hw) hfuel]
  simp

theorem parseNameGo_pointer_step (P : List Nat) (f off : Nat)
    (h1 : ¬ P.length ≤ off) (hd0 : P.getD off 0 = 192)
    (h2 : ¬ P.length ≤ off + 1) (hd1 : P.getD (off + 1) 0 = 12)
    (h3 : ¬ P.length ≤ 12) :
    parseNameGo P (f + 1) off false off [] 0 0 [] =
      parseNameGo P f 12 true (off + 2) (12 :: []) (0 + 1) 0 [] := by
  simp only [parseNameGo]
  rw [hd0, if_neg h1, if_pos (by decide), if_neg h2, hd1,
    show ((192 &&& 63) <<< 8) ||| 12 = 12 from by decide,
    if_neg h3, if_neg (by simp), if_neg (by decide)]
  simp only [Bool.false_eq_true, if_false]

theorem parse_name_at_pointer (pre mid suf : List Nat) (ls : List (List Nat)) (off : Nat)
    (hpre : pre.length = 12)
    (hoff : 12 + (wireLabels ls).length + mid.length = off)
    (hls : ∀ l ∈ ls, l ≠ [] ∧ l.length ≤ 63 ∧ utf8Valid l = true)
    (hw : labelsWeight ls true ≤ MAX_DNS_NAME_LEN) :
    parse_name (pre ++ (wireLabels ls ++ (mid ++ (192 :: 12 :: suf)))) off =
      .ok (joinLabels ls, off + 2) := by
  have hwpos := wireLabels_length_pos ls
  have hPlen : (pre ++ (wireLabels ls ++ (mid ++ 192 :: 12 :: suf))).length =
      off + 2 + suf.length := by
    simp
    omega
  have hfsucc : parseNameFuel (pre ++ (wireLabels ls ++ (mid ++ 192 :: 12 :: suf))) =
      (parseNameFuel (pre ++ (wireLabels ls ++ (mid ++ 192 :: 12 :: suf))) - 1) + 1 := by
    simp [parseNameFuel]
    omega
  have hA : pre ++ (wireLabels ls ++ (mid ++ 192 :: 12 :: suf)) =
      (pre ++ (wireLabels ls ++ mid)) ++ 192 :: 12 :: suf := by simp
  have hAl : (pre ++ (wireLabels ls ++ mid)).length = off := by simp; omega
  have hd0 : (pre ++ (wireLabels ls ++ (mid ++ 192 :: 12 :: suf))).getD off 0 = 192 := by
    have h := getD_at (pre ++ (wireLabels ls ++ mid)) (192 :: 12 :: suf) off 0 hAl
    rw [hA]
    simpa using h
  have hd1 : (pre ++ (wireLabels ls ++ (mid ++ 192 :: 12 :: suf))).getD (off + 1) 0 = 12 := by
    have h := getD_at (pre ++ (wireLabels ls ++ mid)) (192 :: 12 :: suf) off 1 hAl
    rw [hA]
    simpa using h
  have h1 := length_lt_wireLabels ls
  have h2 : (wireLabels ls).length ≤
      (pre ++ (wireLabels ls ++ (mid ++ 192 :: 12 :: suf))).length := by
    simp
    omega
  have hfuel2 : ls.length <
      parseNameFuel (pre ++ (wireLabels ls ++ (mid ++ 192 :: 12 :: suf))) - 1 := by
    simp only [parseNameFuel] at *
    omega
  rw [parse_name, hfsucc,
    parseNameGo_pointer_step _ _ _ (by omega) hd0 (by omega) hd1 (by omega),
    parseNameGo_wire ls pre (mid ++ 192 :: 12 :: suf) 12 _ true (off + 2) (12 :: [])
      (0 + 1) 0 [] hpre hls (by simpa using hw) hfuel2]
  simp

/-! ### Header parsing at written fields -/

theorem parse_header_at (id flags qd an ns ar : Nat) (rest : List Nat)
    (hid : id < 65536) (hfl : flags < 65536) (hqd : qd < 65536) (han : an < 65536) :
    parse_header (write_u16 id ++ (write_u16 flags ++ (write_u16 qd ++ (write_u16 an ++
        (write_u16 ns ++ (write_u16 ar ++ rest)))))) =
      some { id := id, is_response := decide (flags &&& 0x8000 ≠ 0),
             rd := decide (flags &&& 0x0100 ≠ 0), cd := decide (flags &&& 0x0010 ≠ 0),
             qdcount := qd, ancount := an, rcode := Rcode.from_u8 (flags &&& 0x000F),
             offset := 12 } := by
  have hP : write_u16 id ++ (write_u16 flags ++ (write_u16 qd ++ (write_u16 an ++
      (write_u16 ns ++ (write_u16 ar ++ rest))))) =
      (id / 256 % 256) :: (id % 256) :: (flags / 256 % 256) :: (flags % 256) ::
      (qd / 256 % 256) :: (qd % 256) :: (an / 256 % 256) :: (an % 256) ::
      (ns / 256 % 256) :: (ns % 256) :: (ar / 256 % 256) :: (ar % 256) :: rest := by
    simp [write_u16]
  rw [hP]
  have hlen : ((id / 256 % 256) :: (id % 256) :: (flags / 256 % 256) :: (flags % 256) ::
      (qd / 256 % 256) :: (qd % 256) :: (an / 256 % 256) :: (an % 256) ::
      (ns / 256 % 256) :: (ns % 256) :: (ar / 256 % 256) :: (ar % 256) :: rest).length =
      12 + rest.length := by
    simp
    omega
  have r0 : read_u16 ((id / 256 % 256) :: (id % 256) :: (flags / 256 % 256) :: (flags % 256) ::
      (qd / 256 % 256) :: (qd % 256) :: (an / 256 % 256) :: (an % 256) ::
      (ns / 256 % 256) :: (ns % 256) :: (ar / 256 % 256) :: (ar % 256) :: rest) 0 =
      some id := by
    rw [read_u16, if_neg (by omega)]
    show some (256 * (id / 256 % 256) + id % 256) = some id
    exact congrArg some (by omega)
  have r2 : read_u16 ((id / 256 % 256) :: (id % 256) :: (flags / 256 % 256) :: (flags % 256) ::
      (qd / 256 % 256) :: (qd % 256) :: (an / 256 % 256) :: (an % 256) ::
      (ns / 256 % 256) :: (ns % 256) :: (ar / 256 % 256) :: (ar % 256) :: rest) 2 =
      some flags := by
    rw [read_u16, if_neg (by omega)]
    show some (256 * (flags / 256 % 256) + flags % 256) = some flags
    exact congrArg some (by omega)
  have r4 : read_u16 ((id / 256 % 256) :: (id % 256) :: (flags / 256 % 256) :: (flags % 256) ::
      (qd / 256 % 256) :: (qd % 256) :: (an / 256 % 256) :: (an % 256) ::
      (ns / 256 % 256) :: (ns % 256) :: (ar / 256 % 256) :: (ar % 256) :: rest) 4 =
      some qd := by
    rw [read_u16, if_neg (by omega)]
    show some (256 * (qd / 256 % 256) + qd % 256) = some qd
    exact congrArg some (by omega)
  have r6 : read_u16 ((id / 256 % 256) :: (id % 256) :: (flags / 256 % 256) :: (flags % 256) ::
      (qd / 256 % 256) :: (qd % 256) :: (an / 256 % 256) :: (an % 256) ::
      (ns / 256 % 256) :: (ns % 256) :: (ar / 256 % 256) :: (ar % 256) :: rest) 6 =
      some an := by
    rw [read_u16, if_neg (by omega)]
    show some (256 * (an / 256 % 256) + an % 256) = some an
    exact congrArg some (by omega)
  have r8 : read_u16 ((id / 256 % 256) :: (id % 256) :: (flags / 256 % 256) :: (flags % 256) ::
      (qd / 256 % 256) :: (qd % 256) :: (an / 256 % 256) :: (an % 256) ::
      (ns / 256 % 256) :: (ns % 256) :: (ar / 256 % 256) :: (ar % 256) :: rest) 8 =
      some (256 * (ns / 256 % 256) + ns % 256) := by
    rw [read_u16, if_neg (by omega)]
    rfl
  have r10 : read_u16 ((id / 256 % 256) :: (id % 256) :: (flags / 256 % 256) :: (flags % 256) ::
      (qd / 256 % 256) :: (qd % 256) :: (an / 256 % 256) :: (an % 256) ::
      (ns / 256 % 256) :: (ns % 256) :: (ar / 256 % 256) :: (ar % 256) :: rest) 10 =
      some (256 * (ar / 256 % 256) + ar % 256) := by
    rw [read_u16, if_neg (by omega)]
    rfl
  simp only [parse_header]
  rw [if_neg (by omega), r0, r2, r4, r6, r8, r10]
  simp

/-! ### TXT chunking and reassembly -/

theorem txtChunksGo_congr :
    ∀ (f1 : Nat) (l : List Nat) (f2 : Nat), l.length ≤ f1 → l.length ≤ f2 →
      txtChunksGo f1 l = txtChunksGo f2 l := by
  intro f1
  induction f1 with
  | zero =>
    intro l f2 h1 _
    have hl : l = [] := List.eq_nil_of_length_eq_zero (by omega)
    subst hl
    cases f2 <;> rfl
  | succ f ih =>
    intro l f2 h1 h2
    cases l with
    | nil => cases f2 <;> rfl
    | cons b rest =>
      obtain ⟨g, rfl⟩ : ∃ g, f2 = g + 1 := ⟨f2 - 1, by simp at h2; omega⟩
      simp only [txtChunksGo]
      congr 2
      apply ih
      · simp at h1 ⊢
        omega
      · simp at h2 ⊢
        omega

theorem txtChunksGo_length :
    ∀ (fuel : Nat) (p : List Nat), p.length ≤ fuel →
      (txtChunksGo fuel p).length = p.length + (p.length + 254) / 255 := by
  intro fuel
  induction fuel with
  | zero =>
    intro p h
    have hp : p = [] := List.eq_nil_of_length_eq_zero (by omega)
    subst hp
    rfl
  | succ f ih =>
    intro p h
    cases p with
    | nil => rfl
    | cons b rest =>
      simp only [txtChunksGo]
      have hdl : ((b :: rest).drop 255).length = rest.length + 1 - 255 := by
        simp
      have := ih ((b :: rest).drop 255) (by simp at h ⊢; omega)
      simp only [List.length_cons, List.length_append, List.length_take, this, hdl]
      simp
      omega

theorem txtChunks_length (p : List Nat) :
    (txtChunks p).length = p.length + (p.length + 254) / 255 :=
  txtChunksGo_length p.length p le_rfl

theorem txtChunks_cons (b : Nat) (rest : List Nat) :
    txtChunks (b :: rest) = ((b :: rest).take 255).length ::
      (((b :: rest).take 255) ++ txtChunks ((b :: rest).drop 255)) := by
  simp only [txtChunks, List.length_cons, txtChunksGo]
  congr 2
  apply txtChunksGo_congr
  · simp
  · simp

theorem readTxtGo_chunks :
    ∀ (fuel : Nat) (p pre suf acc : List Nat) (off : Nat), pre.length = off →
      (txtChunks p).length ≤ fuel →
      readTxtGo (pre ++ (txtChunks p ++ suf)) fuel off ((txtChunks p).length) acc =
        some (acc ++ p) := by
  intro fuel
  induction fuel with
  | zero =>
    intro p pre suf acc off _ hle
    have hl := txtChunks_length p
    have hp : p = [] := List.eq_nil_of_length_eq_zero (by omega)
    subst hp
    simp only [readTxtGo]
    simp [txtChunks, txtChunksGo]
  | succ f ih =>
    intro p pre suf acc off hoff hle
    cases p with
    | nil =>
      simp only [readTxtGo]
      simp [txtChunks, txtChunksGo]
    | cons b rest =>
      rw [txtChunks_cons] at hle ⊢
      simp only [readTxtGo]
      rw [if_neg (by simp)]
      have hd0 : (pre ++ ((((b :: rest).take 255).length ::
          (((b :: rest).take 255) ++ txtChunks ((b :: rest).drop 255))) ++ suf)).getD off 0 =
          ((b :: rest).take 255).length := by
        have h := getD_at pre ((((b :: rest).take 255).length ::
          (((b :: rest).take 255) ++ txtChunks ((b :: rest).drop 255))) ++ suf) off 0 hoff
        simpa using h
      rw [hd0]
      rw [if_neg (by simp; omega)]
      have hacc : ((pre ++ ((((b :: rest).take 255).length ::
          (((b :: rest).take 255) ++ txtChunks ((b :: rest).drop 255))) ++ suf)).drop
            (off + 1)).take ((b :: rest).take 255).length = (b :: rest).take 255 := by
        have hA : pre ++ ((((b :: rest).take 255).length ::
            (((b :: rest).take 255) ++ txtChunks ((b :: rest).drop 255))) ++ suf) =
            (pre ++ [((b :: rest).take 255).length]) ++
              ((b :: rest).take 255 ++ (txtChunks ((b :: rest).drop 255) ++ suf)) := by
          simp
        rw [hA, List.drop_left' (by simp [hoff]), List.take_left' rfl]
      rw [hacc]
      have hrem : (((b :: rest).take 255).length ::
          (((b :: rest).take 255) ++ txtChunks ((b :: rest).drop 255))).length - 1 -
          ((b :: rest).take 255).length = (txtChunks ((b :: rest).drop 255)).length := by
        simp
      rw [hrem]
      have hih := ih ((b :: rest).drop 255) (pre ++ ((b :: rest).take 255).length ::
        ((b :: rest).take 255)) suf (acc ++ (b :: rest).take 255)
        (off + 1 + ((b :: rest).take 255).length) (by simp [hoff]; omega)
        (by simp at hle ⊢; omega)
      have hP2 : (pre ++ ((b :: rest).take 255).length :: ((b :: rest).take 255)) ++
          (txtChunks ((b :: rest).drop 255) ++ suf) =
          pre ++ ((((b :: rest).take 255).length ::
            (((b :: rest).take 255) ++ txtChunks ((b :: rest).drop 255))) ++ suf) := by
        simp
      rw [hP2] at hih
      rw [hih]
      simp

/-! ### UTF-8 validity of trimmed and split names -/

theorem trimDots_cons (a : Nat) (t : List Nat) :
    trimDots (a :: t) =
      if trimDots t = [] then (if a = 46 then [] else [a]) else a :: trimDots t := by
  simp only [trimDots, List.reverse_cons, List.dropWhile_append]
  by_cases h : t.reverse.dropWhile (· = 46) = []
  · rw [h]
    simp only [List.isEmpty_nil, if_true, List.reverse_nil, if_pos rfl]
    by_cases ha : a = 46 <;> simp [List.dropWhile, ha]
  · have hie : (t.reverse.dropWhile (· = 46)).isEmpty = false := by
      simpa [List.isEmpty_iff] using h
    rw [hie, if_neg (by simp)]
    rw [if_neg (show ¬ ((t.reverse.dropWhile (· = 46)).reverse = []) from by simpa using h)]
    simp

theorem trimDots_cons_of_ne (a : Nat) (t : List Nat) (ha : a ≠ 46) :
    trimDots (a :: t) = if trimDots t = [] then [a] else a :: trimDots t := by
  rw [trimDots_cons]
  by_cases h : trimDots t = []
  · rw [if_pos h, if_pos h, if_neg ha]
  · rw [if_neg h, if_neg h]

theorem trimDots_ne_nil (a : Nat) (t : List Nat) (ha : a ≠ 46) :
    trimDots (a :: t) ≠ [] := by
  rw [trimDots_cons_of_ne a t ha]
  by_cases h : trimDots t = []
  · rw [if_pos h]; simp
  · rw [if_neg h]; simp

theorem trimDots_cons2 (b c1 : Nat) (r : List Nat) (hb : b ≠ 46) (hc1 : c1 ≠ 46) :
    trimDots (b :: c1 :: r) = b :: c1 :: trimDots r ∨
      trimDots (b :: c1 :: r) = [b, c1] := by
  rw [trimDots_cons_of_ne b (c1 :: r) hb, if_neg (trimDots_ne_nil c1 r hc1),
    trimDots_cons_of_ne c1 r hc1]
  by_cases h : trimDots r = []
  · right; rw [if_pos h]
  · left; rw [if_neg h]

theorem trimDots_cons3 (b c1 c2 : Nat) (r : List Nat) (hb : b ≠ 46) (hc1 : c1 ≠ 46)
    (hc2 : c2 ≠ 46) :
    trimDots (b :: c1 :: c2 :: r) = b :: c1 :: c2 :: trimDots r ∨
      trimDots (b :: c1 :: c2 :: r) = [b, c1, c2] := by
  rw [trimDots_cons_of_ne b (c1 :: c2 :: r) hb,
    if_neg (trimDots_ne_nil c1 (c2 :: r) hc1),
    trimDots_cons_of_ne c1 (c2 :: r) hc1,
    if_neg (trimDots_ne_nil c2 r hc2),
    trimDots_cons_of_ne c2 r hc2]
  by_cases h : trimDots r = []
  · right; rw [if_pos h]
  · left; rw [if_neg h]

theorem trimDots_cons4 (b c1 c2 c3 : Nat) (r : List Nat) (hb : b ≠ 46) (hc1 : c1 ≠ 46)
    (hc2 : c2 ≠ 46) (hc3 : c3 ≠ 46) :
    trimDots (b :: c1 :: c2 :: c3 :: r) = b :: c1 :: c2 :: c3 :: trimDots r ∨
      trimDots (b :: c1 :: c2 :: c3 :: r) = [b, c1, c2, c3] := by
  rw [trimDots_cons_of_ne b (c1 :: c2 :: c3 :: r) hb,
    if_neg (trimDots_ne_nil c1 (c2 :: c3 :: r) hc1),
    trimDots_cons_of_ne c1 (c2 :: c3 :: r) hc1,
    if_neg (trimDots_ne_nil c2 (c3 :: r) hc2),
    trimDots_cons_of_ne c2 (c3 :: r) hc2,
    if_neg (trimDots_ne_nil c3 r hc3),
    trimDots_cons_of_ne c3 r hc3]
  by_cases h : trimDots r = []
  · right; rw [if_pos h]
  · left; rw [if_neg h]

theorem utf8Cont_range (c : Nat) (h : utf8Cont c = true) : 128 ≤ c ∧ c ≤ 191 := by
  simpa [utf8Cont] using h

theorem utf8Valid_cons_eq (b : Nat) (t : List Nat) :
    utf8Valid (b :: t) =
      (if b ≤ 0x7F then utf8Valid t
       else if 0xC2 ≤ b ∧ b ≤ 0xDF then
         match t with
         | c1 :: r => utf8Cont c1 && utf8Valid r
         | [] => false
       else if b = 0xE0 then
         match t with
         | c1 :: c2 :: r =>
             (decide (0xA0 ≤ c1) && decide (c1 ≤ 0xBF)) && utf8Cont c2 && utf8Valid r
         | _ => false
       else if (0xE1 ≤ b ∧ b ≤ 0xEC) ∨ b = 0xEE ∨ b = 0xEF then
         match t with
         | c1 :: c2 :: r => utf8Cont c1 && utf8Cont c2 && utf8Valid r
         | _ => false
       else if b = 0xED then
         match t with
         | c1 :: c2 :: r =>
             (decide (0x80 ≤ c1) && decide (c1 ≤ 0x9F)) && utf8Cont c2 && utf8Valid r
         | _ => false
       else if b = 0xF0 then
         match t with
         | c1 :: c2 :: c3 :: r =>
             (decide (0x90 ≤ c1) && decide (c1 ≤ 0xBF)) && utf8Cont c2 && utf8Cont c3 &&
               utf8Valid r
         | _ => false
       else if 0xF1 ≤ b ∧ b ≤ 0xF3 then
         match t with
         | c1 :: c2 :: c3 :: r => utf8Cont c1 && utf8Cont c2 && utf8Cont c3 && utf8Valid r
         | _ => false
       else if b = 0xF4 then
         match t with
         | c1 :: c2 :: c3 :: r =>
             (decide (0x80 ≤ c1) && decide (c1 ≤ 0x8F)) && utf8Cont c2 && utf8Cont c3 &&
               utf8Valid r
         | _ => false
       else false) := by
  cases t with
  | nil => rfl
  | cons c1 t1 =>
    cases t1 with
    | nil => rfl
    | cons c2 t2 =>
      cases t2 with
      | nil => rfl
      | cons c3 t3 => rfl

theorem utf8Valid_cons_ascii (b : Nat) (t : List Nat) (hb : b ≤ 127) :
    utf8Valid (b :: t) = utf8Valid t := by
  rw [utf8Valid_cons_eq]
  rw [if_pos hb]

theorem utf8Valid_cons_two (b c1 : Nat) (r : List Nat) (hb : 194 ≤ b ∧ b ≤ 223) :
    utf8Valid (b :: c1 :: r) = (utf8Cont c1 && utf8Valid r) := by
  rw [utf8Valid_cons_eq]
  rw [if_neg (by omega), if_pos hb]

theorem utf8Valid_two_nil (b : Nat) (hb : 194 ≤ b ∧ b ≤ 223) :
    utf8Valid [b] = false := by
  rw [utf8Valid_cons_eq]
  rw [if_neg (by omega), if_pos hb]

theorem utf8Valid_cons_e0 (c1 c2 : Nat) (r : List Nat) :
    utf8Valid (224 :: c1 :: c2 :: r) =
      ((decide (160 ≤ c1) && decide (c1 ≤ 191)) && utf8Cont c2 && utf8Valid r) := by
  rw [utf8Valid_cons_eq]
  rw [if_neg (by decide), if_neg (by decide), if_pos rfl]

theorem utf8Valid_cons_three (b c1 c2 : Nat) (r : List Nat)
    (hb : 225 ≤ b ∧ b ≤ 236 ∨ b = 238 ∨ b = 239) :
    utf8Valid (b :: c1 :: c2 :: r) = (utf8Cont c1 && utf8Cont c2 && utf8Valid r) := by
  have h1 : ¬ b ≤ 127 := by rcases hb with ⟨h, h'⟩ | rfl | rfl <;> omega
  have h2 : ¬ (194 ≤ b ∧ b ≤ 223) := by rcases hb with ⟨h, h'⟩ | rfl | rfl <;> omega
  have h3 : ¬ b = 224 := by rcases hb with ⟨h, h'⟩ | rfl | rfl <;> omega
  rw [utf8Valid_cons_eq]
  rw [if_neg h1, if_neg h2, if_neg h3, if_pos hb]

theorem utf8Valid_cons_ed (c1 c2 : Nat) (r : List Nat) :
    utf8Valid (237 :: c1 :: c2 :: r) =
      ((decide (128 ≤ c1) && decide (c1 ≤ 159)) && utf8Cont c2 && utf8Valid r) := by
  rw [utf8Valid_cons_eq]
  rw [if_neg (by decide), if_neg (by decide), if_neg (by decide), if_neg (by decide),
    if_pos rfl]

theorem utf8Valid_cons_f0 (c1 c2 c3 : Nat) (r : List Nat) :
    utf8Valid (240 :: c1 :: c2 :: c3 :: r) =
      ((decide (144 ≤ c1) && decide (c1 ≤ 191)) && utf8Cont c2 && utf8Cont c3 &&
        utf8Valid r) := by
  rw [utf8Valid_cons_eq]
  rw [if_neg (by decide), if_neg (by decide), if_neg (by decide), if_neg (by decide),
    if_neg (by decide), if_pos rfl]

theorem utf8Valid_cons_f13 (b c1 c2 c3 : Nat) (r : List Nat) (hb : 241 ≤ b ∧ b ≤ 243) :
    utf8Valid (b :: c1 :: c2 :: c3 :: r) =
      (utf8Cont c1 && utf8Cont c2 && utf8Cont c3 && utf8Valid r) := by
  have h1 : ¬ b ≤ 127 := by omega
  have h2 : ¬ (194 ≤ b ∧ b ≤ 223) := by omega
  have h3 : ¬ b = 224 := by omega
  have h4 : ¬ (225 ≤ b ∧ b ≤ 236 ∨ b = 238 ∨ b = 239) := by omega
  have h5 : ¬ b = 237 := by omega
  have h6 : ¬ b = 240 := by omega
  rw [utf8Valid_cons_eq]
  rw [if_neg h1, if_neg h2, if_neg h3, if_neg h4, if_neg h5, if_neg h6, if_pos hb]

theorem utf8Valid_cons_f4 (c1 c2 c3 : Nat) (r : List Nat) :
    utf8Valid (244 :: c1 :: c2 :: c3 :: r) =
      ((decide (128 ≤ c1) && decide (c1 ≤ 143)) && utf8Cont c2 && utf8Cont c3 &&
        utf8Valid r) := by
  rw [utf8Valid_cons_eq]
  rw [if_neg (by decide), if_neg (by decide), if_neg (by decide), if_neg (by decide),
    if_neg (by decide), if_neg (by decide), if_neg (by decide), if_pos rfl]

theorem utf8Valid_bad_lead (b : Nat) (t : List Nat)
    (h1 : ¬ b ≤ 127) (h2 : ¬ (194 ≤ b ∧ b ≤ 223)) (h3 : ¬ b = 224)
    (h4 : ¬ (225 ≤ b ∧ b ≤ 236 ∨ b = 238 ∨ b = 239)) (h5 : ¬ b = 237) (h6 : ¬ b = 240)
    (h7 : ¬ (241 ≤ b ∧ b ≤ 243)) (h8 : ¬ b = 244) :
    utf8Valid (b :: t) = false := by
  rw [utf8Valid_cons_eq]
  rw [if_neg h1, if_neg h2, if_neg h3, if_neg h4, if_neg h5, if_neg h6, if_neg h7,
    if_neg h8]

theorem utf8Valid_trimDots_aux :
    ∀ (n : Nat), ∀ (s : List Nat), s.length ≤ n → utf8Valid s = true →
      utf8Valid (trimDots s) = true := by
  intro n
  induction n with
  | zero =>
    intro s hl h
    have hs : s = [] := List.eq_nil_of_length_eq_zero (by omega)
    subst hs
    exact h
  | succ n ih =>
    intro s hl h
    cases s with
    | nil => exact h
    | cons b rest =>
      simp only [List.length_cons] at hl
      by_cases hb : b ≤ 127
      · rw [utf8Valid_cons_ascii b rest hb] at h
        rw [trimDots_cons]
        by_cases ht : trimDots rest = []
        · rw [if_pos ht]
          by_cases hb46 : b = 46
          · rw [if_pos hb46]; rfl
          · rw [if_neg hb46, utf8Valid_cons_ascii b [] hb]; rfl
        · rw [if_neg ht, utf8Valid_cons_ascii b (trimDots rest) hb]
          exact ih rest (by omega) h
      · by_cases h2 : 194 ≤ b ∧ b ≤ 223
        · cases rest with
          | nil => rw [utf8Valid_two_nil b h2] at h; simp at h
          | cons c1 r =>
            rw [utf8Valid_cons_two b c1 r h2] at h
            simp only [Bool.and_eq_true] at h
            obtain ⟨hc1, hr⟩ := h
            obtain ⟨hc1a, hc1b⟩ := utf8Cont_range c1 hc1
            rcases trimDots_cons2 b c1 r (by omega) (by omega) with heq | heq
            · rw [heq, utf8Valid_cons_two b c1 (trimDots r) h2, hc1,
                ih r (by simp only [List.length_cons] at hl; omega) hr]
              rfl
            · rw [heq, utf8Valid_cons_two b c1 [] h2, hc1]
              rfl
        · by_cases h3 : b = 224
          · subst h3
            cases rest with
            | nil => exact absurd h (by decide)
            | cons c1 r1 =>
              cases r1 with
              | nil => rw [utf8Valid_cons_eq] at h; simp at h
              | cons c2 r =>
                rw [utf8Valid_cons_e0 c1 c2 r] at h
                simp only [Bool.and_eq_true, decide_eq_true_eq] at h
                obtain ⟨⟨⟨hc1a, hc1b⟩, hc2⟩, hr⟩ := h
                obtain ⟨hc2a, hc2b⟩ := utf8Cont_range c2 hc2
                rcases trimDots_cons3 224 c1 c2 r (by omega) (by omega) (by omega)
                  with heq | heq
                · rw [heq, utf8Valid_cons_e0 c1 c2 (trimDots r),
                    ih r (by simp only [List.length_cons] at hl; omega) hr]
                  simp [hc1a, hc1b, hc2]
                · rw [heq, utf8Valid_cons_e0 c1 c2 []]
                  simp [hc1a, hc1b, hc2]
                  rfl
          · by_cases h4 : 225 ≤ b ∧ b ≤ 236 ∨ b = 238 ∨ b = 239
            · cases rest with
              | nil =>
                rw [utf8Valid_cons_eq, if_neg hb, if_neg h2, if_neg h3, if_pos h4] at h
                simp at h
              | cons c1 r1 =>
                cases r1 with
                | nil =>
                  rw [utf8Valid_cons_eq, if_neg hb, if_neg h2, if_neg h3, if_pos h4] at h
                  simp at h
                | cons c2 r =>
                  rw [utf8Valid_cons_three b c1 c2 r h4] at h
                  simp only [Bool.and_eq_true] at h
                  obtain ⟨⟨hc1, hc2⟩, hr⟩ := h
                  obtain ⟨hc1a, hc1b⟩ := utf8Cont_range c1 hc1
                  obtain ⟨hc2a, hc2b⟩ := utf8Cont_range c2 hc2
                  have hbne : b ≠ 46 := by rcases h4 with ⟨x, y⟩ | rfl | rfl <;> omega
                  rcases trimDots_cons3 b c1 c2 r hbne (by omega) (by omega) with heq | heq
                  · rw [heq, utf8Valid_cons_three b c1 c2 (trimDots r) h4,
                      ih r (by simp only [List.length_cons] at hl; omega) hr]
                    simp [hc1, hc2]
                  · rw [heq, utf8Valid_cons_three b c1 c2 [] h4]
                    simp [hc1, hc2]
                    rfl
            · by_cases h5 : b = 237
              · subst h5
                cases rest with
                | nil => exact absurd h (by decide)
                | cons c1 r1 =>
                  cases r1 with
                  | nil => rw [utf8Valid_cons_eq] at h; simp at h
                  | cons c2 r =>
                    rw [utf8Valid_cons_ed c1 c2 r] at h
                    simp only [Bool.and_eq_true, decide_eq_true_eq] at h
                    obtain ⟨⟨⟨hc1a, hc1b⟩, hc2⟩, hr⟩ := h
                    obtain ⟨hc2a, hc2b⟩ := utf8Cont_range c2 hc2
                    rcases trimDots_cons3 237 c1 c2 r (by omega) (by omega) (by omega)
                      with heq | heq
                    · rw [heq, utf8Valid_cons_ed c1 c2 (trimDots r),
                        ih r (by simp only [List.length_cons] at hl; omega) hr]
                      simp [hc1a, hc1b, hc2]
                    · rw [heq, utf8Valid_cons_ed c1 c2 []]
                      simp [hc1a, hc1b, hc2]
                      rfl
              · by_cases h6 : b = 240
                · subst h6
                  cases rest with
                  | nil => exact absurd h (by decide)
                  | cons c1 r1 =>
                    cases r1 with
                    | nil => rw [utf8Valid_cons_eq] at h; simp at h
                    | cons c2 r2 =>
                      cases r2 with
                      | nil => rw [utf8Valid_cons_eq] at h; simp at h
                      | cons c3 r =>
                        rw [utf8Valid_cons_f0 c1 c2 c3 r] at h
                        simp only [Bool.and_eq_true, decide_eq_true_eq] at h
                        obtain ⟨⟨⟨⟨hc1a, hc1b⟩, hc2⟩, hc3⟩, hr⟩ := h
                        obtain ⟨hc2a, hc2b⟩ := utf8Cont_range c2 hc2
                        obtain ⟨hc3a, hc3b⟩ := utf8Cont_range c3 hc3
                        rcases trimDots_cons4 240 c1 c2 c3 r (by omega) (by omega)
                          (by omega) (by omega) with heq | heq
                        · rw [heq, utf8Valid_cons_f0 c1 c2 c3 (trimDots r),
                            ih r (by simp only [List.length_cons] at hl; omega) hr]
                          simp [hc1a, hc1b, hc2, hc3]
                        · rw [heq, utf8Valid_cons_f0 c1 c2 c3 []]
                          simp [hc1a, hc1b, hc2, hc3]
                          rfl
                · by_cases h7 : 241 ≤ b ∧ b ≤ 243
                  · cases rest with
                    | nil =>
                      rw [utf8Valid_cons_eq, if_neg hb, if_neg h2, if_neg h3, if_neg h4,
                        if_neg h5, if_neg h6, if_pos h7] at h
                      simp at h
                    | cons c1 r1 =>
                      cases r1 with
                      | nil =>
                        rw [utf8Valid_cons_eq, if_neg hb, if_neg h2, if_neg h3, if_neg h4,
                          if_neg h5, if_neg h6, if_pos h7] at h
                        simp at h
                      | cons c2 r2 =>
                        cases r2 with
                        | nil =>
                          rw [utf8Valid_cons_eq, if_neg hb, if_neg h2, if_neg h3,
                            if_neg h4, if_neg h5, if_neg h6, if_pos h7] at h
                          simp at h
                        | cons c3 r =>
                          rw [utf8Valid_cons_f13 b c1 c2 c3 r h7] at h
                          simp only [Bool.and_eq_true] at h
                          obtain ⟨⟨⟨hc1, hc2⟩, hc3⟩, hr⟩ := h
                          obtain ⟨hc1a, hc1b⟩ := utf8Cont_range c1 hc1
                          obtain ⟨hc2a, hc2b⟩ := utf8Cont_range c2 hc2
                          obtain ⟨hc3a, hc3b⟩ := utf8Cont_range c3 hc3
                          rcases trimDots_cons4 b c1 c2 c3 r (by omega) (by omega)
                            (by omega) (by omega) with heq | heq
                          · rw [heq, utf8Valid_cons_f13 b c1 c2 c3 (trimDots r) h7,
                              ih r (by simp only [List.length_cons] at hl; omega) hr]
                            simp [hc1, hc2, hc3]
                          · rw [heq, utf8Valid_cons_f13 b c1 c2 c3 [] h7]
                            simp [hc1, hc2, hc3]
                            rfl
                  · by_cases h8 : b = 244
                    · subst h8
                      cases rest with
                      | nil => exact absurd h (by decide)
                      | cons c1 r1 =>
                        cases r1 with
                        | nil => rw [utf8Valid_cons_eq] at h; simp at h
                        | cons c2 r2 =>
                          cases r2 with
                          | nil => rw [utf8Valid_cons_eq] at h; simp at h
                          | cons c3 r =>
                            rw [utf8Valid_cons_f4 c1 c2 c3 r] at h
                            simp only [Bool.and_eq_true, decide_eq_true_eq] at h
                            obtain ⟨⟨⟨⟨hc1a, hc1b⟩, hc2⟩, hc3⟩, hr⟩ := h
                            obtain ⟨hc2a, hc2b⟩ := utf8Cont_range c2 hc2
                            obtain ⟨hc3a, hc3b⟩ := utf8Cont_range c3 hc3
                            rcases trimDots_cons4 244 c1 c2 c3 r (by omega) (by omega)
                              (by omega) (by omega) with heq | heq
                            · rw [heq, utf8Valid_cons_f4 c1 c2 c3 (trimDots r),
                                ih r (by simp only [List.length_cons] at hl; omega) hr]
                              simp [hc1a, hc1b, hc2, hc3]
                            · rw [heq, utf8Valid_cons_f4 c1 c2 c3 []]
                              simp [hc1a, hc1b, hc2, hc3]
                              rfl
                    · rw [utf8Valid_bad_lead b rest hb h2 h3 h4 h5 h6 h7 h8] at h
                      simp at h

theorem utf8Valid_trimDots (s : List Nat) (h : utf8Valid s = true) :
    utf8Valid (trimDots s) = true :=
  utf8Valid_trimDots_aux s.length s le_rfl h

theorem splitOn_cons_46 (t : List Nat) : (46 :: t).splitOn 46 = [] :: t.splitOn 46 := by
  simp [List.splitOn, List.splitOnP_cons]

theorem splitOn_cons_ne (c : Nat) (t : List Nat) (hc : c ≠ 46) :
    (c :: t).splitOn 46 = (t.splitOn 46).modifyHead (c :: ·) := by
  simp [List.splitOn, List.splitOnP_cons, hc]

theorem splitOn_destruct (t : List Nat) : ∃ hh tl, t.splitOn 46 = hh :: tl :=
  List.exists_cons_of_ne_nil (List.splitOnP_ne_nil _ t)

theorem utf8Valid_splitOn_aux :
    ∀ (n : Nat), ∀ (s : List Nat), s.length ≤ n → utf8Valid s = true →
      ∀ l ∈ s.splitOn 46, utf8Valid l = true := by
  intro n
  induction n with
  | zero =>
    intro s hl h l hm
    have hs : s = [] := List.eq_nil_of_length_eq_zero (by omega)
    subst hs
    simp at hm
    subst hm
    rfl
  | succ n ih =>
    intro s hl h l hm
    cases s with
    | nil =>
      simp at hm
      subst hm
      rfl
    | cons b rest =>
      simp only [List.length_cons] at hl
      by_cases hb : b ≤ 127
      · rw [utf8Valid_cons_ascii b rest hb] at h
        by_cases hb46 : b = 46
        · subst hb46
          rw [splitOn_cons_46] at hm
          rcases List.mem_cons.mp hm with rfl | hm
          · rfl
          · exact ih rest (by omega) h l hm
        · obtain ⟨hh, tl, heq⟩ := splitOn_destruct rest
          rw [splitOn_cons_ne b rest hb46, heq, List.modifyHead] at hm
          rcases List.mem_cons.mp hm with rfl | hm
          · rw [utf8Valid_cons_ascii b hh hb]
            exact ih rest (by omega) h hh (by rw [heq]; exact List.mem_cons_self _ _)
          · exact ih rest (by omega) h l (by rw [heq]; exact List.mem_cons_of_mem _ hm)
      · by_cases h2 : 194 ≤ b ∧ b ≤ 223
        · cases rest with
          | nil => rw [utf8Valid_two_nil b h2] at h; simp at h
          | cons c1 r =>
            rw [utf8Valid_cons_two b c1 r h2] at h
            simp only [Bool.and_eq_true] at h
            obtain ⟨hc1, hr⟩ := h
            obtain ⟨hc1a, hc1b⟩ := utf8Cont_range c1 hc1
            simp only [List.length_cons] at hl
            obtain ⟨hh, tl, heq⟩ := splitOn_destruct r
            rw [splitOn_cons_ne b _ (by omega), splitOn_cons_ne c1 r (by omega), heq,
              List.modifyHead, List.modifyHead] at hm
            rcases List.mem_cons.mp hm with rfl | hm
            · rw [utf8Valid_cons_two b c1 hh h2, hc1,
                ih r (by omega) hr hh (by rw [heq]; exact List.mem_cons_self _ _)]
              rfl
            · exact ih r (by omega) hr l (by rw [heq]; exact List.mem_cons_of_mem _ hm)
        · by_cases h3 : b = 224
          · subst h3
            cases rest with
            | nil => exact absurd h (by decide)
            | cons c1 r1 =>
              cases r1 with
              | nil => rw [utf8Valid_cons_eq] at h; simp at h
              | cons c2 r =>
                rw [utf8Valid_cons_e0 c1 c2 r] at h
                simp only [Bool.and_eq_true, decide_eq_true_eq] at h
                obtain ⟨⟨⟨hc1a, hc1b⟩, hc2⟩, hr⟩ := h
                obtain ⟨hc2a, hc2b⟩ := utf8Cont_range c2 hc2
                simp only [List.length_cons] at hl
                obtain ⟨hh, tl, heq⟩ := splitOn_destruct r
                rw [splitOn_cons_ne 224 _ (by omega), splitOn_cons_ne c1 _ (by omega),
                  splitOn_cons_ne c2 r (by omega), heq, List.modifyHead, List.modifyHead,
                  List.modifyHead] at hm
                rcases List.mem_cons.mp hm with rfl | hm
                · rw [utf8Valid_cons_e0 c1 c2 hh,
                    ih r (by omega) hr hh (by rw [heq]; exact List.mem_cons_self _ _)]
                  simp [hc1a, hc1b, hc2]
                · exact ih r (by omega) hr l
                    (by rw [heq]; exact List.mem_cons_of_mem _ hm)
          · by_cases h4 : 225 ≤ b ∧ b ≤ 236 ∨ b = 238 ∨ b = 239
            · cases rest with
              | nil =>
                rw [utf8Valid_cons_eq, if_neg hb, if_neg h2, if_neg h3, if_pos h4] at h
                simp at h
              | cons c1 r1 =>
                cases r1 with
                | nil =>
                  rw [utf8Valid_cons_eq, if_neg hb, if_neg h2, if_neg h3, if_pos h4] at h
                  simp at h
                | cons c2 r =>
                  rw [utf8Valid_cons_three b c1 c2 r h4] at h
                  simp only [Bool.and_eq_true] at h
                  obtain ⟨⟨hc1, hc2⟩, hr⟩ := h
                  obtain ⟨hc1a, hc1b⟩ := utf8Cont_range c1 hc1
                  obtain ⟨hc2a, hc2b⟩ := utf8Cont_range c2 hc2
                  have hbne : b ≠ 46 := by rcases h4 with ⟨x, y⟩ | rfl | rfl <;> omega
                  simp only [List.length_cons] at hl
                  obtain ⟨hh, tl, heq⟩ := splitOn_destruct r
                  rw [splitOn_cons_ne b _ hbne, splitOn_cons_ne c1 _ (by omega),
                    splitOn_cons_ne c2 r (by omega), heq, List.modifyHead,
                    List.modifyHead, List.modifyHead] at hm
                  rcases List.mem_cons.mp hm with rfl | hm
                  · rw [utf8Valid_cons_three b c1 c2 hh h4,
                      ih r (by omega) hr hh (by rw [heq]; exact List.mem_cons_self _ _)]
                    simp [hc1, hc2]
                  · exact ih r (by omega) hr l
                      (by rw [heq]; exact List.mem_cons_of_mem _ hm)
            · by_cases h5 : b = 237
              · subst h5
                cases rest with
                | nil => exact absurd h (by decide)
                | cons c1 r1 =>
                  cases r1 with
                  | nil => rw [utf8Valid_cons_eq] at h; simp at h
                  | cons c2 r =>
                    rw [utf8Valid_cons_ed c1 c2 r] at h
                    simp only [Bool.and_eq_true, decide_eq_true_eq] at h
                    obtain ⟨⟨⟨hc1a, hc1b⟩, hc2⟩, hr⟩ := h
                    obtain ⟨hc2a, hc2b⟩ := utf8Cont_range c2 hc2
                    simp only [List.length_cons] at hl
                    obtain ⟨hh, tl, heq⟩ := splitOn_destruct r
                    rw [splitOn_cons_ne 237 _ (by omega), splitOn_cons_ne c1 _ (by omega),
                      splitOn_cons_ne c2 r (by omega), heq, List.modifyHead,
                      List.modifyHead, List.modifyHead] at hm
                    rcases List.mem_cons.mp hm with rfl | hm
                    · rw [utf8Valid_cons_ed c1 c2 hh,
                        ih r (by omega) hr hh (by rw [heq]; exact List.mem_cons_self _ _)]
                      simp [hc1a, hc1b, hc2]
                    · exact ih r (by omega) hr l
                        (by rw [heq]; exact List.mem_cons_of_mem _ hm)
              · by_cases h6 : b = 240
                · subst h6
                  cases rest with
                  | nil => exact absurd h (by decide)
                  | cons c1 r1 =>
                    cases r1 with
                    | nil => rw [utf8Valid_cons_eq] at h; simp at h
                    | cons c2 r2 =>
                      cases r2 with
                      | nil => rw [utf8Valid_cons_eq] at h; simp at h
                      | cons c3 r =>
                        rw [utf8Valid_cons_f0 c1 c2 c3 r] at h
                        simp only [Bool.and_eq_true, decide_eq_true_eq] at h
                        obtain ⟨⟨⟨⟨hc1a, hc1b⟩, hc2⟩, hc3⟩, hr⟩ := h
                        obtain ⟨hc2a, hc2b⟩ := utf8Cont_range c2 hc2
                        obtain ⟨hc3a, hc3b⟩ := utf8Cont_range c3 hc3
                        simp only [List.length_cons] at hl
                        obtain ⟨hh, tl, heq⟩ := splitOn_destruct r
                        rw [splitOn_cons_ne 240 _ (by omega),
                          splitOn_cons_ne c1 _ (by omega), splitOn_cons_ne c2 _ (by omega),
                          splitOn_cons_ne c3 r (by omega), heq, List.modifyHead,
                          List.modifyHead, List.modifyHead, List.modifyHead] at hm
                        rcases List.mem_cons.mp hm with rfl | hm
                        · rw [utf8Valid_cons_f0 c1 c2 c3 hh,
                            ih r (by omega) hr hh
                              (by rw [heq]; exact List.mem_cons_self _ _)]
                          simp [hc1a, hc1b, hc2, hc3]
                        · exact ih r (by omega) hr l
                            (by rw [heq]; exact List.mem_cons_of_mem _ hm)
                · by_cases h7 : 241 ≤ b ∧ b ≤ 243
                  · cases rest with
                    | nil =>
                      rw [utf8Valid_cons_eq, if_neg hb, if_neg h2, if_neg h3, if_neg h4,
                        if_neg h5, if_neg h6, if_pos h7] at h
                      simp at h
                    | cons c1 r1 =>
                      cases r1 with
                      | nil =>
                        rw [utf8Valid_cons_eq, if_neg hb, if_neg h2, if_neg h3, if_neg h4,
                          if_neg h5, if_neg h6, if_pos h7] at h
                        simp at h
                      | cons c2 r2 =>
                        cases r2 with
                        | nil =>
                          rw [utf8Valid_cons_eq, if_neg hb, if_neg h2, if_neg h3,
                            if_neg h4, if_neg h5, if_neg h6, if_pos h7] at h
                          simp at h
                        | cons c3 r =>
                          rw [utf8Valid_cons_f13 b c1 c2 c3 r h7] at h
                          simp only [Bool.and_eq_true] at h
                          obtain ⟨⟨⟨hc1, hc2⟩, hc3⟩, hr⟩ := h
                          obtain ⟨hc1a, hc1b⟩ := utf8Cont_range c1 hc1
                          obtain ⟨hc2a, hc2b⟩ := utf8Cont_range c2 hc2
                          obtain ⟨hc3a, hc3b⟩ := utf8Cont_range c3 hc3
                          simp only [List.length_cons] at hl
                          obtain ⟨hh, tl, heq⟩ := splitOn_destruct r
                          rw [splitOn_cons_ne b _ (by omega),
                            splitOn_cons_ne c1 _ (by omega),
                            splitOn_cons_ne c2 _ (by omega),
                            splitOn_cons_ne c3 r (by omega), heq, List.modifyHead,
                            List.modifyHead, List.modifyHead, List.modifyHead] at hm
                          rcases List.mem_cons.mp hm with rfl | hm
                          · rw [utf8Valid_cons_f13 b c1 c2 c3 hh h7,
                              ih r (by omega) hr hh
                                (by rw [heq]; exact List.mem_cons_self _ _)]
                            simp [hc1, hc2, hc3]
                          · exact ih r (by omega) hr l
                              (by rw [heq]; exact List.mem_cons_of_mem _ hm)
                  · by_cases h8 : b = 244
                    · subst h8
                      cases rest with
                      | nil => exact absurd h (by decide)
                      | cons c1 r1 =>
                        cases r1 with
                        | nil => rw [utf8Valid_cons_eq] at h; simp at h
                        | cons c2 r2 =>
                          cases r2 with
                          | nil => rw [utf8Valid_cons_eq] at h; simp at h
                          | cons c3 r =>
                            rw [utf8Valid_cons_f4 c1 c2 c3 r] at h
                            simp only [Bool.and_eq_true, decide_eq_true_eq] at h
                            obtain ⟨⟨⟨⟨hc1a, hc1b⟩, hc2⟩, hc3⟩, hr⟩ := h
                            obtain ⟨hc2a, hc2b⟩ := utf8Cont_range c2 hc2
                            obtain ⟨hc3a, hc3b⟩ := utf8Cont_range c3 hc3
                            simp only [List.length_cons] at hl
                            obtain ⟨hh, tl, heq⟩ := splitOn_destruct r
                            rw [splitOn_cons_ne 244 _ (by omega),
                              splitOn_cons_ne c1 _ (by omega),
                              splitOn_cons_ne c2 _ (by omega),
                              splitOn_cons_ne c3 r (by omega), heq, List.modifyHead,
                              List.modifyHead, List.modifyHead, List.modifyHead] at hm
                            rcases List.mem_cons.mp hm with rfl | hm
                            · rw [utf8Valid_cons_f4 c1 c2 c3 hh,
                                ih r (by omega) hr hh
                                  (by rw [heq]; exact List.mem_cons_self _ _)]
                              simp [hc1a, hc1b, hc2, hc3]
                            · exact ih r (by omega) hr l
                                (by rw [heq]; exact List.mem_cons_of_mem _ hm)
                    · rw [utf8Valid_bad_lead b rest hb h2 h3 h4 h5 h6 h7 h8] at h
                      simp at h

theorem utf8Valid_splitOn (s : List Nat) (h : utf8Valid s = true) :
    ∀ l ∈ s.splitOn 46, utf8Valid l = true :=
  utf8Valid_splitOn_aux s.length s le_rfl h

/-! ### Shape of a successful `encode_response` -/

/-- The DNS flags word built by `encode_response` for `Rcode::Ok` (the
`rcode.to_u8()` contribution is 0). -/
def respFlags (rd cd : Bool) : Nat :=
  0x8000 ||| 0x0400 ||| (if rd then 0x0100 else 0) ||| (if cd then 0x0010 else 0)

theorem respFlags_lt (rd cd : Bool) : respFlags rd cd < 65536 := by
  cases rd <;> cases cd <;> decide

theorem respFlags_qr (rd cd : Bool) :
    decide (respFlags rd cd &&& 0x8000 ≠ 0) = true := by
  cases rd <;> cases cd <;> decide

theorem respFlags_rcode (rd cd : Bool) :
    Rcode.from_u8 (respFlags rd cd &&& 0x000F) = some Rcode.Ok := by
  cases rd <;> cases cd <;> decide

theorem encode_response_ok_shape (id : Nat) (rd cd : Bool) (q : Question) (p : List Nat)
    (out1 : List Nat) (hp : p ≠ [])
    (hok : encode_response ⟨id, rd, cd, q, some p, none⟩ = .ok out1) :
    ∃ ls, (∀ l ∈ ls, l ≠ [] ∧ l.length ≤ 63) ∧
      labelsWeight ls true ≤ MAX_DNS_NAME_LEN ∧
      (ls = [] ∨ ls = (trimDots q.name).splitOn 46) ∧
      p.length + (p.length + 254) / 255 ≤ 65535 ∧
      out1 = write_u16 id ++ (write_u16 (respFlags rd cd) ++ (write_u16 1 ++ (write_u16 1 ++
        (write_u16 0 ++ (write_u16 1 ++ (wireLabels ls ++ (write_u16 q.qtype ++
        (write_u16 q.qclass ++ (192 :: 12 :: (write_u16 q.qtype ++ (write_u16 q.qclass ++
        (write_u32 60 ++ (write_u16 (p.length + (p.length + 254) / 255) ++
        (txtChunks p ++ ([0] ++ (write_u16 RR_OPT ++ (write_u16 EDNS_UDP_PAYLOAD ++
        (write_u32 0 ++ write_u16 0)))))))))))))))))) := by
  have hplen : 0 < p.length := List.length_pos.mpr hp
  simp only [encode_response, Option.map_some', Option.getD_some, Option.getD_none] at hok
  have e1 : (if 0 < p.length then Rcode.Ok else Rcode.NameError) = Rcode.Ok := if_pos hplen
  simp only [e1] at hok
  simp only [Rcode.to_u8, Nat.or_zero] at hok
  have e2 : (if 0 < p.length ∧ True then (1 : Nat) else 0) = 1 :=
    if_pos ⟨hplen, trivial⟩
  simp only [e2] at hok
  simp only [if_true] at hok
  split at hok
  · exact absurd hok (by simp)
  · rename_i outN hnm
    by_cases hbig : 65535 < p.length + (p.length + 254) / 255
    · rw [if_pos hbig] at hok
      exact absurd hok (by simp)
    · rw [if_neg hbig] at hok
      obtain ⟨ls, houtN, hmem, hw, hcase⟩ := encode_name_ok_shape _ _ _ hnm
      refine ⟨ls, hmem, hw, hcase, by omega, ?_⟩
      have h1 := (Except.ok.injEq _ _).mp hok
      rw [← h1, houtN]
      simp only [encode_opt_record, respFlags]
      simp [List.append_assoc]


theorem skipQuestions_one (packet : List Nat) (off offq : Nat) (nm : List Nat)
    (h1 : parse_name packet off = .ok (nm, offq))
    (h2 : ¬ (packet.length < offq + 4)) :
    skipQuestions packet 1 off = some (offq + 4) := by
  rw [show (1 : Nat) = 0 + 1 from rfl]
  simp only [skipQuestions]
  rw [h1]
  dsimp only
  rw [if_neg h2]


/-- C3: for every non-empty payload whose TXT RDATA fits in 65535 octets and
every encodable TXT question (u16 id/qclass, UTF-8 name), decoding the
encoded response returns exactly the original payload; `encode_response`
errors when the RDATA length would exceed 65535; and `decode_response`
returns no payload on QR=0, missing or non-zero RCODE, ANCOUNT ≠ 1, a
non-TXT answer, or an empty reassembled payload. -/
theorem encode_decode_response_spec :
    (∀ (id : Nat) (rd cd : Bool) (q : Question) (p : List Nat) (out1 : List Nat),
      id < 65536 → q.qtype = RR_TXT → q.qclass < 65536 →
      utf8Valid q.name = true → p ≠ [] →
      encode_response ⟨id, rd, cd, q, some p, none⟩ = .ok out1 →
      decode_response out1 = some p) ∧
    (∀ (id : Nat) (rd cd : Bool) (q : Question) (p : List Nat),
      65535 < p.length + (p.length + 254) / 255 →
      ∃ msg, encode_response ⟨id, rd, cd, q, some p, none⟩ = .error msg) ∧
    (∀ (packet : List Nat) (h : Header), parse_header packet = some h →
      (h.is_response = false → decode_response packet = none) ∧
      (h.rcode = none → decode_response packet = none) ∧
      (∀ rc, h.rcode = some rc → rc ≠ Rcode.Ok → decode_response packet = none) ∧
      (h.ancount ≠ 1 → decode_response packet = none)) ∧
    (∀ (packet : List Nat) (h : Header) (off qtype rdlen rdOff : Nat),
      parse_header packet = some h →
      skipQuestions packet h.qdcount h.offset = some off →
      parseAnswerMeta packet off = some (qtype, rdlen, rdOff) →
      (qtype ≠ RR_TXT → decode_response packet = none) ∧
      (readTxtRdata packet rdOff rdlen [] = some [] →
        decode_response packet = none)) := by
  refine ⟨?_, ?_, ?_, ?_⟩
  · intro id rd cd q p out1 hid hqt hqc hutf hp henc
    obtain ⟨ls, hmem, hw, hcase, hrdata, hout⟩ :=
      encode_response_ok_shape id rd cd q p out1 hp henc
    have hls : ∀ l ∈ ls, l ≠ [] ∧ l.length ≤ 63 ∧ utf8Valid l = true := by
      intro l hl
      obtain ⟨hne, h63⟩ := hmem l hl
      refine ⟨hne, h63, ?_⟩
      rcases hcase with rfl | hsp
      · simp at hl
      · rw [hsp] at hl
        exact utf8Valid_splitOn (trimDots q.name) (utf8Valid_trimDots q.name hutf) l hl
    have hqt16 : q.qtype < 65536 := by rw [hqt]; decide
    have hplen : 0 < p.length := List.length_pos.mpr hp
    have hT := txtChunks_length p
    have hLw := wireLabels_length_pos ls
    subst hout
    have hPlen : (write_u16 id ++ (write_u16 (respFlags rd cd) ++ (write_u16 1 ++ (write_u16 1 ++ (write_u16 0 ++ (write_u16 1 ++ (wireLabels ls ++ (write_u16 q.qtype ++ (write_u16 q.qclass ++ (192 :: 12 :: (write_u16 q.qtype ++ (write_u16 q.qclass ++ (write_u32 60 ++ (write_u16 (p.length + (p.length + 254) / 255) ++ (txtChunks p ++ ([0] ++ (write_u16 RR_OPT ++ (write_u16 EDNS_UDP_PAYLOAD ++ (write_u32 0 ++ (write_u16 0)))))))))))))))))))).length =
        39 + (wireLabels ls).length + (txtChunks p).length := by
      simp [write_u16, write_u32]
      omega
    have hph := parse_header_at id (respFlags rd cd) 1 1 0 1
      (wireLabels ls ++ (write_u16 q.qtype ++ (write_u16 q.qclass ++ (192 :: 12 :: (write_u16 q.qtype ++ (write_u16 q.qclass ++ (write_u32 60 ++ (write_u16 (p.length + (p.length + 254) / 255) ++ (txtChunks p ++ ([0] ++ (write_u16 RR_OPT ++ (write_u16 EDNS_UDP_PAYLOAD ++ (write_u32 0 ++ (write_u16 0))))))))))))))
      hid (respFlags_lt rd cd) (by omega) (by omega)
    have hsplitQ : write_u16 id ++ (write_u16 (respFlags rd cd) ++ (write_u16 1 ++ (write_u16 1 ++ (write_u16 0 ++ (write_u16 1 ++ (wireLabels ls ++ (write_u16 q.qtype ++ (write_u16 q.qclass ++ (192 :: 12 :: (write_u16 q.qtype ++ (write_u16 q.qclass ++ (write_u32 60 ++ (write_u16 (p.length + (p.length + 254) / 255) ++ (txtChunks p ++ ([0] ++ (write_u16 RR_OPT ++ (write_u16 EDNS_UDP_PAYLOAD ++ (write_u32 0 ++ (write_u16 0))))))))))))))))))) =
        (write_u16 id ++ (write_u16 (respFlags rd cd) ++ (write_u16 1 ++ (write_u16 1 ++ (write_u16 0 ++ (write_u16 1)))))) ++ (wireLabels ls ++ (write_u16 q.qtype ++ (write_u16 q.qclass ++ (192 :: 12 :: (write_u16 q.qtype ++ (write_u16 q.qclass ++ (write_u32 60 ++ (write_u16 (p.length + (p.length + 254) / 255) ++ (txtChunks p ++ ([0] ++ (write_u16 RR_OPT ++ (write_u16 EDNS_UDP_PAYLOAD ++ (write_u32 0 ++ (write_u16 0)))))))))))))) := by simp
    have hpn1 : parse_name (write_u16 id ++ (write_u16 (respFlags rd cd) ++ (write_u16 1 ++ (write_u16 1 ++ (write_u16 0 ++ (write_u16 1 ++ (wireLabels ls ++ (write_u16 q.qtype ++ (write_u16 q.qclass ++ (192 :: 12 :: (write_u16 q.qtype ++ (write_u16 q.qclass ++ (write_u32 60 ++ (write_u16 (p.length + (p.length + 254) / 255) ++ (txtChunks p ++ ([0] ++ (write_u16 RR_OPT ++ (write_u16 EDNS_UDP_PAYLOAD ++ (write_u32 0 ++ (write_u16 0)))))))))))))))))))) 12 =
        .ok (joinLabels ls, 12 + (wireLabels ls).length) := by
      rw [hsplitQ]
      exact parse_name_at_wire _ _ ls 12 (by simp [write_u16, write_u32] <;> omega) hls hw
    have hskip : skipQuestions (write_u16 id ++ (write_u16 (respFlags rd cd) ++ (write_u16 1 ++ (write_u16 1 ++ (write_u16 0 ++ (write_u16 1 ++ (wireLabels ls ++ (write_u16 q.qtype ++ (write_u16 q.qclass ++ (192 :: 12 :: (write_u16 q.qtype ++ (write_u16 q.qclass ++ (write_u32 60 ++ (write_u16 (p.length + (p.length + 254) / 255) ++ (txtChunks p ++ ([0] ++ (write_u16 RR_OPT ++ (write_u16 EDNS_UDP_PAYLOAD ++ (write_u32 0 ++ (write_u16 0)))))))))))))))))))) 1 12 =
        some (12 + (wireLabels ls).length + 4) := by
      exact skipQuestions_one _ 12 (12 + (wireLabels ls).length) (joinLabels ls) hpn1
        (by omega)
    have hsplitA : write_u16 id ++ (write_u16 (respFlags rd cd) ++ (write_u16 1 ++ (write_u16 1 ++ (write_u16 0 ++ (write_u16 1 ++ (wireLabels ls ++ (write_u16 q.qtype ++ (write_u16 q.qclass ++ (192 :: 12 :: (write_u16 q.qtype ++ (write_u16 q.qclass ++ (write_u32 60 ++ (write_u16 (p.length + (p.length + 254) / 255) ++ (txtChunks p ++ ([0] ++ (write_u16 RR_OPT ++ (write_u16 EDNS_UDP_PAYLOAD ++ (write_u32 0 ++ (write_u16 0))))))))))))))))))) =
        (write_u16 id ++ (write_u16 (respFlags rd cd) ++ (write_u16 1 ++ (write_u16 1 ++ (write_u16 0 ++ (write_u16 1)))))) ++ (wireLabels ls ++ ((write_u16 q.qtype ++ write_u16 q.qclass) ++ (192 :: 12 :: (write_u16 q.qtype ++ (write_u16 q.qclass ++ (write_u32 60 ++ (write_u16 (p.length + (p.length + 254) / 255) ++ (txtChunks p ++ ([0] ++ (write_u16 RR_OPT ++ (write_u16 EDNS_UDP_PAYLOAD ++ (write_u32 0 ++ (write_u16 0))))))))))))) := by simp
    have hpn2 : parse_name (write_u16 id ++ (write_u16 (respFlags rd cd) ++ (write_u16 1 ++ (write_u16 1 ++ (write_u16 0 ++ (write_u16 1 ++ (wireLabels ls ++ (write_u16 q.qtype ++ (write_u16 q.qclass ++ (192 :: 12 :: (write_u16 q.qtype ++ (write_u16 q.qclass ++ (write_u32 60 ++ (write_u16 (p.length + (p.length + 254) / 255) ++ (txtChunks p ++ ([0] ++ (write_u16 RR_OPT ++ (write_u16 EDNS_UDP_PAYLOAD ++ (write_u32 0 ++ (write_u16 0)))))))))))))))))))) (12 + (wireLabels ls).length + 4) =
        .ok (joinLabels ls, 12 + (wireLabels ls).length + 4 + 2) := by
      rw [hsplitA]
      exact parse_name_at_pointer _ _ _ ls _ (by simp [write_u16, write_u32] <;> omega)
        (by simp [write_u16, write_u32] <;> omega) hls hw
    have hsplitR1 : write_u16 id ++ (write_u16 (respFlags rd cd) ++ (write_u16 1 ++ (write_u16 1 ++ (write_u16 0 ++ (write_u16 1 ++ (wireLabels ls ++ (write_u16 q.qtype ++ (write_u16 q.qclass ++ (192 :: 12 :: (write_u16 q.qtype ++ (write_u16 q.qclass ++ (write_u32 60 ++ (write_u16 (p.length + (p.length + 254) / 255) ++ (txtChunks p ++ ([0] ++ (write_u16 RR_OPT ++ (write_u16 EDNS_UDP_PAYLOAD ++ (write_u32 0 ++ (write_u16 0))))))))))))))))))) =
        ((write_u16 id ++ (write_u16 (respFlags rd cd) ++ (write_u16 1 ++ (write_u16 1 ++ (write_u16 0 ++ (write_u16 1)))))) ++ (wireLabels ls ++ (write_u16 q.qtype ++ (write_u16 q.qclass ++ ([192, 12]))))) ++ (write_u16 q.qtype ++ (write_u16 q.qclass ++ (write_u32 60 ++ (write_u16 (p.length + (p.length + 254) / 255) ++ (txtChunks p ++ ([0] ++ (write_u16 RR_OPT ++ (write_u16 EDNS_UDP_PAYLOAD ++ (write_u32 0 ++ (write_u16 0)))))))))) := by simp
    have hrq : read_u16 (write_u16 id ++ (write_u16 (respFlags rd cd) ++ (write_u16 1 ++ (write_u16 1 ++ (write_u16 0 ++ (write_u16 1 ++ (wireLabels ls ++ (write_u16 q.qtype ++ (write_u16 q.qclass ++ (192 :: 12 :: (write_u16 q.qtype ++ (write_u16 q.qclass ++ (write_u32 60 ++ (write_u16 (p.length + (p.length + 254) / 255) ++ (txtChunks p ++ ([0] ++ (write_u16 RR_OPT ++ (write_u16 EDNS_UDP_PAYLOAD ++ (write_u32 0 ++ (write_u16 0)))))))))))))))))))) (12 + (wireLabels ls).length + 4 + 2) = some q.qtype := by
      rw [hsplitR1]
      exact read_u16_at _ _ _ q.qtype (by simp [write_u16, write_u32] <;> omega) hqt16
    have hsplitR2 : write_u16 id ++ (write_u16 (respFlags rd cd) ++ (write_u16 1 ++ (write_u16 1 ++ (write_u16 0 ++ (write_u16 1 ++ (wireLabels ls ++ (write_u16 q.qtype ++ (write_u16 q.qclass ++ (192 :: 12 :: (write_u16 q.qtype ++ (write_u16 q.qclass ++ (write_u32 60 ++ (write_u16 (p.length + (p.length + 254) / 255) ++ (txtChunks p ++ ([0] ++ (write_u16 RR_OPT ++ (write_u16 EDNS_UDP_PAYLOAD ++ (write_u32 0 ++ (write_u16 0))))))))))))))))))) =
        ((write_u16 id ++ (write_u16 (respFlags rd cd) ++ (write_u16 1 ++ (write_u16 1 ++ (write_u16 0 ++ (write_u16 1)))))) ++ (wireLabels ls ++ (write_u16 q.qtype ++ (write_u16 q.qclass ++ ([192, 12] ++ (write_u16 q.qtype)))))) ++ (write_u16 q.qclass ++ (write_u32 60 ++ (write_u16 (p.length + (p.length + 254) / 255) ++ (txtChunks p ++ ([0] ++ (write_u16 RR_OPT ++ (write_u16 EDNS_UDP_PAYLOAD ++ (write_u32 0 ++ (write_u16 0))))))))) := by simp
    have hrc2 : read_u16 (write_u16 id ++ (write_u16 (respFlags rd cd) ++ (write_u16 1 ++ (write_u16 1 ++ (write_u16 0 ++ (write_u16 1 ++ (wireLabels ls ++ (write_u16 q.qtype ++ (write_u16 q.qclass ++ (192 :: 12 :: (write_u16 q.qtype ++ (write_u16 q.qclass ++ (write_u32 60 ++ (write_u16 (p.length + (p.length + 254) / 255) ++ (txtChunks p ++ ([0] ++ (write_u16 RR_OPT ++ (write_u16 EDNS_UDP_PAYLOAD ++ (write_u32 0 ++ (write_u16 0)))))))))))))))))))) (12 + (wireLabels ls).length + 4 + 2 + 2) = some q.qclass := by
      rw [hsplitR2]
      exact read_u16_at _ _ _ q.qclass (by simp [write_u16, write_u32] <;> omega) hqc
    obtain ⟨wttl, httl⟩ := read_u32_at_some (write_u16 id ++ (write_u16 (respFlags rd cd) ++ (write_u16 1 ++ (write_u16 1 ++ (write_u16 0 ++ (write_u16 1 ++ (wireLabels ls ++ (write_u16 q.qtype ++ (write_u16 q.qclass ++ (192 :: 12 :: (write_u16 q.qtype ++ (write_u16 q.qclass ++ (write_u32 60 ++ (write_u16 (p.length + (p.length + 254) / 255) ++ (txtChunks p ++ ([0] ++ (write_u16 RR_OPT ++ (write_u16 EDNS_UDP_PAYLOAD ++ (write_u32 0 ++ (write_u16 0)))))))))))))))))))) (12 + (wireLabels ls).length + 4 + 2 + 4) (by omega)
    have hsplitR3 : write_u16 id ++ (write_u16 (respFlags rd cd) ++ (write_u16 1 ++ (write_u16 1 ++ (write_u16 0 ++ (write_u16 1 ++ (wireLabels ls ++ (write_u16 q.qtype ++ (write_u16 q.qclass ++ (192 :: 12 :: (write_u16 q.qtype ++ (write_u16 q.qclass ++ (write_u32 60 ++ (write_u16 (p.length + (p.length + 254) / 255) ++ (txtChunks p ++ ([0] ++ (write_u16 RR_OPT ++ (write_u16 EDNS_UDP_PAYLOAD ++ (write_u32 0 ++ (write_u16 0))))))))))))))))))) =
        ((write_u16 id ++ (write_u16 (respFlags rd cd) ++ (write_u16 1 ++ (write_u16 1 ++ (write_u16 0 ++ (write_u16 1)))))) ++ (wireLabels ls ++ (write_u16 q.qtype ++ (write_u16 q.qclass ++ ([192, 12] ++ (write_u16 q.qtype ++ (write_u16 q.qclass ++ (write_u32 60)))))))) ++ (write_u16 (p.length + (p.length + 254) / 255) ++ (txtChunks p ++ ([0] ++ (write_u16 RR_OPT ++ (write_u16 EDNS_UDP_PAYLOAD ++ (write_u32 0 ++ (write_u16 0))))))) := by simp
    have hrdl : read_u16 (write_u16 id ++ (write_u16 (respFlags rd cd) ++ (write_u16 1 ++ (write_u16 1 ++ (write_u16 0 ++ (write_u16 1 ++ (wireLabels ls ++ (write_u16 q.qtype ++ (write_u16 q.qclass ++ (192 :: 12 :: (write_u16 q.qtype ++ (write_u16 q.qclass ++ (write_u32 60 ++ (write_u16 (p.length + (p.length + 254) / 255) ++ (txtChunks p ++ ([0] ++ (write_u16 RR_OPT ++ (write_u16 EDNS_UDP_PAYLOAD ++ (write_u32 0 ++ (write_u16 0)))))))))))))))))))) (12 + (wireLabels ls).length + 4 + 2 + 8) = some (p.length + (p.length + 254) / 255) := by
      rw [hsplitR3]
      exact read_u16_at _ _ _ (p.length + (p.length + 254) / 255) (by simp [write_u16, write_u32] <;> omega) (by omega)
    have hmeta : parseAnswerMeta (write_u16 id ++ (write_u16 (respFlags rd cd) ++ (write_u16 1 ++ (write_u16 1 ++ (write_u16 0 ++ (write_u16 1 ++ (wireLabels ls ++ (write_u16 q.qtype ++ (write_u16 q.qclass ++ (192 :: 12 :: (write_u16 q.qtype ++ (write_u16 q.qclass ++ (write_u32 60 ++ (write_u16 (p.length + (p.length + 254) / 255) ++ (txtChunks p ++ ([0] ++ (write_u16 RR_OPT ++ (write_u16 EDNS_UDP_PAYLOAD ++ (write_u32 0 ++ (write_u16 0)))))))))))))))))))) (12 + (wireLabels ls).length + 4) =
        some (q.qtype, p.length + (p.length + 254) / 255, 12 + (wireLabels ls).length + 4 + 2 + 10) := by
      simp only [parseAnswerMeta]
      rw [hpn2]
      dsimp only
      rw [if_neg (by omega)]
      rw [hrq, hrc2, httl, hrdl]
      rfl
    have hsplitT : write_u16 id ++ (write_u16 (respFlags rd cd) ++ (write_u16 1 ++ (write_u16 1 ++ (write_u16 0 ++ (write_u16 1 ++ (wireLabels ls ++ (write_u16 q.qtype ++ (write_u16 q.qclass ++ (192 :: 12 :: (write_u16 q.qtype ++ (write_u16 q.qclass ++ (write_u32 60 ++ (write_u16 (p.length + (p.length + 254) / 255) ++ (txtChunks p ++ ([0] ++ (write_u16 RR_OPT ++ (write_u16 EDNS_UDP_PAYLOAD ++ (write_u32 0 ++ (write_u16 0))))))))))))))))))) =
        ((write_u16 id ++ (write_u16 (respFlags rd cd) ++ (write_u16 1 ++ (write_u16 1 ++ (write_u16 0 ++ (write_u16 1)))))) ++ (wireLabels ls ++ (write_u16 q.qtype ++ (write_u16 q.qclass ++ ([192, 12] ++ (write_u16 q.qtype ++ (write_u16 q.qclass ++ (write_u32 60 ++ (write_u16 (p.length + (p.length + 254) / 255)))))))))) ++ (txtChunks p ++ ([0] ++ (write_u16 RR_OPT ++ (write_u16 EDNS_UDP_PAYLOAD ++ (write_u32 0 ++ (write_u16 0)))))) := by simp
    have hrt : readTxtRdata (write_u16 id ++ (write_u16 (respFlags rd cd) ++ (write_u16 1 ++ (write_u16 1 ++ (write_u16 0 ++ (write_u16 1 ++ (wireLabels ls ++ (write_u16 q.qtype ++ (write_u16 q.qclass ++ (192 :: 12 :: (write_u16 q.qtype ++ (write_u16 q.qclass ++ (write_u32 60 ++ (write_u16 (p.length + (p.length + 254) / 255) ++ (txtChunks p ++ ([0] ++ (write_u16 RR_OPT ++ (write_u16 EDNS_UDP_PAYLOAD ++ (write_u32 0 ++ (write_u16 0)))))))))))))))))))) (12 + (wireLabels ls).length + 4 + 2 + 10) (p.length + (p.length + 254) / 255) [] = some p := by
      have hRD : p.length + (p.length + 254) / 255 = (txtChunks p).length := (txtChunks_length p).symm
      simp only [readTxtRdata]
      rw [hsplitT]
      nth_rewrite 2 [hRD]
      nth_rewrite 2 [hRD]
      have hgo := readTxtGo_chunks ((txtChunks p).length) p
        ((write_u16 id ++ (write_u16 (respFlags rd cd) ++ (write_u16 1 ++ (write_u16 1 ++ (write_u16 0 ++ (write_u16 1)))))) ++ (wireLabels ls ++ (write_u16 q.qtype ++ (write_u16 q.qclass ++ ([192, 12] ++ (write_u16 q.qtype ++ (write_u16 q.qclass ++ (write_u32 60 ++ (write_u16 (p.length + (p.length + 254) / 255))))))))))
        ([0] ++ (write_u16 RR_OPT ++ (write_u16 EDNS_UDP_PAYLOAD ++ (write_u32 0 ++ (write_u16 0))))) [] (12 + (wireLabels ls).length + 4 + 2 + 10) (by simp [write_u16, write_u32] <;> omega) le_rfl
      simpa using hgo
    simp only [decode_response]
    rw [hph]
    dsimp only
    rw [respFlags_qr rd cd]
    simp only [Bool.not_true, Bool.false_eq_true, if_false]
    rw [respFlags_rcode rd cd]
    dsimp only
    rw [if_neg (by simp)]
    rw [if_neg (by simp)]
    rw [hskip]
    dsimp only
    rw [hmeta]
    dsimp only
    rw [if_neg (by omega)]
    rw [if_neg (by simp [hqt])]
    rw [hrt]
    dsimp only
    rw [if_neg hp]
  · intro id rd cd q p hbig
    have hplen : 0 < p.length := by omega
    simp only [encode_response, Option.map_some', Option.getD_some, Option.getD_none]
    have e1 : (if 0 < p.length then Rcode.Ok else Rcode.NameError) = Rcode.Ok :=
      if_pos hplen
    simp only [e1]
    simp only [Rcode.to_u8, Nat.or_zero]
    have e2 : (if 0 < p.length ∧ True then (1 : Nat) else 0) = 1 :=
      if_pos ⟨hplen, trivial⟩
    simp only [e2]
    simp only [if_true]
    cases hnm : encode_name q.name (write_u16 id ++
        write_u16 ((32768 ||| 1024 ||| if rd = true then 256 else 0) |||
          if cd = true then 16 else 0) ++
        write_u16 1 ++ write_u16 1 ++ write_u16 0 ++ write_u16 1) with
    | error e => exact ⟨e, rfl⟩
    | ok outN =>
      dsimp only
      rw [if_pos hbig]
      exact ⟨_, rfl⟩
  · intro packet h hph
    refine ⟨?_, ?_, ?_, ?_⟩
    · intro hisr
      simp [decode_response, hph, hisr]
    · intro hrc
      cases hisr : h.is_response with
      | false => simp [decode_response, hph, hisr]
      | true => simp [decode_response, hph, hisr, hrc]
    · intro rc hrc hne
      cases hisr : h.is_response with
      | false => simp [decode_response, hph, hisr]
      | true => simp [decode_response, hph, hisr, hrc, hne]
    · intro han
      cases hisr : h.is_response with
      | false => simp [decode_response, hph, hisr]
      | true =>
        cases hrc : h.rcode with
        | none => simp [decode_response, hph, hisr, hrc]
        | some rc =>
          by_cases hrcok : rc = Rcode.Ok
          · subst hrcok
            simp [decode_response, hph, hisr, hrc, han]
          · simp [decode_response, hph, hisr, hrc, hrcok]
  · intro packet h off qtype rdlen rdOff hph hskip hmeta
    constructor
    · intro hq
      cases hisr : h.is_response with
      | false => simp [decode_response, hph, hisr]
      | true =>
        cases hrc : h.rcode with
        | none => simp [decode_response, hph, hisr, hrc]
        | some rc =>
          by_cases hrcok : rc = Rcode.Ok
          · subst hrcok
            by_cases han : h.ancount = 1
            · by_cases hb : packet.length < rdOff + rdlen ∨ rdlen < 1
              · simp [decode_response, hph, hisr, hrc, han, hskip, hmeta, hb]
                intro h1 h2 _
                rcases hb with hb | hb <;> omega
              · simp [decode_response, hph, hisr, hrc, han, hskip, hmeta, hb, hq]
            · simp [decode_response, hph, hisr, hrc, han]
          · simp [decode_response, hph, hisr, hrc, hrcok]
    · intro hrt
      cases hisr : h.is_response with
      | false => simp [decode_response, hph, hisr]
      | true =>
        cases hrc : h.rcode with
        | none => simp [decode_response, hph, hisr, hrc]
        | some rc =>
          by_cases hrcok : rc = Rcode.Ok
          · subst hrcok
            by_cases han : h.ancount = 1
            · by_cases hb : packet.length < rdOff + rdlen ∨ rdlen < 1
              · simp [decode_response, hph, hisr, hrc, han, hskip, hmeta, hb]
                intro h1 h2 _
                rcases hb with hb | hb <;> omega
              · by_cases hq : qtype = RR_TXT
                · simp [decode_response, hph, hisr, hrc, han, hskip, hmeta, hb, hq, hrt]
                · simp [decode_response, hph, hisr, hrc, han, hskip, hmeta, hb, hq]
            · simp [decode_response, hph, hisr, hrc, han]
          · simp [decode_response, hph, hisr, hrc, hrcok]

/-- Witness for C3: a concrete id-7 response on question `a.b.` (TXT, IN)
with payload `[42]` encodes and decodes back to `[42]`. -/
theorem encode_decode_response_spec_witness :
    ∃ out1, encode_response ⟨7, false, false, ⟨[97, 46, 98, 46], RR_TXT, CLASS_IN⟩,
      some [42], none⟩ = .ok out1 ∧ decode_response out1 = some [42] := by
  refine ⟨_, rfl, ?_⟩
  exact encode_decode_response_spec.1 7 false false ⟨[97, 46, 98, 46], RR_TXT, CLASS_IN⟩
    [42] _ (by decide) rfl (by decide) (by decide) (by decide) rfl

/-! ## Client DNS response handling (`slipstream-client/src/dns/response.rs`)

Addresses are modelled as opaque `Nat` keys already normalised by
`normalize_dual_stack_addr`; the `picoquic_incoming_packet_ex` FFI call is an
oracle given by its return value `quicRet` and the reported `firstPath`;
`inflight_poll_ids` (a `HashSet<u16>`) is a list with `filter` as `remove`;
`usize` counters saturate at `U64_MAX`. -/

/-- `MAX_POLL_BURST = PICOQUIC_PACKET_LOOP_RECV_MAX` from `response.rs`. -/
def MAX_POLL_BURST : Nat := 10

/-- `ResolverMode` from `slipstream-ffi`. -/
inductive ResolverMode where
  | Recursive
  | Authoritative
deriving Repr, DecidableEq

/-- The fields of `ResolverState` read or written by `handle_dns_response`
(`debug.dns_responses` is inlined as `dns_responses`). -/
structure ResolverState where
  addr : Nat
  path_id : Int
  added : Bool
  mode : ResolverMode
  dns_responses : Nat
  pending_polls : Nat
  inflight_poll_ids : List Nat
deriving Repr, DecidableEq

/-- `dns_response_id` from `response.rs`. -/
def dns_response_id (packet : List Nat) : Option Nat :=
  if packet.length < 12 then none
  else
    let flags := 256 * packet.getD 2 0 + packet.getD 3 0
    if flags &&& 0x8000 = 0 then none
    else some (256 * packet.getD 0 0 + packet.getD 1 0)

/-- `find_resolver_by_path_id` from `response.rs`, as an index. -/
def findIdxByPath (resolvers : List ResolverState) (path_id : Int) : Option Nat :=
  if path_id < 0 then none
  else resolvers.findIdx? (fun r => r.added && r.path_id == path_id)

/-- `find_resolver_by_addr` from `response.rs`, as an index. -/
def findIdxByAddr (resolvers : List ResolverState) (peer : Nat) : Option Nat :=
  resolvers.findIdx? (fun r => r.addr == peer)

/-- The in-place updates applied to the resolver found on the
decoded-payload path of `handle_dns_response`. -/
def updateResolver (r : ResolverState) (first_path : Int) (response_id : Option Nat) :
    ResolverState :=
  let r1 := if 0 ≤ first_path ∧ r.path_id ≠ first_path then
    { r with path_id := first_path, added := true } else r
  let r2 := { r1 with dns_responses := sat64 r1.dns_responses 1 }
  let r3 := match response_id with
    | some rid =>
      if r2.mode = ResolverMode.Authoritative then
        { r2 with inflight_poll_ids := r2.inflight_poll_ids.filter (· ≠ rid) }
      else r2
    | none => r2
  { r3 with pending_polls := min (sat64 r3.pending_polls 1) MAX_POLL_BURST }

/-- `handle_dns_response` from `response.rs` (resolver list returned in place
of the `&mut` slice). -/
def handle_dns_response (buf : List Nat) (peer : Nat) (resolvers : List ResolverState)
    (quicRet firstPath : Int) : Except String (List ResolverState) :=
  let response_id := dns_response_id buf
  match decode_response buf with
  | some _payload =>
    if quicRet < 0 then .error "Failed processing inbound QUIC packet"
    else
      match (match findIdxByPath resolvers firstPath with
        | some j => some j
        | none => findIdxByAddr resolvers peer) with
      | some i =>
        .ok (resolvers.modify (fun r => updateResolver r firstPath response_id) i)
      | none => .ok resolvers
  | none =>
    match response_id with
    | some rid =>
      match findIdxByAddr resolvers peer with
      | some i =>
        .ok (resolvers.modify (fun r =>
          let r2 := { r with dns_responses := sat64 r.dns_responses 1 }
          if r2.mode = ResolverMode.Authoritative then
            { r2 with inflight_poll_ids := r2.inflight_poll_ids.filter (· ≠ rid) }
          else r2) i)
      | none => .ok resolvers
    | none => .ok resolvers

theorem updateResolver_pending (r : ResolverState) (fp : Int) (rid : Option Nat) :
    (updateResolver r fp rid).pending_polls =
      min (min (r.pending_polls + 1) U64_MAX) MAX_POLL_BURST := by
  cases rid with
  | none => simp only [updateResolver, sat64]; split <;> rfl
  | some x => simp only [updateResolver, sat64]; split <;> split <;> rfl

/-- Counterexample to C7 as stated: the server encodes an empty (no-payload)
response with RCODE NameError; `decode_response` rejects it, so
`handle_dns_response` records it (`dns_responses` 0 → 1) without touching
`pending_polls` (3 → 3). -/
theorem pending_polls_not_refilled_on_empty_response :
    ∃ out, encode_response ⟨0, false, false, ⟨[97, 46, 98, 46], RR_TXT, CLASS_IN⟩,
        none, none⟩ = .ok out ∧
      dns_response_id out = some 0 ∧
      decode_response out = none ∧
      handle_dns_response out 5 [⟨5, -1, false, ResolverMode.Recursive, 0, 3, []⟩]
          0 (-1) =
        .ok [⟨5, -1, false, ResolverMode.Recursive, 1, 3, []⟩] := by
  refine ⟨_, rfl, ?_, ?_, ?_⟩ <;> decide

/-- C7 (amended): on the decoded-payload path, the selected resolver's
`pending_polls` becomes `min (pending_polls + 1) MAX_POLL_BURST` and other
resolvers are untouched; when `decode_response` yields no payload, no
resolver's `pending_polls` changes. -/
theorem pending_polls_refill_spec :
    (∀ (buf : List Nat) (peer : Nat) (resolvers : List ResolverState)
       (quicRet firstPath : Int) (payload : List Nat) (i : Nat) (r : ResolverState),
      decode_response buf = some payload →
      ¬ quicRet < 0 →
      (match findIdxByPath resolvers firstPath with
        | some j => some j
        | none => findIdxByAddr resolvers peer) = some i →
      resolvers[i]? = some r →
      handle_dns_response buf peer resolvers quicRet firstPath =
        .ok (resolvers.modify (fun r' => updateResolver r' firstPath (dns_response_id buf)) i) ∧
      (resolvers.modify (fun r' => updateResolver r' firstPath (dns_response_id buf)) i)[i]? =
        some (updateResolver r firstPath (dns_response_id buf)) ∧
      (updateResolver r firstPath (dns_response_id buf)).pending_polls =
        min (r.pending_polls + 1) MAX_POLL_BURST ∧
      (∀ j, j ≠ i →
        (resolvers.modify (fun r' => updateResolver r' firstPath (dns_response_id buf)) i)[j]? =
          resolvers[j]?)) ∧
    (∀ (buf : List Nat) (peer : Nat) (resolvers : List ResolverState)
       (quicRet firstPath : Int) (resolvers' : List ResolverState),
      decode_response buf = none →
      handle_dns_response buf peer resolvers quicRet firstPath = .ok resolvers' →
      resolvers'.length = resolvers.length ∧
      ∀ (j : Nat) (r' r : ResolverState), resolvers'[j]? = some r' →
        resolvers[j]? = some r → r'.pending_polls = r.pending_polls) := by
  constructor
  · intro buf peer resolvers quicRet firstPath payload i r hdec hret hidx hget
    refine ⟨?_, ?_, ?_, ?_⟩
    · simp only [handle_dns_response]
      rw [hdec]
      dsimp only
      rw [if_neg hret, hidx]
    · rw [List.getElem?_modify_eq, hget]
      rfl
    · rw [updateResolver_pending]
      have h10 : MAX_POLL_BURST ≤ U64_MAX := by decide
      omega
    · intro j hj
      exact List.getElem?_modify_ne _ _ (Ne.symm hj)
  · intro buf peer resolvers quicRet firstPath resolvers' hdec hok
    simp only [handle_dns_response] at hok
    rw [hdec] at hok
    dsimp only at hok
    cases hrid : dns_response_id buf with
    | none =>
      rw [hrid] at hok
      obtain rfl : resolvers = resolvers' := by
        simpa using hok
      exact ⟨rfl, fun j r' r h1 h2 => by rw [h1] at h2; cases h2; rfl⟩
    | some rid =>
      rw [hrid] at hok
      cases hfind : findIdxByAddr resolvers peer with
      | none =>
        rw [hfind] at hok
        obtain rfl : resolvers = resolvers' := by simpa using hok
        exact ⟨rfl, fun j r' r h1 h2 => by rw [h1] at h2; cases h2; rfl⟩
      | some k =>
        rw [hfind] at hok
        have hr : resolvers' = resolvers.modify (fun r =>
            let r2 := { r with dns_responses := sat64 r.dns_responses 1 }
            if r2.mode = ResolverMode.Authoritative then
              { r2 with inflight_poll_ids := r2.inflight_poll_ids.filter (· ≠ rid) }
            else r2) k := by
          simpa using hok.symm
        subst hr
        refine ⟨List.length_modify _ _ _, ?_⟩
        intro j r' r h1 h2
        by_cases hjk : j = k
        · subst hjk
          rw [List.getElem?_modify_eq, h2] at h1
          simp only [Option.map_some'] at h1
          cases h1
          dsimp only
          split <;> rfl
        · rw [List.getElem?_modify_ne _ _ (Ne.symm hjk), h2] at h1
          cases h1
          rfl

/-- Witness for C7: a concrete single-chunk TXT response to resolver 5
(payload `[42]`) bumps `pending_polls` from 0 to `min 1 MAX_POLL_BURST`. -/
theorem pending_polls_refill_spec_witness :
    handle_dns_response
        [0, 0, 132, 0, 0, 0, 0, 1, 0, 0, 0, 0, 0, 0, 16, 0, 1, 0, 0, 0, 60, 0, 2, 1, 42]
        5 [⟨5, -1, false, ResolverMode.Recursive, 0, 0, []⟩] 0 (-1) =
      .ok ([⟨5, -1, false, ResolverMode.Recursive, 0, 0, []⟩].modify
        (fun r' => updateResolver r' (-1) (dns_response_id
          [0, 0, 132, 0, 0, 0, 0, 1, 0, 0, 0, 0, 0, 0, 16, 0, 1, 0, 0, 0, 60, 0, 2, 1, 42])) 0) ∧
    (updateResolver ⟨5, -1, false, ResolverMode.Recursive, 0, 0, []⟩ (-1)
        (dns_response_id
          [0, 0, 132, 0, 0, 0, 0, 1, 0, 0, 0, 0, 0, 0, 16, 0, 1, 0, 0, 0, 60, 0, 2, 1, 42])).pending_polls =
      min (0 + 1) MAX_POLL_BURST := by
  have h := pending_polls_refill_spec.1
    [0, 0, 132, 0, 0, 0, 0, 1, 0, 0, 0, 0, 0, 0, 16, 0, 1, 0, 0, 0, 60, 0, 2, 1, 42]
    5 [⟨5, -1, false, ResolverMode.Recursive, 0, 0, []⟩] 0 (-1) [42] 0
    ⟨5, -1, false, ResolverMode.Recursive, 0, 0, []⟩
    (by decide) (by decide) (by decide) (by decide)
  exact ⟨h.1, h.2.2.1⟩

/-! ## Query decoding (`codec.rs::decode_query_with_domains`)

`dots.rs` and `base32.rs` are not present in the source tree; `undotify` and
`base32Decode` below are modelled from the spec. -/

/-- Modelled from the spec: "undotify" concatenates the subdomain labels,
i.e. removes the `.` (0x2E) separators. -/
def undotify (s : List Nat) : List Nat := s.filter (· ≠ 46)

/-- Modelled from the spec: RFC 4648 base32 alphabet value of one octet,
case-insensitive (`A`-`Z`/`a`-`z` → 0–25, `2`-`7` → 26–31), anything else
is a decode failure. -/
def base32Val (c : Nat) : Option Nat :=
  if 65 ≤ c ∧ c ≤ 90 then some (c - 65)
  else if 97 ≤ c ∧ c ≤ 122 then some (c - 97)
  else if 50 ≤ c ∧ c ≤ 55 then some (c - 50 + 26)
  else none

/-- Modelled from the spec: unpadded base32 bit accumulation (5 bits per
character, a byte is emitted whenever 8 bits are available; trailing bits
are discarded). -/
def base32DecodeGo : List Nat → Nat → Nat → List Nat → Option (List Nat)
  | [], _, _, out => some out
  | c :: rest, acc, bits, out =>
    match base32Val c with
    | none => none
    | some v =>
      let acc' := (acc <<< 5) ||| v
      let bits' := bits + 5
      if 8 ≤ bits' then
        base32DecodeGo rest (acc' % 2 ^ (bits' - 8)) (bits' - 8)
          (out ++ [acc' >>> (bits' - 8)])
      else base32DecodeGo rest acc' bits' out

/-- Modelled from the spec: case-insensitive unpadded base32 decoding. -/
def base32Decode (s : List Nat) : Option (List Nat) := base32DecodeGo s 0 0 []

/-- `DecodeQueryError` from `types.rs`. -/
inductive DecodeQueryError where
  | Drop
  | Reply (id : Nat) (rd cd : Bool) (question : Option Question) (rcode : Rcode)
deriving Repr, DecidableEq

/-- `DecodedQuery` from `types.rs`. -/
structure DecodedQuery where
  id : Nat
  rd : Bool
  cd : Bool
  question : Question
  payload : List Nat
deriving Repr, DecidableEq

/-- `decode_query_with_domains` from `codec.rs`. -/
def decode_query_with_domains (packet : List Nat) (domains : List (List Nat)) :
    Except DecodeQueryError DecodedQuery :=
  match parse_header packet with
  | none => .error .Drop
  | some header =>
    let rd := header.rd
    let cd := header.cd
    if header.is_response then
      match parse_question_for_reply packet header.qdcount header.offset with
      | .error _ => .error .Drop
      | .ok question => .error (.Reply header.id rd cd question Rcode.FormatError)
    else if header.qdcount ≠ 1 then
      match parse_question_for_reply packet header.qdcount header.offset with
      | .error _ => .error .Drop
      | .ok question => .error (.Reply header.id rd cd question Rcode.FormatError)
    else
      match parse_question packet header.offset with
      | .error _ => .error .Drop
      | .ok (question, _) =>
        if question.qtype ≠ RR_TXT then
          .error (.Reply header.id rd cd (some question) Rcode.NameError)
        else
          match extract_subdomain_multi question.name domains with
          | .error rcode => .error (.Reply header.id rd cd (some question) rcode)
          | .ok subdomain_raw =>
            let undotted := undotify subdomain_raw
            if undotted = [] then
              .error (.Reply header.id rd cd (some question) Rcode.NameError)
            else
              match base32Decode undotted with
              | none => .error (.Reply header.id rd cd (some question) Rcode.ServerFailure)
              | some payload =>
                .ok ⟨header.id, rd, cd, question, payload⟩

/-- C5: decode_query_with_domains maps each malformed input to exactly the
outcome the source specifies: unparseable header or question → Drop; QR=1 →
FORMERR reply (Drop if the first question is malformed); QDCOUNT ≠ 1 →
FORMERR reply (Drop if the first question is malformed); QTYPE ≠ TXT →
NXDOMAIN reply; apex-extraction failure → its rcode; empty subdomain after
undotify → NXDOMAIN; base32 failure → SERVFAIL; otherwise the decoded query
with its payload. -/
theorem decode_query_error_mapping :
    (∀ (packet : List Nat) (domains : List (List Nat)),
      parse_header packet = none →
      decode_query_with_domains packet domains = .error .Drop) ∧
    (∀ (packet : List Nat) (domains : List (List Nat)) (h : Header),
      parse_header packet = some h → h.is_response = true →
      (∀ oq, parse_question_for_reply packet h.qdcount h.offset = .ok oq →
        decode_query_with_domains packet domains =
          .error (.Reply h.id h.rd h.cd oq Rcode.FormatError)) ∧
      (parse_question_for_reply packet h.qdcount h.offset = .error () →
        decode_query_with_domains packet domains = .error .Drop)) ∧
    (∀ (packet : List Nat) (domains : List (List Nat)) (h : Header),
      parse_header packet = some h → h.is_response = false → h.qdcount ≠ 1 →
      (∀ oq, parse_question_for_reply packet h.qdcount h.offset = .ok oq →
        decode_query_with_domains packet domains =
          .error (.Reply h.id h.rd h.cd oq Rcode.FormatError)) ∧
      (parse_question_for_reply packet h.qdcount h.offset = .error () →
        decode_query_with_domains packet domains = .error .Drop)) ∧
    (∀ (packet : List Nat) (domains : List (List Nat)) (h : Header) (e : String),
      parse_header packet = some h → h.is_response = false → h.qdcount = 1 →
      parse_question packet h.offset = .error e →
      decode_query_with_domains packet domains = .error .Drop) ∧
    (∀ (packet : List Nat) (domains : List (List Nat)) (h : Header) (q : Question)
       (off2 : Nat),
      parse_header packet = some h → h.is_response = false → h.qdcount = 1 →
      parse_question packet h.offset = .ok (q, off2) → q.qtype ≠ RR_TXT →
      decode_query_with_domains packet domains =
        .error (.Reply h.id h.rd h.cd (some q) Rcode.NameError)) ∧
    (∀ (packet : List Nat) (domains : List (List Nat)) (h : Header) (q : Question)
       (off2 : Nat) (rc : Rcode),
      parse_header packet = some h → h.is_response = false → h.qdcount = 1 →
      parse_question packet h.offset = .ok (q, off2) → q.qtype = RR_TXT →
      extract_subdomain_multi q.name domains = .error rc →
      decode_query_with_domains packet domains =
        .error (.Reply h.id h.rd h.cd (some q) rc)) ∧
    (∀ (packet : List Nat) (domains : List (List Nat)) (h : Header) (q : Question)
       (off2 : Nat) (sub : List Nat),
      parse_header packet = some h → h.is_response = false → h.qdcount = 1 →
      parse_question packet h.offset = .ok (q, off2) → q.qtype = RR_TXT →
      extract_subdomain_multi q.name domains = .ok sub → undotify sub = [] →
      decode_query_with_domains packet domains =
        .error (.Reply h.id h.rd h.cd (some q) Rcode.NameError)) ∧
    (∀ (packet : List Nat) (domains : List (List Nat)) (h : Header) (q : Question)
       (off2 : Nat) (sub : List Nat),
      parse_header packet = some h → h.is_response = false → h.qdcount = 1 →
      parse_question packet h.offset = .ok (q, off2) → q.qtype = RR_TXT →
      extract_subdomain_multi q.name domains = .ok sub → undotify sub ≠ [] →
      base32Decode (undotify sub) = none →
      decode_query_with_domains packet domains =
        .error (.Reply h.id h.rd h.cd (some q) Rcode.ServerFailure)) ∧
    (∀ (packet : List Nat) (domains : List (List Nat)) (h : Header) (q : Question)
       (off2 : Nat) (sub payload : List Nat),
      parse_header packet = some h → h.is_response = false → h.qdcount = 1 →
      parse_question packet h.offset = .ok (q, off2) → q.qtype = RR_TXT →
      extract_subdomain_multi q.name domains = .ok sub → undotify sub ≠ [] →
      base32Decode (undotify sub) = some payload →
      decode_query_with_domains packet domains = .ok ⟨h.id, h.rd, h.cd, q, payload⟩) := by
  refine ⟨?_, ?_, ?_, ?_, ?_, ?_, ?_, ?_, ?_⟩
  · intro packet domains hph
    simp only [decode_query_with_domains, hph]
  · intro packet domains h hph hisr
    constructor
    · intro oq hq
      simp only [decode_query_with_domains]
      rw [hph]
      dsimp only
      rw [hisr, if_pos rfl, hq]
    · intro hq
      simp only [decode_query_with_domains]
      rw [hph]
      dsimp only
      rw [hisr, if_pos rfl, hq]
  · intro packet domains h hph hisr hqd
    constructor
    · intro oq hq
      simp only [decode_query_with_domains]
      rw [hph]
      dsimp only
      rw [hisr, if_neg (by simp), if_pos hqd, hq]
    · intro hq
      simp only [decode_query_with_domains]
      rw [hph]
      dsimp only
      rw [hisr, if_neg (by simp), if_pos hqd, hq]
  · intro packet domains h e hph hisr hqd hq
    simp only [decode_query_with_domains]
    rw [hph]
    dsimp only
    rw [hisr, if_neg (by simp), if_neg (by simp [hqd]), hq]
  · intro packet domains h q off2 hph hisr hqd hq hqt
    simp only [decode_query_with_domains]
    rw [hph]
    dsimp only
    rw [hisr, if_neg (by simp), if_neg (by simp [hqd]), hq]
    dsimp only
    rw [if_pos hqt]
  · intro packet domains h q off2 rc hph hisr hqd hq hqt hext
    simp only [decode_query_with_domains]
    rw [hph]
    dsimp only
    rw [hisr, if_neg (by simp), if_neg (by simp [hqd]), hq]
    dsimp only
    rw [if_neg (by simp [hqt]), hext]
  · intro packet domains h q off2 sub hph hisr hqd hq hqt hext hud
    simp only [decode_query_with_domains]
    rw [hph]
    dsimp only
    rw [hisr, if_neg (by simp), if_neg (by simp [hqd]), hq]
    dsimp only
    rw [if_neg (by simp [hqt]), hext]
    dsimp only
    rw [if_pos hud]
  · intro packet domains h q off2 sub hph hisr hqd hq hqt hext hud hb32
    simp only [decode_query_with_domains]
    rw [hph]
    dsimp only
    rw [hisr, if_neg (by simp), if_neg (by simp [hqd]), hq]
    dsimp only
    rw [if_neg (by simp [hqt]), hext]
    dsimp only
    rw [if_neg hud, hb32]
  · intro packet domains h q off2 sub payload hph hisr hqd hq hqt hext hud hb32
    simp only [decode_query_with_domains]
    rw [hph]
    dsimp only
    rw [hisr, if_neg (by simp), if_neg (by simp [hqd]), hq]
    dsimp only
    rw [if_neg (by simp [hqt]), hext]
    dsimp only
    rw [if_neg hud, hb32]

/-- Witness for C5: a concrete TXT query `me.x.` under apex `x` decodes to
payload `[97]` (base32 "me" → one byte 0x61). -/
theorem decode_query_error_mapping_witness :
    decode_query_with_domains
        [0, 1, 0, 0, 0, 1, 0, 0, 0, 0, 0, 0, 2, 109, 101, 1, 120, 0, 0, 16, 0, 1]
        [[120]] =
      .ok ⟨1, false, false, ⟨[109, 101, 46, 120, 46], 16, 1⟩, [97]⟩ := by
  have h := decode_query_error_mapping.2.2.2.2.2.2.2.2
    [0, 1, 0, 0, 0, 1, 0, 0, 0, 0, 0, 0, 2, 109, 101, 1, 120, 0, 0, 16, 0, 1]
    [[120]] ⟨1, false, false, false, 1, 0, some Rcode.Ok, 12⟩
    ⟨[109, 101, 46, 120, 46], 16, 1⟩ 22 [109, 101] [97]
    (by decide) (by decide) (by decide) (by decide) (by decide) (by decide)
    (by decide) (by decide)
  exact h
